import Mathlib

/-! Binary STL export (`write_stlbin.cxx`)

A shallow embedding of the binary STL writer: the two byte-level writers
(`write_unsigned`, `write_float`), the facet emitter (`print_triangle`), the
two recursive walks over the shape tree (`count_mesh_for_shape`,
`print_mesh_for_shape`), the per-product drivers and the top-level
`write_binary_stl`.

Conventions.

* A byte is a natural number below 256; a stream is the list of bytes that
  were appended to it, in order.
* `unsigned` is a natural number reduced modulo `2 ^ 32` after every
  arithmetic step.
* The STEP Tools libraries (`stix`, `stixmesh`, `rose`) are not part of the
  program.  Their types and operations are parameters: `Prims` collects the
  matrix and float primitives, `StixMeshFacetSet` is the interface of a facet
  set, `Model` is the in-memory assembly data reached through pointers.
* Pointers to representations, items and products are natural numbers; a null
  pointer is `none`.
* The recursion of the two walks follows pointers of a graph that may contain
  a cycle, so both take a recursion budget (`fuel`) and answer `none` when it
  is used up.
-/

namespace StlBin

/-! ## Machine integers and bytes -/

/-- Number of values of a 32-bit `unsigned`. -/
def UINT_MOD : Nat := 2 ^ 32

/-- The effect of `putc (c, file)`: the value is converted to `unsigned char`
and appended to the stream. -/
def putc (c : Nat) : List Nat := [c % 256]

/-- Little-endian value of a byte sequence. -/
def le_decode : List Nat → Nat
  | [] => 0
  | b :: rest => b + 256 * le_decode rest

/-- The four bytes, least significant first, of a 32-bit pattern. -/
def le_bytes32 (bits : Nat) : List Nat :=
  [bits % 256, bits / 256 % 256, bits / 65536 % 256, bits / 16777216 % 256]

/-! ## External primitives -/

/-- A `double[3]`. -/
structure Dbl3 (D : Type) where
  e0 : D
  e1 : D
  e2 : D

/-- The operations of the libraries on `double` and `StixMtrx` that the
writer calls.  `D` stands for `double`, `M` for `StixMtrx`. -/
structure Prims (D M : Type) where
  /-- The 32-bit pattern of `(float) val`. -/
  float_bits : D → Nat
  /-- The default-constructed `StixMtrx`. -/
  identity : M
  /-- The product `a * b` of `StixMtrx::operator*`. -/
  mul : M → M → M
  /-- The point transform `stixmesh_transform (out, xform, in)`. -/
  stixmesh_transform : M → Dbl3 D → Dbl3 D
  /-- The direction transform `stixmesh_transform_dir (out, xform, in)`. -/
  stixmesh_transform_dir : M → Dbl3 D → Dbl3 D

/-- The compilation host: the in-memory layout of a 32-bit float, whether a
header included at lines 21-25 already defines `BIG_ENDIAN`, and the
predefined macros that lines 334-342 test. -/
structure Host where
  /-- The most significant byte of a float is stored first. -/
  big_endian_layout : Bool
  /-- An included header defines `BIG_ENDIAN`. -/
  headers_define_BIG_ENDIAN : Bool
  _AIX : Bool
  __sparc : Bool
  __hpux : Bool
  __APPLE__ : Bool
  __ppc__ : Bool
  __ppc64__ : Bool

/-- Whether `BIG_ENDIAN` is defined where `write_float` tests it: by a header,
or by lines 334-342. -/
def BIG_ENDIAN (h : Host) : Bool :=
  h.headers_define_BIG_ENDIAN ||
    ((h._AIX || h.__sparc || h.__hpux) || (h.__APPLE__ && (h.__ppc__ || h.__ppc64__)))

/-- Byte `i` of the union `olbuf` after `olbuf.float_elem` received a float
with the given bit pattern: `olbuf.words[i]`. -/
def olbuf_words (h : Host) (bits : Nat) (i : Nat) : Nat :=
  if h.big_endian_layout then (bits % UINT_MOD) / 256 ^ (3 - i) % 256
  else (bits % UINT_MOD) / 256 ^ i % 256

/-! ## Binary utilities -/

/-- Embedding of `write_float`: the bytes appended to the stream. -/
def write_float {D M : Type} (P : Prims D M) (h : Host) (val : D) : List Nat :=
  let words := olbuf_words h (P.float_bits val)
  if BIG_ENDIAN h then
    putc (words 3) ++ putc (words 2) ++ putc (words 1) ++ putc (words 0)
  else
    putc (words 0) ++ putc (words 1) ++ putc (words 2) ++ putc (words 3)

/-- Embedding of `write_unsigned`: the bytes appended to the stream. -/
def write_unsigned (val : Nat) : List Nat :=
  putc (val &&& 0xff) ++ putc ((val >>> 8) &&& 0xff) ++
    putc ((val >>> 16) &&& 0xff) ++ putc ((val >>> 24) &&& 0xff)

/-! ## Facet sets -/

/-- A `StixMeshFacet`: three vertex indices and one normal index. -/
structure StixMeshFacet where
  verts : Fin 3 → Nat
  facet_normal : Nat

/-- The interface of `StixMeshFacetSet` that the writer uses.  `getFacet`
answers `none` for a null pointer; `getFacetCount` is an `unsigned`, so only
values below `2 ^ 32` occur. -/
structure StixMeshFacetSet (D : Type) where
  getFacetCount : Nat
  getFacet : Nat → Option StixMeshFacet
  getNormal : Nat → Dbl3 D
  getVertex : Nat → Dbl3 D

/-- The three `write_float` calls for the components of a `double[3]`. -/
def write_dbl3 {D M : Type} (P : Prims D M) (h : Host) (v : Dbl3 D) : List Nat :=
  write_float P h v.e0 ++ write_float P h v.e1 ++ write_float P h v.e2

/-- Embedding of `print_triangle` (the `#else` branch of the normal
computation, the macro of the `#ifdef` being defined nowhere): the bytes
appended to the stream. -/
def print_triangle {D M : Type} (P : Prims D M) (h : Host)
    (fs : StixMeshFacetSet D) (xform : M) (facet_num : Nat) : List Nat :=
  match fs.getFacet facet_num with
  | none => []
  | some f =>
    write_dbl3 P h (P.stixmesh_transform_dir xform (fs.getNormal f.facet_normal)) ++
    write_dbl3 P h (P.stixmesh_transform xform (fs.getVertex (f.verts 0))) ++
    write_dbl3 P h (P.stixmesh_transform xform (fs.getVertex (f.verts 1))) ++
    write_dbl3 P h (P.stixmesh_transform xform (fs.getVertex (f.verts 2))) ++
    putc 0 ++ putc 0

/-! ## The assembly data -/

/-- A `StixMeshStp`, the cached mesh of a representation item. -/
structure StixMeshStp (D : Type) where
  getFacetSet : StixMeshFacetSet D

/-- A child linkage, either a `stp_shape_representation_relationship` or a
`stp_mapped_item`: what `stix_get_shape_usage_child_rep` and
`stix_get_shape_usage_xform` answer for it. -/
structure Linkage (M : Type) where
  child_rep : Option Nat
  xform : M

/-- A `StixMgrAsmShapeRep`. -/
structure StixMgrAsmShapeRep (M : Type) where
  child_rels : List (Linkage M)
  child_mapped_items : List (Linkage M)

/-- A `StixMgrAsmProduct`: the shape representations of a product (a null
entry is `none`). -/
structure StixMgrAsmProduct where
  shapes : List (Option Nat)

/-- The data the writer reads through pointers, after the meshing pass. -/
structure Model (D M : Type) where
  /-- The list `rep->items()` of a representation. -/
  items : Nat → List Nat
  /-- The answer of `stixmesh_cache_find (it)`. -/
  stixmesh_cache_find : Nat → Option (StixMeshStp D)
  /-- The answer of `StixMgrAsmShapeRep::find (rep)`. -/
  rep_mgr : Nat → Option (StixMgrAsmShapeRep M)
  /-- The answer of `StixMgrAsmProduct::find (pd)`. -/
  prod_mgr : Nat → Option StixMgrAsmProduct

/-- Representation `c` is the target of a child linkage of representation `r`. -/
def IsChild {D M : Type} (g : Model D M) (c r : Nat) : Prop :=
  ∃ m, g.rep_mgr r = some m ∧
    ∃ l ∈ m.child_rels ++ m.child_mapped_items, l.child_rep = some c

/-- Finitely many representations have child linkages. -/
def FiniteGraph {D M : Type} (g : Model D M) : Prop :=
  ∃ N, ∀ r, N ≤ r → g.rep_mgr r = none

/-- No representation is reached from itself along child linkages. -/
def NoCycle {D M : Type} (g : Model D M) : Prop :=
  ∀ r, ¬ Relation.TransGen (IsChild g) r r

/-- A finite assembly graph without cycles. -/
def Acyclic {D M : Type} (g : Model D M) : Prop :=
  FiniteGraph g ∧ NoCycle g

/-- Every facet set in the mesh cache answers `getFacet` with a facet for
every index below its `getFacetCount`. -/
def FacetsResolve {D M : Type} (g : Model D M) : Prop :=
  ∀ it mesh, g.stixmesh_cache_find it = some mesh →
    ∀ j, j < mesh.getFacetSet.getFacetCount → (mesh.getFacetSet.getFacet j).isSome

/-- No item of representation `r` or of a representation reached from it
along child linkages has a cached mesh. -/
def NoMeshBelow {D M : Type} (g : Model D M) (r : Nat) : Prop :=
  ∀ r2, Relation.ReflTransGen (fun a b => IsChild g b a) r r2 →
    ∀ it ∈ g.items r2, g.stixmesh_cache_find it = none

/-! ## Counting pass -/

/-- The loop of `count_mesh_for_shape` over the items (lines 126-133),
started with the running `count`. -/
def count_items {D M : Type} (g : Model D M) : List Nat → Nat → Nat
  | [], count => count
  | it :: rest, count =>
    match g.stixmesh_cache_find it with
    | none => count_items g rest count
    | some mesh =>
      count_items g rest ((count + mesh.getFacetSet.getFacetCount) % UINT_MOD)

/-- The loops of `count_mesh_for_shape` over the child linkages (lines
139-144 and 146-151), started with the running `count`; `self` is the
recursive call. -/
def count_children {M : Type} (self : Option Nat → Option Nat) :
    List (Linkage M) → Nat → Option Nat
  | [], count => some count
  | rel :: rest, count =>
    match self rel.child_rep with
    | none => none
    | some c => count_children self rest ((count + c) % UINT_MOD)

/-- Embedding of `count_mesh_for_shape`. -/
def count_mesh_for_shape {D M : Type} (g : Model D M) : Nat → Option Nat → Option Nat
  | 0, _ => none
  | _ + 1, none => some 0
  | fuel + 1, some rep =>
    let count := count_items g (g.items rep) 0
    match g.rep_mgr rep with
    | none => some count
    | some rep_mgr =>
      match count_children (count_mesh_for_shape g fuel) rep_mgr.child_rels count with
      | none => none
      | some count => count_children (count_mesh_for_shape g fuel) rep_mgr.child_mapped_items count

/-- The loop of `count_mesh_for_product` over the shapes (lines 165-169). -/
def count_shapes {D M : Type} (g : Model D M) (fuel : Nat) :
    List (Option Nat) → Nat → Option Nat
  | [], count => some count
  | rep :: rest, count =>
    match count_mesh_for_shape g fuel rep with
    | none => none
    | some c => count_shapes g fuel rest ((count + c) % UINT_MOD)

/-- Embedding of `count_mesh_for_product`. -/
def count_mesh_for_product {D M : Type} (g : Model D M) (fuel : Nat) (pd : Nat) :
    Option Nat :=
  match g.prod_mgr pd with
  | none => some 0
  | some pm => count_shapes g fuel pm.shapes 0

/-! ## Emitting pass -/

/-- The loop over the facets of one facet set (lines 258-260), from index `j`
for `n` more rounds. -/
def print_facets {D M : Type} (P : Prims D M) (h : Host)
    (fs : StixMeshFacetSet D) (xform : M) : Nat → Nat → List Nat
  | _, 0 => []
  | j, n + 1 => print_triangle P h fs xform j ++ print_facets P h fs xform (j + 1) n

/-- The loop of `print_mesh_for_shape` over the items (lines 250-261). -/
def print_items {D M : Type} (P : Prims D M) (h : Host) (g : Model D M)
    (rep_xform : M) : List Nat → List Nat
  | [] => []
  | it :: rest =>
    match g.stixmesh_cache_find it with
    | none => print_items P h g rep_xform rest
    | some mesh =>
      print_facets P h mesh.getFacetSet rep_xform 0 mesh.getFacetSet.getFacetCount ++
        print_items P h g rep_xform rest

/-- The loops of `print_mesh_for_shape` over the child linkages (lines
273-283 and 286-296); `self` is the recursive call. -/
def print_children {D M : Type} (P : Prims D M)
    (self : Option Nat → M → Option (List Nat)) (rep_xform : M) :
    List (Linkage M) → Option (List Nat)
  | [] => some []
  | rel :: rest =>
    let child_xform := P.mul rel.xform rep_xform
    match self rel.child_rep child_xform with
    | none => none
    | some out =>
      match print_children P self rep_xform rest with
      | none => none
      | some more => some (out ++ more)

/-- Embedding of `print_mesh_for_shape`: the bytes appended to the stream. -/
def print_mesh_for_shape {D M : Type} (P : Prims D M) (h : Host) (g : Model D M) :
    Nat → Option Nat → M → Option (List Nat)
  | 0, _, _ => none
  | _ + 1, none, _ => some []
  | fuel + 1, some rep, rep_xform =>
    let out := print_items P h g rep_xform (g.items rep)
    match g.rep_mgr rep with
    | none => some out
    | some rep_mgr =>
      match print_children P (print_mesh_for_shape P h g fuel) rep_xform rep_mgr.child_rels with
      | none => none
      | some rels =>
        match print_children P (print_mesh_for_shape P h g fuel) rep_xform
            rep_mgr.child_mapped_items with
        | none => none
        | some mapped => some (out ++ rels ++ mapped)

/-- The loop of `print_mesh_for_product` over the shapes (lines 316-320). -/
def print_shapes {D M : Type} (P : Prims D M) (h : Host) (g : Model D M) (fuel : Nat)
    (starting_placement : M) : List (Option Nat) → Option (List Nat)
  | [] => some []
  | rep :: rest =>
    match print_mesh_for_shape P h g fuel rep starting_placement with
    | none => none
    | some out =>
      match print_shapes P h g fuel starting_placement rest with
      | none => none
      | some more => some (out ++ more)

/-- Embedding of `print_mesh_for_product`: the bytes appended to the stream. -/
def print_mesh_for_product {D M : Type} (P : Prims D M) (h : Host) (g : Model D M)
    (fuel : Nat) (pd : Nat) (starting_placement : M) : Option (List Nat) :=
  match g.prod_mgr pd with
  | none => some []
  | some pm => print_shapes P h g fuel starting_placement pm.shapes

/-! ## The file -/

/-- The fields of `stp2webgl_opts` that the writer reads. -/
structure stp2webgl_opts where
  do_split : Bool
  dstfile : Option String
  root_prods : List Nat

/-- A `FILE *` the writer may hold. -/
inductive Stream where
  | stdout : Stream
  | file (path : String) : Stream
  deriving DecidableEq

/-- What the writer does to the outside, in order.  One `write` stands for
the bytes of one `fwrite` call or of one run of `putc` calls (the four of
`write_unsigned`, all those of the second loop over the root products). -/
inductive Event where
  | printf (msg : String) : Event
  | rose_fopen (path : String) (opened : Bool) : Event
  | facet_all_products : Event
  | write (file : Stream) (bytes : List Nat) : Event
  | fclose (file : Stream) : Event
  deriving DecidableEq

/-- The bytes handed to `fwrite` and `putc`, in order, whatever the stream.
The text of a `printf` is not among them: `bytes_to` counts it, on standard
output. -/
def bytes_written : List Event → List Nat
  | [] => []
  | Event.write _ bytes :: rest => bytes ++ bytes_written rest
  | _ :: rest => bytes_written rest

/-- The message of line 60. -/
def msg_split : String := "Only single STL file output currently implemented\n"

/-- The message of line 68. -/
def msg_open : String := "Could not open output file\n"

/-- The bytes `printf` puts on standard output for a message without
conversions, one per character (the messages are ASCII). -/
def printf_bytes (msg : String) : List Nat :=
  msg.toList.map Char.toNat

/-- The bytes that reach the stream `s`, in order: those of the `write`
events on `s` and, when `s` is standard output, the text of every `printf`. -/
def bytes_to (s : Stream) : List Event → List Nat
  | [] => []
  | Event.write file bytes :: rest =>
    if file = s then bytes ++ bytes_to s rest else bytes_to s rest
  | Event.printf msg :: rest =>
    if s = Stream.stdout then printf_bytes msg ++ bytes_to s rest else bytes_to s rest
  | _ :: rest => bytes_to s rest

/-- The destination of the STL data (lines 54 and 64-66): standard output
unless `dstfile` is given. -/
def destination (opts : stp2webgl_opts) : Stream :=
  match opts.dstfile with
  | none => Stream.stdout
  | some path => Stream.file path

/-- The effect of `strcpy (buf, src)` on a buffer: the characters of `src` and
a terminating zero replace the front of `buf`. -/
def strcpy (buf : List Nat) (src : List Char) : List Nat :=
  src.map Char.toNat ++ [0] ++ buf.drop (src.length + 1)

/-- The buffer `buf` of lines 85-88. -/
def header_buf : List Nat :=
  strcpy (List.replicate 80 0) ['b', 'i', 'n', 'a', 'r', 'y', ' ', 's', 't', 'l']

/-- The first loop over the root products (lines 80-83), started with the
running `count`. -/
def count_roots {D M : Type} (g : Model D M) (fuel : Nat) : List Nat → Nat → Option Nat
  | [], count => some count
  | pd :: rest, count =>
    match count_mesh_for_product g fuel pd with
    | none => none
    | some c => count_roots g fuel rest ((count + c) % UINT_MOD)

/-- The second loop over the root products (lines 93-101): every round
constructs a fresh `root_placement`. -/
def print_roots {D M : Type} (P : Prims D M) (h : Host) (g : Model D M) (fuel : Nat) :
    List Nat → Option (List Nat)
  | [] => some []
  | pd :: rest =>
    let root_placement := P.identity
    match print_mesh_for_product P h g fuel pd root_placement with
    | none => none
    | some out =>
      match print_roots P h g fuel rest with
      | none => none
      | some more => some (out ++ more)

/-- Lines 73-104 of `write_binary_stl`, run once the destination `stlfile` is
settled: the status returned and what is done to the outside. -/
def write_to_stream {D M : Type} (P : Prims D M) (h : Host) (g : Model D M)
    (fuel : Nat) (opts : stp2webgl_opts) (stlfile : Stream) : Option (Int × List Event) :=
  match count_roots g fuel opts.root_prods 0 with
  | none => none
  | some count =>
    match print_roots P h g fuel opts.root_prods with
    | none => none
    | some out =>
      some (0, [Event.facet_all_products,
        Event.write stlfile header_buf,
        Event.write stlfile (write_unsigned count),
        Event.write stlfile out,
        Event.fclose stlfile])

/-- Embedding of `write_binary_stl`: the status returned and what was done to
the outside.  `can_open` tells whether `rose_fopen` succeeds on a path; `g` is
the assembly data with the mesh cache as `facet_all_products` leaves it. -/
def write_binary_stl {D M : Type} (P : Prims D M) (h : Host) (g : Model D M)
    (can_open : String → Bool) (fuel : Nat) (opts : stp2webgl_opts) :
    Option (Int × List Event) :=
  if opts.do_split then
    some (2, [Event.printf msg_split])
  else
    match opts.dstfile with
    | none => write_to_stream P h g fuel opts Stream.stdout
    | some path =>
      if can_open path then
        match write_to_stream P h g fuel opts (Stream.file path) with
        | none => none
        | some (status, log) => some (status, Event.rose_fopen path true :: log)
      else
        some (2, [Event.rose_fopen path false, Event.printf msg_open])

/-! ## Reference totals

The totals the spec describes, in exact arithmetic: nothing is reduced modulo
`2 ^ 32`. -/

/-- Reference definition, after the spec ("the facet count of any cached mesh
(0 if none)"): what one representation item adds to the total. -/
def item_facet_count {D M : Type} (g : Model D M) (it : Nat) : Nat :=
  match g.stixmesh_cache_find it with
  | none => 0
  | some mesh => mesh.getFacetSet.getFacetCount

/-- Reference definition: the sum of `item_facet_count` over a list of items. -/
def items_facet_sum {D M : Type} (g : Model D M) (l : List Nat) : Nat :=
  (l.map (item_facet_count g)).sum

/-- The sum of `f` over a list; `none` when `f` has no value at a member. -/
def sum_over {A : Type} (f : A → Option Nat) : List A → Option Nat
  | [] => some 0
  | a :: rest =>
    match f a, sum_over f rest with
    | some x, some s => some (x + s)
    | _, _ => none

/-- Reference definition of the count of a representation, after the spec:
0 for a null representation; otherwise the sum over the items and, when the
representation has a linkage manager, the totals of all direct-relationship
children and of all mapped-item children, every instance counted. -/
def facet_total_shape {D M : Type} (g : Model D M) : Nat → Option Nat → Option Nat
  | 0, _ => none
  | _ + 1, none => some 0
  | fuel + 1, some rep =>
    match g.rep_mgr rep with
    | none => some (items_facet_sum g (g.items rep))
    | some rep_mgr =>
      match sum_over (fun (l : Linkage M) => facet_total_shape g fuel l.child_rep)
          rep_mgr.child_rels,
        sum_over (fun (l : Linkage M) => facet_total_shape g fuel l.child_rep)
          rep_mgr.child_mapped_items with
      | some rels, some mapped => some (items_facet_sum g (g.items rep) + rels + mapped)
      | _, _ => none

/-- Reference definition of the count of a product, after the spec: the sum
over its shape representations, 0 without registered shapes. -/
def facet_total_product {D M : Type} (g : Model D M) (fuel : Nat) (pd : Nat) : Option Nat :=
  match g.prod_mgr pd with
  | none => some 0
  | some pm => sum_over (facet_total_shape g fuel) pm.shapes

/-- Reference definition of the global triangle count, after the spec: the
sum over the root products. -/
def facet_total_roots {D M : Type} (g : Model D M) (fuel : Nat) (roots : List Nat) :
    Option Nat :=
  sum_over (facet_total_product g fuel) roots

/-! ## Call logs

The two walks once more, each returning next to its result the list of the
representation pointers it was called on, in the order of the calls. -/

/-- The child loops of `count_mesh_for_shape` (lines 139-144 and 146-151) with
the calls made in them. -/
def count_children_logged {M : Type} (self : Option Nat → Option (Nat × List (Option Nat))) :
    List (Linkage M) → Nat → Option (Nat × List (Option Nat))
  | [], count => some (count, [])
  | rel :: rest, count =>
    match self rel.child_rep with
    | none => none
    | some (c, calls) =>
      match count_children_logged self rest ((count + c) % UINT_MOD) with
      | none => none
      | some (total, more) => some (total, calls ++ more)

/-- The function `count_mesh_for_shape` with the calls it makes, itself first. -/
def count_mesh_for_shape_logged {D M : Type} (g : Model D M) :
    Nat → Option Nat → Option (Nat × List (Option Nat))
  | 0, _ => none
  | _ + 1, none => some (0, [none])
  | fuel + 1, some rep =>
    let count := count_items g (g.items rep) 0
    match g.rep_mgr rep with
    | none => some (count, [some rep])
    | some rep_mgr =>
      match count_children_logged (count_mesh_for_shape_logged g fuel) rep_mgr.child_rels
          count with
      | none => none
      | some (count, rels) =>
        match count_children_logged (count_mesh_for_shape_logged g fuel)
            rep_mgr.child_mapped_items count with
        | none => none
        | some (count, mapped) => some (count, some rep :: (rels ++ mapped))

/-- The child loops of `print_mesh_for_shape` (lines 273-283 and 286-296) with
the calls made in them. -/
def print_children_logged {D M : Type} (P : Prims D M)
    (self : Option Nat → M → Option (List Nat × List (Option Nat))) (rep_xform : M) :
    List (Linkage M) → Option (List Nat × List (Option Nat))
  | [] => some ([], [])
  | rel :: rest =>
    let child_xform := P.mul rel.xform rep_xform
    match self rel.child_rep child_xform with
    | none => none
    | some (out, calls) =>
      match print_children_logged P self rep_xform rest with
      | none => none
      | some (more, more_calls) => some (out ++ more, calls ++ more_calls)

/-- The function `print_mesh_for_shape` with the calls it makes, itself first. -/
def print_mesh_for_shape_logged {D M : Type} (P : Prims D M) (h : Host) (g : Model D M) :
    Nat → Option Nat → M → Option (List Nat × List (Option Nat))
  | 0, _, _ => none
  | _ + 1, none, _ => some ([], [none])
  | fuel + 1, some rep, rep_xform =>
    let out := print_items P h g rep_xform (g.items rep)
    match g.rep_mgr rep with
    | none => some (out, [some rep])
    | some rep_mgr =>
      match print_children_logged P (print_mesh_for_shape_logged P h g fuel) rep_xform
          rep_mgr.child_rels with
      | none => none
      | some (rels, rel_calls) =>
        match print_children_logged P (print_mesh_for_shape_logged P h g fuel) rep_xform
            rep_mgr.child_mapped_items with
        | none => none
        | some (mapped, mapped_calls) =>
          some (out ++ rels ++ mapped, some rep :: (rel_calls ++ mapped_calls))

/-- The call lists of the children of a list of linkages, one after the
other; `none` when one is missing. -/
def visit_children {M : Type} (self : Option Nat → Option (List (Option Nat))) :
    List (Linkage M) → Option (List (Option Nat))
  | [] => some []
  | l :: rest =>
    match self l.child_rep, visit_children self rest with
    | some calls, some more => some (calls ++ more)
    | _, _ => none

/-- Reference definition of the traversal order, after the spec ("depth-first
pre-order: local meshed items first, then direct-relationship children, then
mapped-item children"): the representation itself, then the subtrees of the
direct-relationship children in list order, then those of the mapped-item
children in list order. -/
def preorder_calls {D M : Type} (g : Model D M) : Nat → Option Nat → Option (List (Option Nat))
  | 0, _ => none
  | _ + 1, none => some [none]
  | fuel + 1, some rep =>
    match g.rep_mgr rep with
    | none => some [some rep]
    | some rep_mgr =>
      match visit_children (preorder_calls g fuel) rep_mgr.child_rels,
        visit_children (preorder_calls g fuel) rep_mgr.child_mapped_items with
      | some rels, some mapped => some (some rep :: (rels ++ mapped))
      | _, _ => none

/-! ## Sample data

An instance of the external primitives over integer coordinates, three hosts
and small assembly models, used to evaluate the definitions. -/

/-- Position of the leading binary digit of `a`, found in at most `fuel` halvings. -/
def ilog2 : Nat → Nat → Nat
  | 0, _ => 0
  | fuel + 1, a => if a < 2 then 0 else ilog2 fuel (a / 2) + 1

/-- IEEE single-precision bit pattern of an integer, rounded to nearest, ties
to even, as the conversion `(float) val` yields for an integral `val`. -/
def int_float_bits (n : Int) : Nat :=
  let a := n.natAbs
  let sign := if n < 0 then 2 ^ 31 else 0
  if a = 0 then 0
  else
    let e := ilog2 a a
    if e ≤ 23 then sign + (e + 127) * 2 ^ 23 + (a * 2 ^ (23 - e) - 2 ^ 23)
    else if 128 ≤ e then sign + 255 * 2 ^ 23
    else
      let q := a / 2 ^ (e - 23)
      let r := a % 2 ^ (e - 23)
      let half := 2 ^ (e - 24)
      let q := if half < r ∨ (r = half ∧ q % 2 = 1) then q + 1 else q
      sign + (e + 127) * 2 ^ 23 + (q - 2 ^ 23)

/-- Primitives over integer coordinates where a placement is a translation:
the product adds the offsets, a point is moved by the offset and a direction
is left alone. -/
def translation_prims : Prims Int (Dbl3 Int) where
  float_bits := int_float_bits
  identity := ⟨0, 0, 0⟩
  mul := fun a b => ⟨a.e0 + b.e0, a.e1 + b.e1, a.e2 + b.e2⟩
  stixmesh_transform := fun t v => ⟨v.e0 + t.e0, v.e1 + t.e1, v.e2 + t.e2⟩
  stixmesh_transform_dir := fun _ v => v

/-- A little-endian host where `BIG_ENDIAN` is not defined. -/
def host_intel : Host where
  big_endian_layout := false
  headers_define_BIG_ENDIAN := false
  _AIX := false
  __sparc := false
  __hpux := false
  __APPLE__ := false
  __ppc__ := false
  __ppc64__ := false

/-- A big-endian SPARC host. -/
def host_sparc : Host where
  big_endian_layout := true
  headers_define_BIG_ENDIAN := false
  _AIX := false
  __sparc := true
  __hpux := false
  __APPLE__ := false
  __ppc__ := false
  __ppc64__ := false

/-- A big-endian host that defines none of the tested macros and whose
headers do not define `BIG_ENDIAN`. -/
def host_other_big : Host where
  big_endian_layout := true
  headers_define_BIG_ENDIAN := false
  _AIX := false
  __sparc := false
  __hpux := false
  __APPLE__ := false
  __ppc__ := false
  __ppc64__ := false

/-- A facet set with one triangle in the plane `z = 0`. -/
def one_facet : StixMeshFacetSet Int where
  getFacetCount := 1
  getFacet := fun j => if j = 0 then some ⟨fun i => i.val, 0⟩ else none
  getNormal := fun _ => ⟨0, 0, 1⟩
  getVertex := fun i => if i = 0 then ⟨0, 0, 0⟩ else if i = 1 then ⟨1, 0, 0⟩ else ⟨0, 1, 0⟩

/-- A two-level assembly: product 0 has the root representation 0, which has
no items and one direct child, representation 1, placed by the translation
`(5, 0, 0)`; representation 1 has the single item 10, meshed as `one_facet`. -/
def two_level_model : Model Int (Dbl3 Int) where
  items := fun r => if r = 1 then [10] else []
  stixmesh_cache_find := fun it => if it = 10 then some ⟨one_facet⟩ else none
  rep_mgr := fun r => if r = 0 then some ⟨[⟨some 1, ⟨5, 0, 0⟩⟩], []⟩ else none
  prod_mgr := fun pd => if pd = 0 then some ⟨[some 0]⟩ else none

/-- The assembly of `two_level_model` before any mesh is cached. -/
def unmeshed_model : Model Int (Dbl3 Int) where
  items := fun r => if r = 1 then [10] else []
  stixmesh_cache_find := fun _ => none
  rep_mgr := fun r => if r = 0 then some ⟨[⟨some 1, ⟨5, 0, 0⟩⟩], []⟩ else none
  prod_mgr := fun pd => if pd = 0 then some ⟨[some 0]⟩ else none

/-- A facet set that reports one facet and returns none. -/
def hollow_facets : StixMeshFacetSet Int where
  getFacetCount := 1
  getFacet := fun _ => none
  getNormal := fun _ => ⟨0, 0, 1⟩
  getVertex := fun _ => ⟨0, 0, 0⟩

/-- Product 0 with one representation whose single item is meshed as
`hollow_facets`. -/
def hollow_model : Model Int (Dbl3 Int) where
  items := fun r => if r = 0 then [0] else []
  stixmesh_cache_find := fun it => if it = 0 then some ⟨hollow_facets⟩ else none
  rep_mgr := fun _ => none
  prod_mgr := fun pd => if pd = 0 then some ⟨[some 0]⟩ else none

/-- A facet set of `2 ^ 31` facets, all the same triangle. -/
def half_range_facets : StixMeshFacetSet Int where
  getFacetCount := 2147483648
  getFacet := fun _ => some ⟨fun i => i.val, 0⟩
  getNormal := fun _ => ⟨0, 0, 1⟩
  getVertex := fun i => if i = 0 then ⟨0, 0, 0⟩ else if i = 1 then ⟨1, 0, 0⟩ else ⟨0, 1, 0⟩

/-- Product 0 with one representation whose two items are each meshed as
`half_range_facets`: `2 ^ 32` facets in all. -/
def full_range_model : Model Int (Dbl3 Int) where
  items := fun r => if r = 0 then [0, 1] else []
  stixmesh_cache_find := fun _ => some ⟨half_range_facets⟩
  rep_mgr := fun _ => none
  prod_mgr := fun pd => if pd = 0 then some ⟨[some 0]⟩ else none

/-- Options: one file on standard output for root product 0. -/
def opts_stdout : stp2webgl_opts := ⟨false, none, [0]⟩

/-- Options: one file at a path for root product 0. -/
def opts_file : stp2webgl_opts := ⟨false, some "out.stl", [0]⟩

/-- Options: split output requested. -/
def opts_split : stp2webgl_opts := ⟨true, some "out.stl", [0]⟩

/-- Options: no root product. -/
def opts_no_roots : stp2webgl_opts := ⟨false, none, []⟩

/-- Options: split output requested, no destination path given. -/
def opts_split_stdout : stp2webgl_opts := ⟨true, none, [0]⟩

/-- An assembly whose root representation 0 reaches representation 1 twice:
by a direct relationship placed at `(5, 0, 0)` and by a mapped item placed at
`(0, 7, 0)`; representation 1 has the single item 10, meshed as `fs`. -/
def twin_instance_model (fs : StixMeshFacetSet Int) : Model Int (Dbl3 Int) where
  items := fun r => if r = 1 then [10] else []
  stixmesh_cache_find := fun it => if it = 10 then some ⟨fs⟩ else none
  rep_mgr := fun r =>
    if r = 0 then some ⟨[⟨some 1, ⟨5, 0, 0⟩⟩], [⟨some 1, ⟨0, 7, 0⟩⟩]⟩ else none
  prod_mgr := fun pd => if pd = 0 then some ⟨[some 0]⟩ else none

/-- Product 0 with the two shape representations 0 and 1, each with the single
item 10, meshed as `fs`, and without children. -/
def twin_shape_model (fs : StixMeshFacetSet Int) : Model Int (Dbl3 Int) where
  items := fun r => if r ≤ 1 then [10] else []
  stixmesh_cache_find := fun it => if it = 10 then some ⟨fs⟩ else none
  rep_mgr := fun _ => none
  prod_mgr := fun pd => if pd = 0 then some ⟨[some 0, some 1]⟩ else none

/-- A representation with missing data: representation 0 has the items 7
(no cached mesh) and 10 (meshed as `one_facet`), the direct relationships to a
null child and to representation 1, and a mapped item to a null child;
representation 1 has the single item 10. -/
def sparse_model : Model Int (Dbl3 Int) where
  items := fun r => if r = 0 then [7, 10] else if r = 1 then [10] else []
  stixmesh_cache_find := fun it => if it = 10 then some ⟨one_facet⟩ else none
  rep_mgr := fun r =>
    if r = 0 then
      some ⟨[⟨none, ⟨1, 0, 0⟩⟩, ⟨some 1, ⟨5, 0, 0⟩⟩], [⟨none, ⟨0, 7, 0⟩⟩]⟩
    else none
  prod_mgr := fun pd => if pd = 0 then some ⟨[some 0]⟩ else none

/-! ## Bytes and the binary utilities -/

theorem and_0xff (x : Nat) : x &&& 0xff = x % 256 :=
  Nat.and_pow_two_sub_one_eq_mod x 8

theorem putc_length (c : Nat) : (putc c).length = 1 := rfl

theorem write_unsigned_eq (val : Nat) : write_unsigned val = le_bytes32 val := by
  simp only [write_unsigned, putc, and_0xff, Nat.shiftRight_eq_div_pow, le_bytes32,
    Nat.mod_mod]
  norm_num

theorem le_bytes32_length (bits : Nat) : (le_bytes32 bits).length = 4 := rfl

theorem le_bytes32_mod (bits : Nat) : le_bytes32 (bits % UINT_MOD) = le_bytes32 bits := by
  simp only [le_bytes32, UINT_MOD]
  have h0 : bits % 2 ^ 32 % 256 = bits % 256 := by omega
  have h1 : bits % 2 ^ 32 / 256 % 256 = bits / 256 % 256 := by omega
  have h2 : bits % 2 ^ 32 / 65536 % 256 = bits / 65536 % 256 := by omega
  have h3 : bits % 2 ^ 32 / 16777216 % 256 = bits / 16777216 % 256 := by omega
  rw [h0, h1, h2, h3]

theorem le_decode_le_bytes32 (bits : Nat) : le_decode (le_bytes32 bits) = bits % UINT_MOD := by
  simp only [le_decode, le_bytes32, UINT_MOD]
  omega

theorem write_float_length {D M : Type} (P : Prims D M) (h : Host) (val : D) :
    (write_float P h val).length = 4 := by
  unfold write_float
  split <;> rfl

theorem write_dbl3_length {D M : Type} (P : Prims D M) (h : Host) (v : Dbl3 D) :
    (write_dbl3 P h v).length = 12 := by
  simp [write_dbl3, write_float_length]

theorem print_triangle_length {D M : Type} (P : Prims D M) (h : Host)
    (fs : StixMeshFacetSet D) (xform : M) (facet_num : Nat) :
    (print_triangle P h fs xform facet_num).length =
      if (fs.getFacet facet_num).isSome then 50 else 0 := by
  unfold print_triangle
  cases fs.getFacet facet_num <;> simp [write_dbl3_length, putc_length]

/-! ## The recursion budget -/

theorem count_children_mono {M : Type} (self self2 : Option Nat → Option Nat)
    (hs : ∀ x n, self x = some n → self2 x = some n) (rels : List (Linkage M)) :
    ∀ (count n : Nat), count_children self rels count = some n →
      count_children self2 rels count = some n := by
  induction rels with
  | nil => intro count n hn; simpa [count_children] using hn
  | cons rel rest ih =>
    intro count n hn
    unfold count_children at hn ⊢
    cases hc : self rel.child_rep with
    | none => simp [hc] at hn
    | some c =>
      rw [hc] at hn
      rw [hs _ _ hc]
      exact ih _ _ hn

theorem count_mesh_for_shape_succ {D M : Type} (g : Model D M) :
    ∀ (fuel : Nat) (rep : Option Nat) (n : Nat),
      count_mesh_for_shape g fuel rep = some n →
      count_mesh_for_shape g (fuel + 1) rep = some n := by
  intro fuel
  induction fuel with
  | zero => intro rep n hn; simp [count_mesh_for_shape] at hn
  | succ fuel ih =>
    intro rep n hn
    cases rep with
    | none => simpa [count_mesh_for_shape] using hn
    | some r =>
      unfold count_mesh_for_shape at hn ⊢
      cases hm : g.rep_mgr r with
      | none => simpa [hm] using hn
      | some m =>
        simp only [hm] at hn ⊢
        cases h1 : count_children (count_mesh_for_shape g fuel) m.child_rels
            (count_items g (g.items r) 0) with
        | none => simp [h1] at hn
        | some c1 =>
          rw [h1] at hn
          rw [count_children_mono _ _ (ih) _ _ _ h1]
          exact count_children_mono _ _ (ih) _ _ _ hn

theorem count_mesh_for_shape_mono {D M : Type} (g : Model D M) (fuel fuel2 : Nat)
    (hle : fuel ≤ fuel2) (rep : Option Nat) (n : Nat)
    (hn : count_mesh_for_shape g fuel rep = some n) :
    count_mesh_for_shape g fuel2 rep = some n := by
  induction hle with
  | refl => exact hn
  | step _ ih => exact count_mesh_for_shape_succ g _ rep n ih

theorem print_children_mono {D M : Type} (P : Prims D M)
    (self self2 : Option Nat → M → Option (List Nat))
    (hs : ∀ x X out, self x X = some out → self2 x X = some out) (X : M)
    (rels : List (Linkage M)) :
    ∀ out, print_children P self X rels = some out →
      print_children P self2 X rels = some out := by
  induction rels with
  | nil => intro out hout; simpa [print_children] using hout
  | cons rel rest ih =>
    intro out hout
    unfold print_children at hout ⊢
    cases hc : self rel.child_rep (P.mul rel.xform X) with
    | none => simp [hc] at hout
    | some o =>
      simp only [hc] at hout
      simp only [hs _ _ _ hc]
      cases hr : print_children P self X rest with
      | none => simp [hr] at hout
      | some more =>
        rw [hr] at hout
        rw [ih _ hr]
        exact hout

theorem print_mesh_for_shape_succ {D M : Type} (P : Prims D M) (h : Host) (g : Model D M) :
    ∀ (fuel : Nat) (rep : Option Nat) (X : M) (out : List Nat),
      print_mesh_for_shape P h g fuel rep X = some out →
      print_mesh_for_shape P h g (fuel + 1) rep X = some out := by
  intro fuel
  induction fuel with
  | zero => intro rep X out hout; simp [print_mesh_for_shape] at hout
  | succ fuel ih =>
    intro rep X out hout
    cases rep with
    | none => simpa [print_mesh_for_shape] using hout
    | some r =>
      unfold print_mesh_for_shape at hout ⊢
      cases hm : g.rep_mgr r with
      | none => simpa [hm] using hout
      | some m =>
        simp only [hm] at hout ⊢
        cases h1 : print_children P (print_mesh_for_shape P h g fuel) X m.child_rels with
        | none => simp [h1] at hout
        | some o1 =>
          simp only [h1] at hout
          rw [print_children_mono P _ _ ih X _ _ h1]
          cases h2 : print_children P (print_mesh_for_shape P h g fuel) X
              m.child_mapped_items with
          | none => simp [h2] at hout
          | some o2 =>
            simp only [h2] at hout
            rw [print_children_mono P _ _ ih X _ _ h2]
            exact hout

theorem print_mesh_for_shape_mono {D M : Type} (P : Prims D M) (h : Host) (g : Model D M)
    (fuel fuel2 : Nat) (hle : fuel ≤ fuel2) (rep : Option Nat) (X : M) (out : List Nat)
    (hout : print_mesh_for_shape P h g fuel rep X = some out) :
    print_mesh_for_shape P h g fuel2 rep X = some out := by
  induction hle with
  | refl => exact hout
  | step _ ih => exact print_mesh_for_shape_succ P h g _ rep X out ih

/-! ## Graphs without cycles -/

theorem no_cycle_of_rank {D M : Type} (g : Model D M) (rank : Nat → Nat)
    (hrank : ∀ c r, IsChild g c r → rank c < rank r) : NoCycle g := by
  have key : ∀ a b, Relation.TransGen (IsChild g) a b → rank a < rank b := by
    intro a b hab
    induction hab with
    | single h1 => exact hrank _ _ h1
    | tail _ h2 ih => exact lt_trans ih (hrank _ _ h2)
  intro r hr
  exact lt_irrefl _ (key r r hr)

theorem acyclic_wf {D M : Type} (g : Model D M) (hac : Acyclic g) :
    WellFounded (IsChild g) := by
  obtain ⟨⟨N, hN⟩, hnc⟩ := hac
  have leaf : ∀ y, N ≤ y → Acc (IsChild g) y := by
    intro y hy
    refine Acc.intro y ?_
    intro z hz
    obtain ⟨m, hm, _⟩ := hz
    rw [hN y hy] at hm
    cases hm
  let R : Fin N → Fin N → Prop := fun a b => Relation.TransGen (IsChild g) a.val b.val
  have htrans : IsTrans (Fin N) R := ⟨fun _ _ _ hab hbc => Relation.TransGen.trans hab hbc⟩
  have hirr : IsIrrefl (Fin N) R := ⟨fun a ha => hnc a.val ha⟩
  have hwf : WellFounded R := Finite.wellFounded_of_trans_of_irrefl R
  have inner : ∀ a : Fin N, Acc (IsChild g) a.val := by
    intro a
    induction a using hwf.induction with
    | _ a ih =>
      refine Acc.intro a.val ?_
      intro y hy
      by_cases hyN : y < N
      · exact ih ⟨y, hyN⟩ (Relation.TransGen.single hy)
      · exact leaf y (Nat.le_of_not_lt hyN)
  refine ⟨fun r => ?_⟩
  by_cases hr : r < N
  · exact inner ⟨r, hr⟩
  · exact leaf r (Nat.le_of_not_lt hr)

theorem count_children_some {M : Type} (self : Option Nat → Option Nat)
    (rels : List (Linkage M)) (hs : ∀ l ∈ rels, ∃ c, self l.child_rep = some c) :
    ∀ count, ∃ c, count_children self rels count = some c := by
  induction rels with
  | nil => intro count; exact ⟨count, rfl⟩
  | cons rel rest ih =>
    intro count
    obtain ⟨c, hc⟩ := hs rel (List.mem_cons_self _ _)
    unfold count_children
    rw [hc]
    exact ih (fun l hl => hs l (List.mem_cons_of_mem _ hl)) _

theorem uniform_budget {A : Type} (Q : A → Nat → Prop) (l : List A)
    (hQ : ∀ a ∈ l, ∃ F, ∀ fuel, F ≤ fuel → Q a fuel) :
    ∃ F, ∀ a ∈ l, ∀ fuel, F ≤ fuel → Q a fuel := by
  induction l with
  | nil => exact ⟨0, fun a ha => by cases ha⟩
  | cons x rest ih =>
    obtain ⟨F1, h1⟩ := hQ x (List.mem_cons_self _ _)
    obtain ⟨F2, h2⟩ := ih (fun a ha => hQ a (List.mem_cons_of_mem _ ha))
    refine ⟨max F1 F2, ?_⟩
    intro a ha fuel hfuel
    rcases List.mem_cons.mp ha with rfl | ha
    · exact h1 fuel (le_trans (le_max_left _ _) hfuel)
    · exact h2 a ha fuel (le_trans (le_max_right _ _) hfuel)

theorem count_mesh_for_shape_null {D M : Type} (g : Model D M) (fuel : Nat) (hfuel : 1 ≤ fuel) :
    count_mesh_for_shape g fuel none = some 0 := by
  cases fuel with
  | zero => omega
  | succ f => rfl

theorem count_mesh_for_shape_total {D M : Type} (g : Model D M) (hac : Acyclic g)
    (rep : Option Nat) :
    ∃ F, ∀ fuel, F ≤ fuel → ∃ c, count_mesh_for_shape g fuel rep = some c := by
  cases rep with
  | none => exact ⟨1, fun fuel hfuel => ⟨0, count_mesh_for_shape_null g fuel hfuel⟩⟩
  | some r =>
    induction r using (acyclic_wf g hac).induction with
    | _ r ih =>
      cases hm : g.rep_mgr r with
      | none =>
        refine ⟨1, fun fuel hfuel => ?_⟩
        cases fuel with
        | zero => omega
        | succ f =>
          refine ⟨count_items g (g.items r) 0, ?_⟩
          simp [count_mesh_for_shape, hm]
      | some m =>
        have hall : ∀ l ∈ m.child_rels ++ m.child_mapped_items,
            ∃ F, ∀ fuel, F ≤ fuel → ∃ c, count_mesh_for_shape g fuel l.child_rep = some c := by
          intro l hl
          cases hc : l.child_rep with
          | none => exact ⟨1, fun fuel hfuel => ⟨0, count_mesh_for_shape_null g fuel hfuel⟩⟩
          | some c => exact ih c ⟨m, hm, l, hl, hc⟩
        obtain ⟨F, hF⟩ := uniform_budget
          (fun (l : Linkage M) fuel => ∃ c, count_mesh_for_shape g fuel l.child_rep = some c)
          _ hall
        refine ⟨F + 1, fun fuel hfuel => ?_⟩
        cases fuel with
        | zero => omega
        | succ f =>
          have hf : F ≤ f := by omega
          unfold count_mesh_for_shape
          simp only [hm]
          obtain ⟨c1, hc1⟩ := count_children_some (count_mesh_for_shape g f) m.child_rels
            (fun l hl => hF l (List.mem_append_left _ hl) f hf) (count_items g (g.items r) 0)
          rw [hc1]
          exact count_children_some (count_mesh_for_shape g f) m.child_mapped_items
            (fun l hl => hF l (List.mem_append_right _ hl) f hf) c1

theorem print_children_isSome {D M : Type} (P : Prims D M)
    (pself : Option Nat → M → Option (List Nat)) (cself : Option Nat → Option Nat)
    (hs : ∀ x X, (pself x X).isSome = (cself x).isSome) (X : M) (rels : List (Linkage M)) :
    ∀ count, (print_children P pself X rels).isSome = (count_children cself rels count).isSome := by
  induction rels with
  | nil => intro count; rfl
  | cons rel rest ih =>
    intro count
    have h1 := hs rel.child_rep (P.mul rel.xform X)
    cases hp : pself rel.child_rep (P.mul rel.xform X) with
    | none =>
      rw [hp] at h1
      cases hc : cself rel.child_rep with
      | none => simp [print_children, count_children, hp, hc]
      | some c => rw [hc] at h1; cases h1
    | some o =>
      rw [hp] at h1
      cases hc : cself rel.child_rep with
      | none => rw [hc] at h1; cases h1
      | some c =>
        have h2 := ih ((count + c) % UINT_MOD)
        simp only [print_children, count_children, hp, hc]
        cases hr : print_children P pself X rest with
        | none => rw [hr] at h2; exact h2
        | some more => rw [hr] at h2; exact h2

theorem print_mesh_for_shape_isSome {D M : Type} (P : Prims D M) (h : Host) (g : Model D M) :
    ∀ (fuel : Nat) (rep : Option Nat) (X : M),
      (print_mesh_for_shape P h g fuel rep X).isSome = (count_mesh_for_shape g fuel rep).isSome := by
  intro fuel
  induction fuel with
  | zero => intro rep X; rfl
  | succ fuel ih =>
    intro rep X
    cases rep with
    | none => rfl
    | some r =>
      cases hm : g.rep_mgr r with
      | none => simp [print_mesh_for_shape, count_mesh_for_shape, hm]
      | some m =>
        have h1 := print_children_isSome P _ _ ih X m.child_rels (count_items g (g.items r) 0)
        cases hp : print_children P (print_mesh_for_shape P h g fuel) X m.child_rels with
        | none =>
          rw [hp] at h1
          cases hc : count_children (count_mesh_for_shape g fuel) m.child_rels
              (count_items g (g.items r) 0) with
          | none => simp [print_mesh_for_shape, count_mesh_for_shape, hm, hp, hc]
          | some c => rw [hc] at h1; cases h1
        | some o =>
          rw [hp] at h1
          cases hc : count_children (count_mesh_for_shape g fuel) m.child_rels
              (count_items g (g.items r) 0) with
          | none => rw [hc] at h1; cases h1
          | some c =>
            have h2 := print_children_isSome P _ _ ih X m.child_mapped_items c
            simp only [print_mesh_for_shape, count_mesh_for_shape, hm, hp, hc]
            cases hr : print_children P (print_mesh_for_shape P h g fuel) X
                m.child_mapped_items with
            | none => rw [hr] at h2; exact h2
            | some more => rw [hr] at h2; exact h2

/-! ## Counting against emitting -/

theorem print_facets_length {D M : Type} (P : Prims D M) (h : Host)
    (fs : StixMeshFacetSet D) (X : M) :
    ∀ (n j : Nat), (∀ i, j ≤ i → i < j + n → (fs.getFacet i).isSome) →
      (print_facets P h fs X j n).length = 50 * n := by
  intro n
  induction n with
  | zero => intro j _; rfl
  | succ n ih =>
    intro j hres
    unfold print_facets
    rw [List.length_append, print_triangle_length, hres j (le_refl _) (by omega),
      ih (j + 1) (fun i h1 h2 => hres i (by omega) (by omega))]
    simp only [if_true]
    omega

theorem count_items_lt {D M : Type} (g : Model D M) (l : List Nat) :
    ∀ count, count < UINT_MOD → count_items g l count < UINT_MOD := by
  induction l with
  | nil => intro count hc; exact hc
  | cons it rest ih =>
    intro count hc
    unfold count_items
    cases g.stixmesh_cache_find it with
    | none => exact ih count hc
    | some mesh => exact ih _ (Nat.mod_lt _ (by decide))

theorem count_children_lt {M : Type} (self : Option Nat → Option Nat)
    (rels : List (Linkage M)) :
    ∀ count c, count < UINT_MOD → count_children self rels count = some c → c < UINT_MOD := by
  induction rels with
  | nil =>
    intro count c hc hcc
    simp only [count_children, Option.some.injEq] at hcc
    omega
  | cons rel rest ih =>
    intro count c hc hcc
    unfold count_children at hcc
    cases hs : self rel.child_rep with
    | none => simp [hs] at hcc
    | some x =>
      rw [hs] at hcc
      exact ih _ c (Nat.mod_lt _ (by decide)) hcc

theorem count_mesh_for_shape_lt {D M : Type} (g : Model D M) (fuel : Nat) (rep : Option Nat)
    (c : Nat) (hc : count_mesh_for_shape g fuel rep = some c) : c < UINT_MOD := by
  cases fuel with
  | zero => simp [count_mesh_for_shape] at hc
  | succ fuel =>
    cases rep with
    | none =>
      simp only [count_mesh_for_shape, Option.some.injEq] at hc
      rw [← hc]
      decide
    | some r =>
      have h0 : count_items g (g.items r) 0 < UINT_MOD := count_items_lt g _ 0 (by decide)
      unfold count_mesh_for_shape at hc
      cases hm : g.rep_mgr r with
      | none =>
        simp only [hm, Option.some.injEq] at hc
        omega
      | some m =>
        simp only [hm] at hc
        cases h1 : count_children (count_mesh_for_shape g fuel) m.child_rels
            (count_items g (g.items r) 0) with
        | none => simp [h1] at hc
        | some c1 =>
          rw [h1] at hc
          exact count_children_lt _ _ _ _ (count_children_lt _ _ _ _ h0 h1) hc

theorem items_agree {D M : Type} (P : Prims D M) (h : Host) (g : Model D M)
    (hres : FacetsResolve g) (X : M) (l : List Nat) :
    ∀ count, ∃ k, (print_items P h g X l).length = 50 * k ∧
      count_items g l count % UINT_MOD = (count + k) % UINT_MOD := by
  induction l with
  | nil => intro count; exact ⟨0, rfl, rfl⟩
  | cons it rest ih =>
    intro count
    unfold print_items count_items
    cases hm : g.stixmesh_cache_find it with
    | none => exact ih count
    | some mesh =>
      obtain ⟨k, hk1, hk2⟩ := ih ((count + mesh.getFacetSet.getFacetCount) % UINT_MOD)
      refine ⟨mesh.getFacetSet.getFacetCount + k, ?_, ?_⟩
      · simp only [List.length_append]
        rw [hk1, print_facets_length P h _ X _ 0
          (fun i _ hi => hres it mesh hm i (by omega))]
        omega
      · simp only []
        rw [hk2]
        simp only [UINT_MOD]
        omega

theorem children_agree {D M : Type} (P : Prims D M)
    (pself : Option Nat → M → Option (List Nat)) (cself : Option Nat → Option Nat)
    (hs : ∀ x X c o, cself x = some c → pself x X = some o →
      ∃ k, o.length = 50 * k ∧ c % UINT_MOD = k % UINT_MOD)
    (X : M) (rels : List (Linkage M)) :
    ∀ count c out, count_children cself rels count = some c →
      print_children P pself X rels = some out →
      ∃ k, out.length = 50 * k ∧ c % UINT_MOD = (count + k) % UINT_MOD := by
  induction rels with
  | nil =>
    intro count c out hc hout
    simp only [count_children, Option.some.injEq] at hc
    simp only [print_children, Option.some.injEq] at hout
    subst hc
    subst hout
    exact ⟨0, rfl, rfl⟩
  | cons rel rest ih =>
    intro count c out hc hout
    unfold count_children at hc
    unfold print_children at hout
    cases h1 : cself rel.child_rep with
    | none => simp [h1] at hc
    | some c1 =>
      cases h2 : pself rel.child_rep (P.mul rel.xform X) with
      | none => simp [h2] at hout
      | some o1 =>
        cases h3 : print_children P pself X rest with
        | none => simp [h2, h3] at hout
        | some o2 =>
          simp only [h1] at hc
          simp only [h2, h3, Option.some.injEq] at hout
          obtain ⟨k1, hk1, hk1m⟩ := hs _ _ _ _ h1 h2
          obtain ⟨k2, hk2, hk2m⟩ := ih _ _ _ hc h3
          refine ⟨k1 + k2, ?_, ?_⟩
          · rw [← hout, List.length_append, hk1, hk2]
            omega
          · rw [hk2m]
            simp only [UINT_MOD] at hk1m ⊢
            omega

theorem shape_agree {D M : Type} (P : Prims D M) (h : Host) (g : Model D M)
    (hres : FacetsResolve g) :
    ∀ (fuel : Nat) (rep : Option Nat) (X : M) (c : Nat) (out : List Nat),
      count_mesh_for_shape g fuel rep = some c →
      print_mesh_for_shape P h g fuel rep X = some out →
      ∃ k, out.length = 50 * k ∧ c % UINT_MOD = k % UINT_MOD := by
  intro fuel
  induction fuel with
  | zero => intro rep X c out hc _; simp [count_mesh_for_shape] at hc
  | succ fuel ih =>
    intro rep X c out hc hout
    cases rep with
    | none =>
      simp only [count_mesh_for_shape, Option.some.injEq] at hc
      simp only [print_mesh_for_shape, Option.some.injEq] at hout
      subst hc
      subst hout
      exact ⟨0, rfl, rfl⟩
    | some r =>
      obtain ⟨k0, hk0, hk0m⟩ := items_agree P h g hres X (g.items r) 0
      unfold count_mesh_for_shape at hc
      unfold print_mesh_for_shape at hout
      cases hm : g.rep_mgr r with
      | none =>
        simp only [hm, Option.some.injEq] at hc hout
        subst hc
        subst hout
        refine ⟨k0, hk0, ?_⟩
        rw [hk0m]
        simp
      | some m =>
        simp only [hm] at hc hout
        cases hc1 : count_children (count_mesh_for_shape g fuel) m.child_rels
            (count_items g (g.items r) 0) with
        | none => simp [hc1] at hc
        | some c1 =>
          cases hp1 : print_children P (print_mesh_for_shape P h g fuel) X m.child_rels with
          | none => simp [hp1] at hout
          | some o1 =>
            cases hp2 : print_children P (print_mesh_for_shape P h g fuel) X
                m.child_mapped_items with
            | none => simp [hp1, hp2] at hout
            | some o2 =>
              simp only [hc1] at hc
              simp only [hp1, hp2, Option.some.injEq] at hout
              obtain ⟨k1, hk1, hk1m⟩ := children_agree P _ _
                (fun x X c o => ih x X c o) X _ _ _ _ hc1 hp1
              obtain ⟨k2, hk2, hk2m⟩ := children_agree P _ _
                (fun x X c o => ih x X c o) X _ _ _ _ hc hp2
              refine ⟨k0 + k1 + k2, ?_, ?_⟩
              · rw [← hout]
                simp only [List.length_append]
                omega
              · rw [hk2m]
                simp only [UINT_MOD] at hk0m hk1m ⊢
                omega

/-! ## Products and root products -/

theorem count_shapes_some {D M : Type} (g : Model D M) (fuel : Nat) (l : List (Option Nat))
    (hs : ∀ rep ∈ l, ∃ c, count_mesh_for_shape g fuel rep = some c) :
    ∀ count, ∃ c, count_shapes g fuel l count = some c := by
  induction l with
  | nil => intro count; exact ⟨count, rfl⟩
  | cons rep rest ih =>
    intro count
    obtain ⟨c, hc⟩ := hs rep (List.mem_cons_self _ _)
    unfold count_shapes
    rw [hc]
    exact ih (fun x hx => hs x (List.mem_cons_of_mem _ hx)) _

theorem count_shapes_lt {D M : Type} (g : Model D M) (fuel : Nat) (l : List (Option Nat)) :
    ∀ count c, count < UINT_MOD → count_shapes g fuel l count = some c → c < UINT_MOD := by
  induction l with
  | nil =>
    intro count c hc hcc
    simp only [count_shapes, Option.some.injEq] at hcc
    omega
  | cons rep rest ih =>
    intro count c hc hcc
    unfold count_shapes at hcc
    cases hs : count_mesh_for_shape g fuel rep with
    | none => simp [hs] at hcc
    | some x =>
      rw [hs] at hcc
      exact ih _ c (Nat.mod_lt _ (by decide)) hcc

theorem print_shapes_isSome {D M : Type} (P : Prims D M) (h : Host) (g : Model D M)
    (fuel : Nat) (X : M) (l : List (Option Nat)) :
    ∀ count, (print_shapes P h g fuel X l).isSome = (count_shapes g fuel l count).isSome := by
  induction l with
  | nil => intro count; rfl
  | cons rep rest ih =>
    intro count
    have h1 := print_mesh_for_shape_isSome P h g fuel rep X
    cases hp : print_mesh_for_shape P h g fuel rep X with
    | none =>
      rw [hp] at h1
      cases hc : count_mesh_for_shape g fuel rep with
      | none => simp [print_shapes, count_shapes, hp, hc]
      | some c => rw [hc] at h1; cases h1
    | some o =>
      rw [hp] at h1
      cases hc : count_mesh_for_shape g fuel rep with
      | none => rw [hc] at h1; cases h1
      | some c =>
        have h2 := ih ((count + c) % UINT_MOD)
        simp only [print_shapes, count_shapes, hp, hc]
        cases hr : print_shapes P h g fuel X rest with
        | none => rw [hr] at h2; exact h2
        | some more => rw [hr] at h2; exact h2

theorem shapes_agree {D M : Type} (P : Prims D M) (h : Host) (g : Model D M)
    (hres : FacetsResolve g) (fuel : Nat) (X : M) (l : List (Option Nat)) :
    ∀ count c out, count_shapes g fuel l count = some c →
      print_shapes P h g fuel X l = some out →
      ∃ k, out.length = 50 * k ∧ c % UINT_MOD = (count + k) % UINT_MOD := by
  induction l with
  | nil =>
    intro count c out hc hout
    simp only [count_shapes, Option.some.injEq] at hc
    simp only [print_shapes, Option.some.injEq] at hout
    subst hc
    subst hout
    exact ⟨0, rfl, rfl⟩
  | cons rep rest ih =>
    intro count c out hc hout
    unfold count_shapes at hc
    unfold print_shapes at hout
    cases h1 : count_mesh_for_shape g fuel rep with
    | none => simp [h1] at hc
    | some c1 =>
      cases h2 : print_mesh_for_shape P h g fuel rep X with
      | none => simp [h2] at hout
      | some o1 =>
        cases h3 : print_shapes P h g fuel X rest with
        | none => simp [h2, h3] at hout
        | some o2 =>
          simp only [h1] at hc
          simp only [h2, h3, Option.some.injEq] at hout
          obtain ⟨k1, hk1, hk1m⟩ := shape_agree P h g hres fuel rep X c1 o1 h1 h2
          obtain ⟨k2, hk2, hk2m⟩ := ih _ _ _ hc h3
          refine ⟨k1 + k2, ?_, ?_⟩
          · rw [← hout, List.length_append, hk1, hk2]
            omega
          · rw [hk2m]
            simp only [UINT_MOD] at hk1m ⊢
            omega

theorem count_mesh_for_product_total {D M : Type} (g : Model D M) (hac : Acyclic g)
    (pd : Nat) :
    ∃ F, ∀ fuel, F ≤ fuel → ∃ c, count_mesh_for_product g fuel pd = some c := by
  unfold count_mesh_for_product
  cases g.prod_mgr pd with
  | none => exact ⟨0, fun _ _ => ⟨0, rfl⟩⟩
  | some pm =>
    obtain ⟨F, hF⟩ := uniform_budget
      (fun (rep : Option Nat) fuel => ∃ c, count_mesh_for_shape g fuel rep = some c)
      pm.shapes (fun rep _ => count_mesh_for_shape_total g hac rep)
    exact ⟨F, fun fuel hfuel =>
      count_shapes_some g fuel pm.shapes (fun rep hrep => hF rep hrep fuel hfuel) 0⟩

theorem count_mesh_for_product_lt {D M : Type} (g : Model D M) (fuel pd c : Nat)
    (hc : count_mesh_for_product g fuel pd = some c) : c < UINT_MOD := by
  unfold count_mesh_for_product at hc
  cases hm : g.prod_mgr pd with
  | none =>
    simp only [hm, Option.some.injEq] at hc
    rw [← hc]
    decide
  | some pm =>
    simp only [hm] at hc
    exact count_shapes_lt g fuel _ 0 c (by decide) hc

theorem print_mesh_for_product_isSome {D M : Type} (P : Prims D M) (h : Host)
    (g : Model D M) (fuel pd : Nat) (X : M) :
    (print_mesh_for_product P h g fuel pd X).isSome =
      (count_mesh_for_product g fuel pd).isSome := by
  unfold print_mesh_for_product count_mesh_for_product
  cases g.prod_mgr pd with
  | none => rfl
  | some pm => exact print_shapes_isSome P h g fuel X pm.shapes 0

theorem product_agree {D M : Type} (P : Prims D M) (h : Host) (g : Model D M)
    (hres : FacetsResolve g) (fuel pd : Nat) (X : M) (c : Nat) (out : List Nat)
    (hc : count_mesh_for_product g fuel pd = some c)
    (hout : print_mesh_for_product P h g fuel pd X = some out) :
    ∃ k, out.length = 50 * k ∧ c % UINT_MOD = k % UINT_MOD := by
  unfold count_mesh_for_product at hc
  unfold print_mesh_for_product at hout
  cases hm : g.prod_mgr pd with
  | none =>
    simp only [hm, Option.some.injEq] at hc hout
    subst hc
    subst hout
    exact ⟨0, rfl, rfl⟩
  | some pm =>
    simp only [hm] at hc hout
    obtain ⟨k, hk, hkm⟩ := shapes_agree P h g hres fuel X pm.shapes 0 c out hc hout
    exact ⟨k, hk, by simpa using hkm⟩

theorem count_roots_some {D M : Type} (g : Model D M) (fuel : Nat) (l : List Nat)
    (hs : ∀ pd ∈ l, ∃ c, count_mesh_for_product g fuel pd = some c) :
    ∀ count, ∃ c, count_roots g fuel l count = some c := by
  induction l with
  | nil => intro count; exact ⟨count, rfl⟩
  | cons pd rest ih =>
    intro count
    obtain ⟨c, hc⟩ := hs pd (List.mem_cons_self _ _)
    unfold count_roots
    rw [hc]
    exact ih (fun x hx => hs x (List.mem_cons_of_mem _ hx)) _

theorem count_roots_total {D M : Type} (g : Model D M) (hac : Acyclic g) (l : List Nat)
    (count : Nat) :
    ∃ F, ∀ fuel, F ≤ fuel → ∃ c, count_roots g fuel l count = some c := by
  obtain ⟨F, hF⟩ := uniform_budget
    (fun (pd : Nat) fuel => ∃ c, count_mesh_for_product g fuel pd = some c)
    l (fun pd _ => count_mesh_for_product_total g hac pd)
  exact ⟨F, fun fuel hfuel =>
    count_roots_some g fuel l (fun pd hpd => hF pd hpd fuel hfuel) count⟩

theorem count_roots_lt {D M : Type} (g : Model D M) (fuel : Nat) (l : List Nat) :
    ∀ count c, count < UINT_MOD → count_roots g fuel l count = some c → c < UINT_MOD := by
  induction l with
  | nil =>
    intro count c hc hcc
    simp only [count_roots, Option.some.injEq] at hcc
    omega
  | cons pd rest ih =>
    intro count c hc hcc
    unfold count_roots at hcc
    cases hs : count_mesh_for_product g fuel pd with
    | none => simp [hs] at hcc
    | some x =>
      rw [hs] at hcc
      exact ih _ c (Nat.mod_lt _ (by decide)) hcc

theorem print_roots_isSome {D M : Type} (P : Prims D M) (h : Host) (g : Model D M)
    (fuel : Nat) (l : List Nat) :
    ∀ count, (print_roots P h g fuel l).isSome = (count_roots g fuel l count).isSome := by
  induction l with
  | nil => intro count; rfl
  | cons pd rest ih =>
    intro count
    have h1 := print_mesh_for_product_isSome P h g fuel pd P.identity
    cases hp : print_mesh_for_product P h g fuel pd P.identity with
    | none =>
      rw [hp] at h1
      cases hc : count_mesh_for_product g fuel pd with
      | none => simp [print_roots, count_roots, hp, hc]
      | some c => rw [hc] at h1; cases h1
    | some o =>
      rw [hp] at h1
      cases hc : count_mesh_for_product g fuel pd with
      | none => rw [hc] at h1; cases h1
      | some c =>
        have h2 := ih ((count + c) % UINT_MOD)
        simp only [print_roots, count_roots, hp, hc]
        cases hr : print_roots P h g fuel rest with
        | none => rw [hr] at h2; exact h2
        | some more => rw [hr] at h2; exact h2

theorem roots_agree {D M : Type} (P : Prims D M) (h : Host) (g : Model D M)
    (hres : FacetsResolve g) (fuel : Nat) (l : List Nat) :
    ∀ count c out, count_roots g fuel l count = some c →
      print_roots P h g fuel l = some out →
      ∃ k, out.length = 50 * k ∧ c % UINT_MOD = (count + k) % UINT_MOD := by
  induction l with
  | nil =>
    intro count c out hc hout
    simp only [count_roots, Option.some.injEq] at hc
    simp only [print_roots, Option.some.injEq] at hout
    subst hc
    subst hout
    exact ⟨0, rfl, rfl⟩
  | cons pd rest ih =>
    intro count c out hc hout
    unfold count_roots at hc
    unfold print_roots at hout
    cases h1 : count_mesh_for_product g fuel pd with
    | none => simp [h1] at hc
    | some c1 =>
      cases h2 : print_mesh_for_product P h g fuel pd P.identity with
      | none => simp [h2] at hout
      | some o1 =>
        cases h3 : print_roots P h g fuel rest with
        | none => simp [h2, h3] at hout
        | some o2 =>
          simp only [h1] at hc
          simp only [h2, h3, Option.some.injEq] at hout
          obtain ⟨k1, hk1, hk1m⟩ := product_agree P h g hres fuel pd P.identity c1 o1 h1 h2
          obtain ⟨k2, hk2, hk2m⟩ := ih _ _ _ hc h3
          refine ⟨k1 + k2, ?_, ?_⟩
          · rw [← hout, List.length_append, hk1, hk2]
            omega
          · rw [hk2m]
            simp only [UINT_MOD] at hk1m ⊢
            omega

/-! ## The file as a whole -/

theorem header_buf_length : header_buf.length = 80 := by decide

theorem bytes_written_body (stlfile : Stream) (a b c : List Nat) :
    bytes_written [Event.facet_all_products, Event.write stlfile a, Event.write stlfile b,
      Event.write stlfile c, Event.fclose stlfile] = a ++ b ++ c := by
  simp [bytes_written]

theorem write_to_stream_some {D M : Type} (P : Prims D M) (h : Host) (g : Model D M)
    (fuel : Nat) (opts : stp2webgl_opts) (stlfile : Stream) (status : Int) (log : List Event)
    (hrun : write_to_stream P h g fuel opts stlfile = some (status, log)) :
    status = 0 ∧ ∃ count out,
      count_roots g fuel opts.root_prods 0 = some count ∧
      print_roots P h g fuel opts.root_prods = some out ∧
      log = [Event.facet_all_products, Event.write stlfile header_buf,
        Event.write stlfile (write_unsigned count), Event.write stlfile out,
        Event.fclose stlfile] := by
  unfold write_to_stream at hrun
  cases hc : count_roots g fuel opts.root_prods 0 with
  | none => simp [hc] at hrun
  | some count =>
    cases hp : print_roots P h g fuel opts.root_prods with
    | none => simp [hc, hp] at hrun
    | some out =>
      simp only [hc, hp, Option.some.injEq, Prod.mk.injEq] at hrun
      exact ⟨hrun.1.symm, count, out, rfl, rfl, hrun.2.symm⟩

theorem write_binary_stl_success {D M : Type} (P : Prims D M) (h : Host) (g : Model D M)
    (can_open : String → Bool) (fuel : Nat) (opts : stp2webgl_opts) (log : List Event)
    (hrun : write_binary_stl P h g can_open fuel opts = some (0, log)) :
    ∃ stlfile pre count out,
      count_roots g fuel opts.root_prods 0 = some count ∧
      print_roots P h g fuel opts.root_prods = some out ∧
      bytes_written pre = [] ∧
      log = pre ++ [Event.facet_all_products, Event.write stlfile header_buf,
        Event.write stlfile (write_unsigned count), Event.write stlfile out,
        Event.fclose stlfile] := by
  unfold write_binary_stl at hrun
  cases hsplit : opts.do_split with
  | true => simp [hsplit] at hrun
  | false =>
    simp only [hsplit, Bool.false_eq_true, if_false] at hrun
    cases hdst : opts.dstfile with
    | none =>
      simp only [hdst] at hrun
      obtain ⟨_, count, out, hc, hp, hlog⟩ := write_to_stream_some P h g fuel opts _ _ _ hrun
      exact ⟨Stream.stdout, [], count, out, hc, hp, rfl, by simpa using hlog⟩
    | some path =>
      simp only [hdst] at hrun
      cases hopen : can_open path with
      | false => simp [hopen] at hrun
      | true =>
        simp only [hopen, if_true] at hrun
        cases hbody : write_to_stream P h g fuel opts (Stream.file path) with
        | none => simp [hbody] at hrun
        | some res =>
          obtain ⟨status, body⟩ := res
          simp only [hbody, Option.some.injEq, Prod.mk.injEq] at hrun
          obtain ⟨_, count, out, hc, hp, hlog⟩ :=
            write_to_stream_some P h g fuel opts _ _ _ hbody
          refine ⟨Stream.file path, [Event.rose_fopen path true], count, out, hc, hp, rfl, ?_⟩
          rw [← hrun.2, hlog]
          rfl

theorem success_bytes {D M : Type} (P : Prims D M) (h : Host) (g : Model D M)
    (can_open : String → Bool) (fuel : Nat) (opts : stp2webgl_opts) (log : List Event)
    (hrun : write_binary_stl P h g can_open fuel opts = some (0, log)) :
    ∃ count out,
      count_roots g fuel opts.root_prods 0 = some count ∧
      print_roots P h g fuel opts.root_prods = some out ∧
      bytes_written log = header_buf ++ le_bytes32 count ++ out := by
  obtain ⟨stlfile, pre, count, out, hc, hp, hpre, hlog⟩ :=
    write_binary_stl_success P h g can_open fuel opts log hrun
  refine ⟨count, out, hc, hp, ?_⟩
  have happ : ∀ (a b : List Event), bytes_written (a ++ b) = bytes_written a ++ bytes_written b := by
    intro a b
    induction a with
    | nil => rfl
    | cons e rest ih => cases e <;> simp [bytes_written, ih]
  rw [hlog, happ, hpre, bytes_written_body, write_unsigned_eq]
  rfl

theorem write_to_stream_total {D M : Type} (P : Prims D M) (h : Host) (g : Model D M)
    (hac : Acyclic g) (opts : stp2webgl_opts) :
    ∃ F, ∀ fuel, F ≤ fuel → ∀ stlfile,
      ∃ log, write_to_stream P h g fuel opts stlfile = some (0, log) := by
  obtain ⟨F, hF⟩ := count_roots_total g hac opts.root_prods 0
  refine ⟨F, fun fuel hfuel stlfile => ?_⟩
  obtain ⟨count, hc⟩ := hF fuel hfuel
  have hsome := print_roots_isSome P h g fuel opts.root_prods 0
  rw [hc] at hsome
  cases hp : print_roots P h g fuel opts.root_prods with
  | none => rw [hp] at hsome; cases hsome
  | some out =>
    simp only [write_to_stream, hc, hp]
    exact ⟨_, rfl⟩

theorem write_binary_stl_total {D M : Type} (P : Prims D M) (h : Host) (g : Model D M)
    (hac : Acyclic g) (can_open : String → Bool) (opts : stp2webgl_opts)
    (hsplit : opts.do_split = false)
    (hopen : ∀ path, opts.dstfile = some path → can_open path = true) :
    ∃ F, ∀ fuel, F ≤ fuel →
      ∃ log, write_binary_stl P h g can_open fuel opts = some (0, log) := by
  obtain ⟨F, hF⟩ := write_to_stream_total P h g hac opts
  refine ⟨F, fun fuel hfuel => ?_⟩
  unfold write_binary_stl
  simp only [hsplit, Bool.false_eq_true, if_false]
  cases hdst : opts.dstfile with
  | none => exact hF fuel hfuel Stream.stdout
  | some path =>
    obtain ⟨log, hlog⟩ := hF fuel hfuel (Stream.file path)
    simp only [hopen path hdst, if_true, hlog]
    exact ⟨_, rfl⟩

theorem count_roots_sum {D M : Type} (g : Model D M) (fuel : Nat) (l : List Nat) :
    ∀ count c, count_roots g fuel l count = some c →
      ∃ counts, List.Forall₂ (fun pd n => count_mesh_for_product g fuel pd = some n) l counts ∧
        c % UINT_MOD = (count + counts.sum) % UINT_MOD := by
  induction l with
  | nil =>
    intro count c hc
    simp only [count_roots, Option.some.injEq] at hc
    subst hc
    exact ⟨[], List.Forall₂.nil, rfl⟩
  | cons pd rest ih =>
    intro count c hc
    unfold count_roots at hc
    cases h1 : count_mesh_for_product g fuel pd with
    | none => simp [h1] at hc
    | some n =>
      rw [h1] at hc
      obtain ⟨counts, hall, hsum⟩ := ih _ _ hc
      refine ⟨n :: counts, List.Forall₂.cons h1 hall, ?_⟩
      rw [hsum, List.sum_cons]
      simp only [UINT_MOD]
      omega

/-! ## Claims on the binary utilities and the facet emitter -/

/-- C5: for every 32-bit value, `write_unsigned` writes exactly four bytes, byte
`i` being `(val >> 8 * i) & 0xff`, and decoding them low byte first gives the
value back. -/
theorem write_unsigned_little_endian (val : Nat) (hval : val < 2 ^ 32) :
    write_unsigned val =
      [(val >>> (8 * 0)) &&& 0xff, (val >>> (8 * 1)) &&& 0xff,
       (val >>> (8 * 2)) &&& 0xff, (val >>> (8 * 3)) &&& 0xff] ∧
    (write_unsigned val).length = 4 ∧
    (∀ b ∈ write_unsigned val, b < 256) ∧
    (∃ b0 b1 b2 b3, write_unsigned val = [b0, b1, b2, b3] ∧
      b0 + 256 * b1 + 65536 * b2 + 16777216 * b3 = val) := by
  refine ⟨?_, ?_, ?_, ?_⟩
  · simp [write_unsigned, putc, and_0xff]
  · rw [write_unsigned_eq, le_bytes32_length]
  · intro b hb
    rw [write_unsigned_eq] at hb
    simp only [le_bytes32, List.mem_cons, List.mem_singleton, List.not_mem_nil, or_false] at hb
    omega
  · refine ⟨_, _, _, _, write_unsigned_eq val, ?_⟩
    omega

/-- Witness of C5 at the largest 32-bit value. -/
theorem write_unsigned_little_endian_witness :
    4294967295 < 2 ^ 32 ∧
    (∃ b0 b1 b2 b3, write_unsigned 4294967295 = [b0, b1, b2, b3] ∧
      b0 + 256 * b1 + 65536 * b2 + 16777216 * b3 = 4294967295) :=
  ⟨by decide, (write_unsigned_little_endian 4294967295 (by decide)).2.2.2⟩

/-- C6, as the code has it: on a host where `BIG_ENDIAN` is defined exactly
when a float is stored most significant byte first, `write_float` writes the
four bytes of the float pattern least significant byte first, and two such
hosts write the same bytes. -/
theorem write_float_little_endian {D M : Type} (P : Prims D M) (h : Host) (val : D)
    (hdet : BIG_ENDIAN h = h.big_endian_layout) :
    write_float P h val = le_bytes32 (P.float_bits val % UINT_MOD) ∧
    (write_float P h val).length = 4 ∧
    (∀ h2 : Host, BIG_ENDIAN h2 = h2.big_endian_layout →
      write_float P h2 val = write_float P h val) := by
  have key : ∀ k : Host, BIG_ENDIAN k = k.big_endian_layout →
      write_float P k val = le_bytes32 (P.float_bits val % UINT_MOD) := by
    intro k hk
    unfold write_float
    simp only [hk, olbuf_words, putc, le_bytes32]
    cases k.big_endian_layout <;> simp [Nat.mod_mod]
  exact ⟨key h hdet, write_float_length P h val, fun h2 h2det => by rw [key h2 h2det, key h hdet]⟩

/-- Witness of C6 on a big-endian SPARC host. -/
theorem write_float_little_endian_witness :
    BIG_ENDIAN host_sparc = host_sparc.big_endian_layout ∧
    write_float translation_prims host_sparc 1 =
      le_bytes32 (translation_prims.float_bits 1 % UINT_MOD) :=
  ⟨by decide, (write_float_little_endian translation_prims host_sparc 1 (by decide)).1⟩

/-- C6 fails as stated: on a big-endian host where `BIG_ENDIAN` is not defined
(none of the tested macros is) the bytes of `1.0` leave most significant byte
first. -/
theorem write_float_host_order_counterexample :
    host_other_big.big_endian_layout = true ∧
    BIG_ENDIAN host_other_big = false ∧
    translation_prims.float_bits 1 = 0x3F800000 ∧
    write_float translation_prims host_other_big 1 = [0x3F, 0x80, 0, 0] ∧
    le_bytes32 (translation_prims.float_bits 1) = [0, 0, 0x80, 0x3F] ∧
    ¬ (∀ (h : Host) (val : Int),
        write_float translation_prims h val = le_bytes32 (translation_prims.float_bits val)) := by
  refine ⟨rfl, rfl, by decide, by decide, by decide, ?_⟩
  intro hall
  have h1 := hall host_other_big 1
  revert h1
  decide

/-- C3: for a facet index that resolves to a facet, `print_triangle` writes
exactly 50 bytes: the three floats of the transformed normal, the three floats
of each transformed vertex in the stored order `verts[0]`, `verts[1]`,
`verts[2]`, and two zero bytes. -/
theorem print_triangle_record {D M : Type} (P : Prims D M) (h : Host)
    (fs : StixMeshFacetSet D) (xform : M) (facet_num : Nat) (f : StixMeshFacet)
    (hf : fs.getFacet facet_num = some f) :
    print_triangle P h fs xform facet_num =
      write_float P h (P.stixmesh_transform_dir xform (fs.getNormal f.facet_normal)).e0 ++
      write_float P h (P.stixmesh_transform_dir xform (fs.getNormal f.facet_normal)).e1 ++
      write_float P h (P.stixmesh_transform_dir xform (fs.getNormal f.facet_normal)).e2 ++
      write_float P h (P.stixmesh_transform xform (fs.getVertex (f.verts 0))).e0 ++
      write_float P h (P.stixmesh_transform xform (fs.getVertex (f.verts 0))).e1 ++
      write_float P h (P.stixmesh_transform xform (fs.getVertex (f.verts 0))).e2 ++
      write_float P h (P.stixmesh_transform xform (fs.getVertex (f.verts 1))).e0 ++
      write_float P h (P.stixmesh_transform xform (fs.getVertex (f.verts 1))).e1 ++
      write_float P h (P.stixmesh_transform xform (fs.getVertex (f.verts 1))).e2 ++
      write_float P h (P.stixmesh_transform xform (fs.getVertex (f.verts 2))).e0 ++
      write_float P h (P.stixmesh_transform xform (fs.getVertex (f.verts 2))).e1 ++
      write_float P h (P.stixmesh_transform xform (fs.getVertex (f.verts 2))).e2 ++
      [0, 0] ∧
    (print_triangle P h fs xform facet_num).length = 50 := by
  constructor
  · simp [print_triangle, hf, write_dbl3, putc, List.append_assoc]
  · rw [print_triangle_length, hf]
    rfl

/-- Witness of C3 at facet 0 of the one-triangle facet set. -/
theorem print_triangle_record_witness :
    one_facet.getFacet 0 = some ⟨fun i => i.val, 0⟩ ∧
    (print_triangle translation_prims host_intel one_facet ⟨5, 0, 0⟩ 0).length = 50 :=
  ⟨rfl, (print_triangle_record translation_prims host_intel one_facet ⟨5, 0, 0⟩ 0
    ⟨fun i => i.val, 0⟩ rfl).2⟩

/-! ## Facts about the sample data -/

theorem acyclic_of_no_children {D M : Type} (g : Model D M) (hg : ∀ r, g.rep_mgr r = none) :
    Acyclic g := by
  refine ⟨⟨0, fun r _ => hg r⟩, fun r hr => ?_⟩
  have key : ∀ a b, Relation.TransGen (IsChild g) a b → False := by
    intro a b hab
    cases hab with
    | single h1 =>
      obtain ⟨m, hm, _⟩ := h1
      rw [hg] at hm
      cases hm
    | tail _ h2 =>
      obtain ⟨m, hm, _⟩ := h2
      rw [hg] at hm
      cases hm
  exact key r r hr

theorem two_level_children (c r : Nat) (hcr : IsChild two_level_model c r) :
    c = 1 ∧ r = 0 := by
  obtain ⟨m, hm, l, hl, hc⟩ := hcr
  by_cases hr : r = 0
  · subst hr
    simp only [two_level_model, if_true, Option.some.injEq] at hm
    subst hm
    simp only [List.append_nil, List.mem_singleton] at hl
    subst hl
    simp only [Option.some.injEq] at hc
    exact ⟨hc.symm, rfl⟩
  · simp [two_level_model, hr] at hm

theorem two_level_acyclic : Acyclic two_level_model := by
  refine ⟨⟨1, fun r hr => ?_⟩, ?_⟩
  · have hne : r ≠ 0 := by omega
    simp [two_level_model, hne]
  · refine no_cycle_of_rank _ (fun r => if r = 0 then 1 else 0) ?_
    intro c r hcr
    obtain ⟨hc, hr⟩ := two_level_children c r hcr
    subst hc
    subst hr
    decide

theorem two_level_resolve : FacetsResolve two_level_model := by
  intro it mesh hmesh j hj
  by_cases hit : it = 10
  · subst hit
    simp only [two_level_model, if_true, Option.some.injEq] at hmesh
    subst hmesh
    have hj0 : j = 0 := by
      simp only [one_facet] at hj
      omega
    subst hj0
    rfl
  · simp [two_level_model, hit] at hmesh

theorem full_range_print (X : Dbl3 Int) :
    print_mesh_for_shape translation_prims host_intel full_range_model 1 (some 0) X =
      some (print_facets translation_prims host_intel half_range_facets X 0 2147483648 ++
        (print_facets translation_prims host_intel half_range_facets X 0 2147483648 ++ [])) := by
  simp [print_mesh_for_shape, full_range_model, print_items, half_range_facets]

theorem full_range_resolve : FacetsResolve full_range_model := by
  intro it mesh hmesh j _
  simp only [full_range_model, Option.some.injEq] at hmesh
  subst hmesh
  rfl

theorem half_range_length (X : Dbl3 Int) :
    (print_facets translation_prims host_intel half_range_facets X 0 2147483648).length =
      50 * 2147483648 :=
  print_facets_length translation_prims host_intel half_range_facets X 2147483648 0
    (fun _ _ _ => rfl)

/-! ## Claims on counting and emitting -/

/-- C2, as the code has it: on a finite graph without cycles whose cached
facet sets return a facet for every index below their count, both passes
return with enough budget, the emit pass writes whole 50-byte records, their
number `k` is the count modulo `2 ^ 32` and equals the count when `k` is below
`2 ^ 32`; an item with a cached mesh adds `getFacetCount` records to the
output and `getFacetCount` to the running count. -/
theorem count_print_agree {D M : Type} (P : Prims D M) (h : Host) (g : Model D M)
    (hac : Acyclic g) (hres : FacetsResolve g) (rep : Option Nat) :
    (∃ F, ∀ fuel, F ≤ fuel → ∃ c, count_mesh_for_shape g fuel rep = some c ∧
      ∀ X, ∃ out k, print_mesh_for_shape P h g fuel rep X = some out ∧
        out.length = 50 * k ∧ c = k % UINT_MOD ∧ (k < UINT_MOD → c = k)) ∧
    (∀ it mesh, g.stixmesh_cache_find it = some mesh → ∀ X rest count,
      print_items P h g X (it :: rest) =
        print_facets P h mesh.getFacetSet X 0 mesh.getFacetSet.getFacetCount ++
          print_items P h g X rest ∧
      (print_facets P h mesh.getFacetSet X 0 mesh.getFacetSet.getFacetCount).length =
        50 * mesh.getFacetSet.getFacetCount ∧
      count_items g (it :: rest) count =
        count_items g rest ((count + mesh.getFacetSet.getFacetCount) % UINT_MOD)) := by
  constructor
  · obtain ⟨F, hF⟩ := count_mesh_for_shape_total g hac rep
    refine ⟨F, fun fuel hfuel => ?_⟩
    obtain ⟨c, hc⟩ := hF fuel hfuel
    refine ⟨c, hc, fun X => ?_⟩
    have hsome := print_mesh_for_shape_isSome P h g fuel rep X
    rw [hc] at hsome
    cases hp : print_mesh_for_shape P h g fuel rep X with
    | none => rw [hp] at hsome; cases hsome
    | some out =>
      obtain ⟨k, hk, hkm⟩ := shape_agree P h g hres fuel rep X c out hc hp
      have hlt := count_mesh_for_shape_lt g fuel rep c hc
      rw [Nat.mod_eq_of_lt hlt] at hkm
      exact ⟨out, k, rfl, hk, hkm, fun hk2 => by rw [hkm, Nat.mod_eq_of_lt hk2]⟩
  · intro it mesh hmesh X rest count
    refine ⟨by simp [print_items, hmesh], ?_, by simp [count_items, hmesh]⟩
    exact print_facets_length P h _ X _ 0 (fun i _ hi => hres it mesh hmesh i (by omega))

/-- Witness of C2 on the two-level assembly. -/
theorem count_print_agree_witness :
    Acyclic two_level_model ∧ FacetsResolve two_level_model ∧
    ∃ F, ∀ fuel, F ≤ fuel → ∃ c, count_mesh_for_shape two_level_model fuel (some 0) = some c ∧
      ∀ X, ∃ out k,
        print_mesh_for_shape translation_prims host_intel two_level_model fuel (some 0) X =
          some out ∧
        out.length = 50 * k ∧ c = k % UINT_MOD ∧ (k < UINT_MOD → c = k) :=
  ⟨two_level_acyclic, two_level_resolve,
    (count_print_agree translation_prims host_intel two_level_model two_level_acyclic
      two_level_resolve (some 0)).1⟩

/-- C2 fails as stated, in two ways.  A facet set that reports one facet and
returns none is counted as 1 and emitted as no record; two meshes of `2 ^ 31`
facets each are counted as 0 and emitted as `2 ^ 32` records. -/
theorem count_print_agree_counterexample :
    (Acyclic hollow_model ∧
      count_mesh_for_shape hollow_model 1 (some 0) = some 1 ∧
      print_mesh_for_shape translation_prims host_intel hollow_model 1 (some 0) ⟨0, 0, 0⟩ =
        some []) ∧
    (Acyclic full_range_model ∧ FacetsResolve full_range_model ∧
      count_mesh_for_shape full_range_model 1 (some 0) = some 0 ∧
      ∃ out, print_mesh_for_shape translation_prims host_intel full_range_model 1 (some 0)
          ⟨0, 0, 0⟩ = some out ∧
        out.length = 50 * 4294967296) := by
  refine ⟨⟨acyclic_of_no_children _ (fun _ => rfl), by decide, by decide⟩,
    ⟨acyclic_of_no_children _ (fun _ => rfl), full_range_resolve, by decide, _,
      full_range_print _, ?_⟩⟩
  rw [List.length_append, List.length_append, half_range_length, List.length_nil]

/-- C1, as the code has it: on a finite graph without cycles whose cached
facet sets return a facet for every index below their count, a successful run
writes `84 + 50 * k` bytes, `k` being the number of triangle records, and the
count at offset 80 is `k` modulo `2 ^ 32`, hence `k` itself when `k` is below
`2 ^ 32`; the run succeeds, given enough budget, whenever no split is asked
and the destination opens. -/
theorem file_size_matches_count {D M : Type} (P : Prims D M) (h : Host) (g : Model D M)
    (hac : Acyclic g) (hres : FacetsResolve g) (can_open : String → Bool)
    (opts : stp2webgl_opts) :
    (∀ fuel log, write_binary_stl P h g can_open fuel opts = some (0, log) →
      ∃ k, (bytes_written log).length = 84 + 50 * k ∧
        le_decode (((bytes_written log).drop 80).take 4) = k % UINT_MOD ∧
        (k < UINT_MOD → le_decode (((bytes_written log).drop 80).take 4) = k)) ∧
    (opts.do_split = false → (∀ path, opts.dstfile = some path → can_open path = true) →
      ∃ F, ∀ fuel, F ≤ fuel →
        ∃ log, write_binary_stl P h g can_open fuel opts = some (0, log)) := by
  constructor
  · intro fuel log hrun
    obtain ⟨count, out, hc, hp, hbytes⟩ := success_bytes P h g can_open fuel opts log hrun
    obtain ⟨k, hk, hkm⟩ := roots_agree P h g hres fuel opts.root_prods 0 count out hc hp
    have hlt := count_roots_lt g fuel opts.root_prods 0 count (by decide) hc
    rw [Nat.mod_eq_of_lt hlt, Nat.zero_add] at hkm
    have hfield : ((bytes_written log).drop 80).take 4 = le_bytes32 count := by
      rw [hbytes, List.append_assoc, List.drop_left' header_buf_length,
        List.take_left' (le_bytes32_length count)]
    refine ⟨k, ?_, ?_, ?_⟩
    · rw [hbytes]
      simp only [List.length_append, header_buf_length, le_bytes32_length, hk]
    · rw [hfield, le_decode_le_bytes32, Nat.mod_eq_of_lt hlt, hkm]
    · intro hk2
      rw [hfield, le_decode_le_bytes32, Nat.mod_eq_of_lt hlt, hkm, Nat.mod_eq_of_lt hk2]
  · intro hsplit hopen
    exact write_binary_stl_total P h g hac can_open opts hsplit hopen

/-- Witness of C1 on the two-level assembly written to standard output. -/
theorem file_size_matches_count_witness :
    Acyclic two_level_model ∧ FacetsResolve two_level_model ∧
    ∀ fuel log,
      write_binary_stl translation_prims host_intel two_level_model (fun _ => true) fuel
        opts_stdout = some (0, log) →
      ∃ k, (bytes_written log).length = 84 + 50 * k ∧
        le_decode (((bytes_written log).drop 80).take 4) = k % UINT_MOD ∧
        (k < UINT_MOD → le_decode (((bytes_written log).drop 80).take 4) = k) :=
  ⟨two_level_acyclic, two_level_resolve,
    (file_size_matches_count translation_prims host_intel two_level_model two_level_acyclic
      two_level_resolve (fun _ => true) opts_stdout).1⟩

/-- C1 fails as stated, in two ways.  With a facet set that reports one facet
and returns none the file holds the count 1 and no record, 84 bytes in all;
with two meshes of `2 ^ 31` facets each it holds the count 0 and `2 ^ 32`
records. -/
theorem file_size_counterexample :
    (Acyclic hollow_model ∧
      ∃ log, write_binary_stl translation_prims host_intel hollow_model (fun _ => true) 1
          opts_stdout = some (0, log) ∧
        ((bytes_written log).drop 80).take 4 = [1, 0, 0, 0] ∧
        (bytes_written log).length = 84) ∧
    (Acyclic full_range_model ∧ FacetsResolve full_range_model ∧
      ∃ log, write_binary_stl translation_prims host_intel full_range_model (fun _ => true) 1
          opts_stdout = some (0, log) ∧
        ((bytes_written log).drop 80).take 4 = [0, 0, 0, 0] ∧
        (bytes_written log).length = 84 + 50 * 4294967296) := by
  refine ⟨⟨acyclic_of_no_children _ (fun _ => rfl), _, rfl, by decide, by decide⟩,
    ⟨acyclic_of_no_children _ (fun _ => rfl), full_range_resolve, ?_⟩⟩
  have hc : count_roots full_range_model 1 opts_stdout.root_prods 0 = some 0 := by decide
  have hp : print_roots translation_prims host_intel full_range_model 1 opts_stdout.root_prods =
      some (print_facets translation_prims host_intel half_range_facets ⟨0, 0, 0⟩ 0 2147483648 ++
        (print_facets translation_prims host_intel half_range_facets ⟨0, 0, 0⟩ 0 2147483648 ++
          []) ++ [] ++ []) := by
    simp only [opts_stdout, print_roots, print_mesh_for_product, full_range_model, if_true,
      print_shapes, translation_prims]
    have hx := full_range_print ⟨0, 0, 0⟩
    simp only [full_range_model, translation_prims] at hx
    rw [hx]
  have hrun : write_binary_stl translation_prims host_intel full_range_model (fun _ => true) 1
      opts_stdout = some (0, [Event.facet_all_products,
        Event.write Stream.stdout header_buf,
        Event.write Stream.stdout (write_unsigned 0),
        Event.write Stream.stdout
          (print_facets translation_prims host_intel half_range_facets ⟨0, 0, 0⟩ 0 2147483648 ++
            (print_facets translation_prims host_intel half_range_facets ⟨0, 0, 0⟩ 0 2147483648 ++
              []) ++ [] ++ []),
        Event.fclose Stream.stdout]) := by
    have hsplit : opts_stdout.do_split = false := rfl
    have hdst : opts_stdout.dstfile = none := rfl
    simp only [write_binary_stl, hsplit, hdst, write_to_stream, hc, hp, Bool.false_eq_true,
      if_false]
  refine ⟨_, hrun, ?_, ?_⟩
  · rw [bytes_written_body, List.append_assoc, List.drop_left' header_buf_length,
      List.take_left' (by decide)]
    decide
  · rw [bytes_written_body]
    repeat rw [List.length_append]
    rw [header_buf_length, half_range_length, List.length_nil]
    rfl

/-! ## Children and placements -/

theorem print_children_some_iff {D M : Type} (P : Prims D M)
    (self : Option Nat → M → Option (List Nat)) (X : M) (rels : List (Linkage M)) :
    ∀ out, print_children P self X rels = some out ↔
      ∃ outs, List.Forall₂ (fun (l : Linkage M) o => self l.child_rep (P.mul l.xform X) = some o)
        rels outs ∧ out = outs.flatten := by
  induction rels with
  | nil =>
    intro out
    constructor
    · intro hout
      simp only [print_children, Option.some.injEq] at hout
      exact ⟨[], List.Forall₂.nil, hout.symm⟩
    · rintro ⟨outs, hall, hout⟩
      cases hall
      rw [hout]
      rfl
  | cons rel rest ih =>
    intro out
    constructor
    · intro hout
      unfold print_children at hout
      cases h1 : self rel.child_rep (P.mul rel.xform X) with
      | none => simp [h1] at hout
      | some o =>
        cases h2 : print_children P self X rest with
        | none => simp [h1, h2] at hout
        | some more =>
          simp only [h1, h2, Option.some.injEq] at hout
          obtain ⟨outs, hall, hmore⟩ := (ih more).mp h2
          refine ⟨o :: outs, List.Forall₂.cons h1 hall, ?_⟩
          rw [← hout, hmore]
          rfl
    · rintro ⟨outs, hall, hout⟩
      cases hall with
      | cons h1 hrest =>
        rename_i o outs2
        have h2 := (ih outs2.flatten).mpr ⟨outs2, hrest, rfl⟩
        simp only [print_children, h1, h2, hout, List.flatten_cons]

theorem print_mesh_for_shape_some_iff {D M : Type} (P : Prims D M) (h : Host) (g : Model D M)
    (fuel rep : Nat) (m : StixMgrAsmShapeRep M) (X : M) (out : List Nat)
    (hm : g.rep_mgr rep = some m) :
    print_mesh_for_shape P h g (fuel + 1) (some rep) X = some out ↔
      ∃ rels mapped,
        List.Forall₂ (fun (l : Linkage M) o =>
          print_mesh_for_shape P h g fuel l.child_rep (P.mul l.xform X) = some o)
          m.child_rels rels ∧
        List.Forall₂ (fun (l : Linkage M) o =>
          print_mesh_for_shape P h g fuel l.child_rep (P.mul l.xform X) = some o)
          m.child_mapped_items mapped ∧
        out = print_items P h g X (g.items rep) ++ rels.flatten ++ mapped.flatten := by
  constructor
  · intro hout
    unfold print_mesh_for_shape at hout
    simp only [hm] at hout
    cases h1 : print_children P (print_mesh_for_shape P h g fuel) X m.child_rels with
    | none => simp [h1] at hout
    | some o1 =>
      cases h2 : print_children P (print_mesh_for_shape P h g fuel) X m.child_mapped_items with
      | none => simp [h1, h2] at hout
      | some o2 =>
        simp only [h1, h2, Option.some.injEq] at hout
        obtain ⟨rels, hrels, hr⟩ := (print_children_some_iff P _ X _ o1).mp h1
        obtain ⟨mapped, hmapped, hmp⟩ := (print_children_some_iff P _ X _ o2).mp h2
        exact ⟨rels, mapped, hrels, hmapped, by rw [← hout, hr, hmp]⟩
  · rintro ⟨rels, mapped, hrels, hmapped, hout⟩
    have h1 := (print_children_some_iff P (print_mesh_for_shape P h g fuel) X m.child_rels
      rels.flatten).mpr ⟨rels, hrels, rfl⟩
    have h2 := (print_children_some_iff P (print_mesh_for_shape P h g fuel) X
      m.child_mapped_items mapped.flatten).mpr ⟨mapped, hmapped, rfl⟩
    simp only [print_mesh_for_shape, hm, h1, h2, hout]

theorem print_leaf {D M : Type} (P : Prims D M) (h : Host) (g : Model D M)
    (fuel c it : Nat) (X : M) (mesh : StixMeshStp D)
    (hitems : g.items c = [it]) (hmesh : g.stixmesh_cache_find it = some mesh)
    (hcount : mesh.getFacetSet.getFacetCount = 1) (hmgr : g.rep_mgr c = none) :
    print_mesh_for_shape P h g (fuel + 1) (some c) X =
      some (print_triangle P h mesh.getFacetSet X 0) := by
  simp [print_mesh_for_shape, hitems, hmgr, print_items, hmesh, hcount, print_facets]

theorem print_two_level {D M : Type} (P : Prims D M) (h : Host) (g : Model D M)
    (fuel root c it : Nat) (X Tc : M) (mesh : StixMeshStp D)
    (hroot_items : g.items root = [])
    (hroot_mgr : g.rep_mgr root = some ⟨[⟨some c, Tc⟩], []⟩ ∨
      g.rep_mgr root = some ⟨[], [⟨some c, Tc⟩]⟩)
    (hitems : g.items c = [it]) (hmesh : g.stixmesh_cache_find it = some mesh)
    (hcount : mesh.getFacetSet.getFacetCount = 1) (hmgr : g.rep_mgr c = none) :
    print_mesh_for_shape P h g (fuel + 2) (some root) X =
      some (print_triangle P h mesh.getFacetSet (P.mul Tc X) 0) := by
  have hleaf := print_leaf P h g fuel c it (P.mul Tc X) mesh hitems hmesh hcount hmgr
  rcases hroot_mgr with hm | hm
  · refine (print_mesh_for_shape_some_iff P h g (fuel + 1) root _ X _ hm).mpr
      ⟨[print_triangle P h mesh.getFacetSet (P.mul Tc X) 0], [],
        List.Forall₂.cons hleaf List.Forall₂.nil, List.Forall₂.nil, ?_⟩
    simp [hroot_items, print_items]
  · refine (print_mesh_for_shape_some_iff P h g (fuel + 1) root _ X _ hm).mpr
      ⟨[], [print_triangle P h mesh.getFacetSet (P.mul Tc X) 0],
        List.Forall₂.nil, List.Forall₂.cons hleaf List.Forall₂.nil, ?_⟩
    simp [hroot_items, print_items]

/-- C4: a child linkage of either kind is visited with the placement
`local * accumulated`; for a two-level assembly (a root without items and one
child linkage, of either kind, to a representation with one single-facet
mesh) started at `T_root` the record written is the facet under
`T_c * T_root`, each vertex being `stixmesh_transform (T_c * T_root, v)`, and
started at the identity it is the facet under `T_c`, provided the identity is
a right unit of the matrix product. -/
theorem child_transform_order {D M : Type} (P : Prims D M) (h : Host) (g : Model D M)
    (fuel root c it : Nat) (Troot Tc : M) (mesh : StixMeshStp D) (f : StixMeshFacet)
    (hroot_items : g.items root = [])
    (hroot_mgr : g.rep_mgr root = some ⟨[⟨some c, Tc⟩], []⟩ ∨
      g.rep_mgr root = some ⟨[], [⟨some c, Tc⟩]⟩)
    (hitems : g.items c = [it]) (hmesh : g.stixmesh_cache_find it = some mesh)
    (hcount : mesh.getFacetSet.getFacetCount = 1) (hf : mesh.getFacetSet.getFacet 0 = some f)
    (hmgr : g.rep_mgr c = none)
    (hunit : P.mul Tc P.identity = Tc) :
    (∀ (n rep : Nat) (m : StixMgrAsmShapeRep M) (X : M) (out : List Nat),
      g.rep_mgr rep = some m →
      (print_mesh_for_shape P h g (n + 1) (some rep) X = some out ↔
        ∃ rels mapped,
          List.Forall₂ (fun (l : Linkage M) o =>
            print_mesh_for_shape P h g n l.child_rep (P.mul l.xform X) = some o)
            m.child_rels rels ∧
          List.Forall₂ (fun (l : Linkage M) o =>
            print_mesh_for_shape P h g n l.child_rep (P.mul l.xform X) = some o)
            m.child_mapped_items mapped ∧
          out = print_items P h g X (g.items rep) ++ rels.flatten ++ mapped.flatten)) ∧
    print_mesh_for_shape P h g (fuel + 2) (some root) Troot =
      some (write_dbl3 P h (P.stixmesh_transform_dir (P.mul Tc Troot)
          (mesh.getFacetSet.getNormal f.facet_normal)) ++
        write_dbl3 P h (P.stixmesh_transform (P.mul Tc Troot)
          (mesh.getFacetSet.getVertex (f.verts 0))) ++
        write_dbl3 P h (P.stixmesh_transform (P.mul Tc Troot)
          (mesh.getFacetSet.getVertex (f.verts 1))) ++
        write_dbl3 P h (P.stixmesh_transform (P.mul Tc Troot)
          (mesh.getFacetSet.getVertex (f.verts 2))) ++ [0, 0]) ∧
    print_mesh_for_shape P h g (fuel + 2) (some root) P.identity =
      some (write_dbl3 P h (P.stixmesh_transform_dir Tc
          (mesh.getFacetSet.getNormal f.facet_normal)) ++
        write_dbl3 P h (P.stixmesh_transform Tc (mesh.getFacetSet.getVertex (f.verts 0))) ++
        write_dbl3 P h (P.stixmesh_transform Tc (mesh.getFacetSet.getVertex (f.verts 1))) ++
        write_dbl3 P h (P.stixmesh_transform Tc (mesh.getFacetSet.getVertex (f.verts 2))) ++
        [0, 0]) := by
  have hrec : ∀ X, print_triangle P h mesh.getFacetSet X 0 =
      write_dbl3 P h (P.stixmesh_transform_dir X (mesh.getFacetSet.getNormal f.facet_normal)) ++
        write_dbl3 P h (P.stixmesh_transform X (mesh.getFacetSet.getVertex (f.verts 0))) ++
        write_dbl3 P h (P.stixmesh_transform X (mesh.getFacetSet.getVertex (f.verts 1))) ++
        write_dbl3 P h (P.stixmesh_transform X (mesh.getFacetSet.getVertex (f.verts 2))) ++
        [0, 0] := by
    intro X
    simp [print_triangle, hf, putc, List.append_assoc]
  refine ⟨fun n rep m X out hm => print_mesh_for_shape_some_iff P h g n rep m X out hm, ?_, ?_⟩
  · rw [print_two_level P h g fuel root c it Troot Tc mesh hroot_items hroot_mgr hitems hmesh
      hcount hmgr, hrec]
  · rw [print_two_level P h g fuel root c it P.identity Tc mesh hroot_items hroot_mgr hitems
      hmesh hcount hmgr, hunit, hrec]

/-- Witness of C4 on the two-level assembly, whose child is placed by the
translation `(5, 0, 0)`. -/
theorem child_transform_order_witness :
    two_level_model.items 0 = [] ∧
    two_level_model.rep_mgr 0 = some ⟨[⟨some 1, ⟨5, 0, 0⟩⟩], []⟩ ∧
    translation_prims.mul ⟨5, 0, 0⟩ translation_prims.identity = ⟨5, 0, 0⟩ ∧
    print_mesh_for_shape translation_prims host_intel two_level_model 2 (some 0)
        translation_prims.identity =
      some (write_dbl3 translation_prims host_intel (translation_prims.stixmesh_transform_dir
          ⟨5, 0, 0⟩ (one_facet.getNormal 0)) ++
        write_dbl3 translation_prims host_intel
          (translation_prims.stixmesh_transform ⟨5, 0, 0⟩ (one_facet.getVertex 0)) ++
        write_dbl3 translation_prims host_intel
          (translation_prims.stixmesh_transform ⟨5, 0, 0⟩ (one_facet.getVertex 1)) ++
        write_dbl3 translation_prims host_intel
          (translation_prims.stixmesh_transform ⟨5, 0, 0⟩ (one_facet.getVertex 2)) ++
        [0, 0]) :=
  ⟨rfl, rfl, rfl,
    (child_transform_order translation_prims host_intel two_level_model 0 0 1 10
      translation_prims.identity ⟨5, 0, 0⟩ ⟨one_facet⟩ ⟨fun i => i.val, 0⟩
      rfl (Or.inl rfl) rfl rfl rfl rfl rfl rfl).2.2⟩

/-! ## Models without meshes -/

theorem count_items_no_mesh {D M : Type} (g : Model D M) (l : List Nat)
    (hl : ∀ it ∈ l, g.stixmesh_cache_find it = none) :
    ∀ count, count_items g l count = count := by
  induction l with
  | nil => intro count; rfl
  | cons it rest ih =>
    intro count
    unfold count_items
    rw [hl it (List.mem_cons_self _ _)]
    exact ih (fun x hx => hl x (List.mem_cons_of_mem _ hx)) count

theorem print_items_no_mesh {D M : Type} (P : Prims D M) (h : Host) (g : Model D M) (X : M)
    (l : List Nat) (hl : ∀ it ∈ l, g.stixmesh_cache_find it = none) :
    print_items P h g X l = [] := by
  induction l with
  | nil => rfl
  | cons it rest ih =>
    unfold print_items
    rw [hl it (List.mem_cons_self _ _)]
    exact ih (fun x hx => hl x (List.mem_cons_of_mem _ hx))

theorem count_children_zero {M : Type} (self : Option Nat → Option Nat)
    (rels : List (Linkage M)) (hs : ∀ l ∈ rels, ∀ c, self l.child_rep = some c → c = 0) :
    ∀ c, count_children self rels 0 = some c → c = 0 := by
  induction rels with
  | nil =>
    intro c hc
    simp only [count_children, Option.some.injEq] at hc
    exact hc.symm
  | cons rel rest ih =>
    intro c hc
    unfold count_children at hc
    cases h1 : self rel.child_rep with
    | none => simp [h1] at hc
    | some c1 =>
      rw [h1] at hc
      have hz := hs rel (List.mem_cons_self _ _) c1 h1
      subst hz
      exact ih (fun l hl => hs l (List.mem_cons_of_mem _ hl)) c hc

theorem print_children_nil {D M : Type} (P : Prims D M)
    (self : Option Nat → M → Option (List Nat)) (X : M) (rels : List (Linkage M))
    (hs : ∀ l ∈ rels, ∀ Y o, self l.child_rep Y = some o → o = []) :
    ∀ out, print_children P self X rels = some out → out = [] := by
  intro out hout
  obtain ⟨outs, hall, hflat⟩ := (print_children_some_iff P self X rels out).mp hout
  rw [hflat]
  clear hflat hout
  induction hall with
  | nil => rfl
  | @cons l o ls os h1 _ ih =>
    rw [List.flatten_cons, hs l (List.mem_cons_self _ _) _ o h1,
      ih (fun x hx => hs x (List.mem_cons_of_mem _ hx))]
    rfl

theorem no_mesh_below_child {D M : Type} (g : Model D M) (r c : Nat)
    (hr : NoMeshBelow g r) (hc : IsChild g c r) : NoMeshBelow g c :=
  fun r2 hreach => hr r2 (Relation.ReflTransGen.head hc hreach)

theorem no_mesh_shape {D M : Type} (P : Prims D M) (h : Host) (g : Model D M) :
    ∀ (fuel : Nat) (rep : Option Nat), (∀ r, rep = some r → NoMeshBelow g r) →
      (∀ c, count_mesh_for_shape g fuel rep = some c → c = 0) ∧
      (∀ X out, print_mesh_for_shape P h g fuel rep X = some out → out = []) := by
  intro fuel
  induction fuel with
  | zero =>
    intro rep _
    exact ⟨fun c hc => by simp [count_mesh_for_shape] at hc,
      fun X out hout => by simp [print_mesh_for_shape] at hout⟩
  | succ fuel ih =>
    intro rep hrep
    cases rep with
    | none =>
      exact ⟨fun c hc => by simpa [count_mesh_for_shape] using hc.symm,
        fun X out hout => by simpa [print_mesh_for_shape] using hout.symm⟩
    | some r =>
      have hno := hrep r rfl
      have hitems : ∀ it ∈ g.items r, g.stixmesh_cache_find it = none :=
        hno r Relation.ReflTransGen.refl
      have hkids : ∀ m, g.rep_mgr r = some m → ∀ l ∈ m.child_rels ++ m.child_mapped_items,
          ∀ x, l.child_rep = some x → NoMeshBelow g x :=
        fun m hm l hl x hx => no_mesh_below_child g r x hno ⟨m, hm, l, hl, hx⟩
      constructor
      · intro c hc
        unfold count_mesh_for_shape at hc
        rw [count_items_no_mesh g _ hitems] at hc
        cases hm : g.rep_mgr r with
        | none =>
          simp only [hm, Option.some.injEq] at hc
          exact hc.symm
        | some m =>
          simp only [hm] at hc
          cases h1 : count_children (count_mesh_for_shape g fuel) m.child_rels 0 with
          | none => simp [h1] at hc
          | some c1 =>
            rw [h1] at hc
            have hz := count_children_zero _ m.child_rels
              (fun l hl x hx => (ih l.child_rep
                (hkids m hm l (List.mem_append_left _ hl))).1 x hx) c1 h1
            subst hz
            exact count_children_zero _ m.child_mapped_items
              (fun l hl x hx => (ih l.child_rep
                (hkids m hm l (List.mem_append_right _ hl))).1 x hx) c hc
      · intro X out hout
        unfold print_mesh_for_shape at hout
        rw [print_items_no_mesh P h g X _ hitems] at hout
        cases hm : g.rep_mgr r with
        | none =>
          simp only [hm, Option.some.injEq] at hout
          exact hout.symm
        | some m =>
          simp only [hm] at hout
          cases h1 : print_children P (print_mesh_for_shape P h g fuel) X m.child_rels with
          | none => simp [h1] at hout
          | some o1 =>
            cases h2 : print_children P (print_mesh_for_shape P h g fuel) X
                m.child_mapped_items with
            | none => simp [h1, h2] at hout
            | some o2 =>
              simp only [h1, h2, Option.some.injEq] at hout
              have hz1 := print_children_nil P _ X m.child_rels
                (fun l hl Y o ho => (ih l.child_rep
                  (hkids m hm l (List.mem_append_left _ hl))).2 Y o ho) o1 h1
              have hz2 := print_children_nil P _ X m.child_mapped_items
                (fun l hl Y o ho => (ih l.child_rep
                  (hkids m hm l (List.mem_append_right _ hl))).2 Y o ho) o2 h2
              rw [← hout, hz1, hz2]
              rfl

theorem no_mesh_shapes {D M : Type} (P : Prims D M) (h : Host) (g : Model D M) (fuel : Nat)
    (X : M) (l : List (Option Nat)) (hl : ∀ r, some r ∈ l → NoMeshBelow g r) :
    (∀ c, count_shapes g fuel l 0 = some c → c = 0) ∧
    (∀ out, print_shapes P h g fuel X l = some out → out = []) := by
  induction l with
  | nil =>
    exact ⟨fun c hc => by simpa [count_shapes] using hc.symm,
      fun out hout => by simpa [print_shapes] using hout.symm⟩
  | cons rep rest ih =>
    have hrep := no_mesh_shape P h g fuel rep
      (fun r hr => hl r (by rw [hr]; exact List.mem_cons_self _ _))
    have hrest := ih (fun r hr => hl r (List.mem_cons_of_mem _ hr))
    constructor
    · intro c hc
      unfold count_shapes at hc
      cases h1 : count_mesh_for_shape g fuel rep with
      | none => simp [h1] at hc
      | some c1 =>
        rw [h1] at hc
        have hz := hrep.1 c1 h1
        subst hz
        exact hrest.1 c hc
    · intro out hout
      unfold print_shapes at hout
      cases h1 : print_mesh_for_shape P h g fuel rep X with
      | none => simp [h1] at hout
      | some o1 =>
        cases h2 : print_shapes P h g fuel X rest with
        | none => simp [h1, h2] at hout
        | some o2 =>
          simp only [h1, h2, Option.some.injEq] at hout
          rw [← hout, hrep.2 X o1 h1, hrest.2 o2 h2]
          rfl

theorem no_mesh_roots {D M : Type} (P : Prims D M) (h : Host) (g : Model D M) (fuel : Nat)
    (l : List Nat)
    (hl : ∀ pd ∈ l, ∀ pm, g.prod_mgr pd = some pm → ∀ r, some r ∈ pm.shapes → NoMeshBelow g r) :
    (∀ c, count_roots g fuel l 0 = some c → c = 0) ∧
    (∀ out, print_roots P h g fuel l = some out → out = []) := by
  induction l with
  | nil =>
    exact ⟨fun c hc => by simpa [count_roots] using hc.symm,
      fun out hout => by simpa [print_roots] using hout.symm⟩
  | cons pd rest ih =>
    have hrest := ih (fun x hx => hl x (List.mem_cons_of_mem _ hx))
    have hpd := hl pd (List.mem_cons_self _ _)
    constructor
    · intro c hc
      unfold count_roots at hc
      cases h1 : count_mesh_for_product g fuel pd with
      | none => simp [h1] at hc
      | some c1 =>
        rw [h1] at hc
        have hz : c1 = 0 := by
          unfold count_mesh_for_product at h1
          cases hm : g.prod_mgr pd with
          | none =>
            simp only [hm, Option.some.injEq] at h1
            exact h1.symm
          | some pm =>
            simp only [hm] at h1
            exact (no_mesh_shapes P h g fuel P.identity pm.shapes (hpd pm hm)).1 c1 h1
        subst hz
        exact hrest.1 c hc
    · intro out hout
      unfold print_roots at hout
      cases h1 : print_mesh_for_product P h g fuel pd P.identity with
      | none => simp [h1] at hout
      | some o1 =>
        cases h2 : print_roots P h g fuel rest with
        | none => simp [h1, h2] at hout
        | some o2 =>
          simp only [h1, h2, Option.some.injEq] at hout
          have hz : o1 = [] := by
            unfold print_mesh_for_product at h1
            cases hm : g.prod_mgr pd with
            | none =>
              simp only [hm, Option.some.injEq] at h1
              exact h1.symm
            | some pm =>
              simp only [hm] at h1
              exact (no_mesh_shapes P h g fuel P.identity pm.shapes (hpd pm hm)).2 o1 h1
          rw [← hout, hz, hrest.2 o2 h2]
          rfl

theorem unmeshed_acyclic : Acyclic unmeshed_model := by
  have hsame : IsChild unmeshed_model = IsChild two_level_model := rfl
  obtain ⟨⟨N, hN⟩, hnc⟩ := two_level_acyclic
  refine ⟨⟨N, fun r hr => hN r hr⟩, ?_⟩
  unfold NoCycle
  rw [hsame]
  exact hnc

/-! ## Claims on the file -/

/-- C7: on a successful run the bytes written are the 80-byte header (the
characters of "binary stl", then zeros), then the four bytes, low byte first,
of the sum of `count_mesh_for_product` over the root products, then the
triangle records; the log shows the three writes in this order. -/
theorem header_then_count {D M : Type} (P : Prims D M) (h : Host) (g : Model D M)
    (can_open : String → Bool) (fuel : Nat) (opts : stp2webgl_opts) (log : List Event)
    (hrun : write_binary_stl P h g can_open fuel opts = some (0, log)) :
    header_buf = "binary stl".toList.map Char.toNat ++ List.replicate 70 0 ∧
    ∃ counts out stlfile pre,
      List.Forall₂ (fun pd n => count_mesh_for_product g fuel pd = some n)
        opts.root_prods counts ∧
      print_roots P h g fuel opts.root_prods = some out ∧
      bytes_written pre = [] ∧
      log = pre ++ [Event.facet_all_products, Event.write stlfile header_buf,
        Event.write stlfile (le_bytes32 counts.sum), Event.write stlfile out,
        Event.fclose stlfile] ∧
      bytes_written log = header_buf ++ le_bytes32 counts.sum ++ out ∧
      (bytes_written log).take 80 = header_buf ∧
      ((bytes_written log).drop 80).take 4 = le_bytes32 counts.sum := by
  refine ⟨by decide, ?_⟩
  obtain ⟨stlfile, pre, count, out, hc, hp, hpre, hlog⟩ :=
    write_binary_stl_success P h g can_open fuel opts log hrun
  obtain ⟨count2, out2, hc2, hp2, hbytes⟩ := success_bytes P h g can_open fuel opts log hrun
  rw [hc] at hc2
  rw [hp] at hp2
  cases hc2
  cases hp2
  obtain ⟨counts, hall, hsum⟩ := count_roots_sum g fuel opts.root_prods 0 count hc
  have hle : le_bytes32 count = le_bytes32 counts.sum := by
    rw [← le_bytes32_mod count, hsum, Nat.zero_add, le_bytes32_mod]
  rw [write_unsigned_eq, hle] at hlog
  rw [hle] at hbytes
  refine ⟨counts, out, stlfile, pre, hall, hp, hpre, hlog, hbytes, ?_, ?_⟩
  · rw [hbytes, List.append_assoc, List.take_left' header_buf_length]
  · rw [hbytes, List.append_assoc, List.drop_left' header_buf_length,
      List.take_left' (le_bytes32_length _)]

/-- Witness of C7 on the two-level assembly written to a file. -/
theorem header_then_count_witness :
    ∃ log, write_binary_stl translation_prims host_intel two_level_model (fun _ => true) 2
        opts_file = some (0, log) ∧
      (bytes_written log).take 80 = header_buf ∧
      ((bytes_written log).drop 80).take 4 = [1, 0, 0, 0] := by
  obtain ⟨_, counts, out, stlfile, pre, hall, _, _, _, _, h80, h84⟩ :=
    header_then_count translation_prims host_intel two_level_model (fun _ => true) 2 opts_file
      _ rfl
  refine ⟨_, rfl, h80, ?_⟩
  decide

/-- C8: when no root product has a shape with a cached mesh anywhere below it
(in particular when there is no root product, or no registered shape), a
successful run writes exactly 84 bytes, the header and the count bytes
`00 00 00 00`, on every model; on a finite graph without cycles the run
succeeds, given enough budget, whenever no split is asked and the destination
opens. -/
theorem empty_model_file {D M : Type} (P : Prims D M) (h : Host) (g : Model D M)
    (can_open : String → Bool) (opts : stp2webgl_opts)
    (hempty : ∀ pd ∈ opts.root_prods, ∀ pm, g.prod_mgr pd = some pm →
      ∀ r, some r ∈ pm.shapes → NoMeshBelow g r) :
    (∀ fuel log, write_binary_stl P h g can_open fuel opts = some (0, log) →
      bytes_written log = header_buf ++ [0, 0, 0, 0] ∧ (bytes_written log).length = 84) ∧
    (Acyclic g → opts.do_split = false →
      (∀ path, opts.dstfile = some path → can_open path = true) →
      ∃ F, ∀ fuel, F ≤ fuel →
        ∃ log, write_binary_stl P h g can_open fuel opts = some (0, log)) := by
  constructor
  · intro fuel log hrun
    obtain ⟨count, out, hc, hp, hbytes⟩ := success_bytes P h g can_open fuel opts log hrun
    obtain ⟨hcz, hoz⟩ := no_mesh_roots P h g fuel opts.root_prods hempty
    have h1 := hcz count hc
    have h2 := hoz out hp
    subst h1
    subst h2
    rw [hbytes]
    exact ⟨by decide, by decide⟩
  · intro hac hsplit hopen
    exact write_binary_stl_total P h g hac can_open opts hsplit hopen

/-- Witness of C8 on the assembly without cached meshes. -/
theorem empty_model_file_witness :
    (∀ pd ∈ opts_stdout.root_prods, ∀ pm, unmeshed_model.prod_mgr pd = some pm →
      ∀ r, some r ∈ pm.shapes → NoMeshBelow unmeshed_model r) ∧
    ∃ log, write_binary_stl translation_prims host_intel unmeshed_model (fun _ => true) 2
        opts_stdout = some (0, log) ∧
      bytes_written log = header_buf ++ [0, 0, 0, 0] ∧ (bytes_written log).length = 84 :=
  have hempty : ∀ pd ∈ opts_stdout.root_prods, ∀ pm, unmeshed_model.prod_mgr pd = some pm →
      ∀ r, some r ∈ pm.shapes → NoMeshBelow unmeshed_model r :=
    fun _ _ _ _ _ _ _ _ _ _ => rfl
  ⟨hempty, _, rfl,
    (empty_model_file translation_prims host_intel unmeshed_model (fun _ => true) opts_stdout
      hempty).1 2 _ rfl⟩

/-- C9, as the code has it: with `do_split` set, `write_binary_stl` returns 2
after printing its message on standard output and does nothing else, whatever
the destination, the root products, the model and the budget are: nothing is
handed to `fwrite` or `putc`, no file is opened and the meshing pass is not
called; a destination given by path receives no byte, and standard output,
which is the destination when no path is given, receives the message. -/
theorem split_rejected {D M : Type} (P : Prims D M) (h : Host) (g : Model D M)
    (can_open : String → Bool) (fuel : Nat) (opts : stp2webgl_opts)
    (hsplit : opts.do_split = true) :
    ∃ log, write_binary_stl P h g can_open fuel opts = some (2, log) ∧
      log = [Event.printf msg_split] ∧
      (∀ file bytes, Event.write file bytes ∉ log) ∧
      (∀ path opened, Event.rose_fopen path opened ∉ log) ∧
      Event.facet_all_products ∉ log ∧
      bytes_written log = [] ∧
      (∀ path, bytes_to (Stream.file path) log = []) ∧
      bytes_to Stream.stdout log = printf_bytes msg_split ∧
      (∀ path, opts.dstfile = some path → bytes_to (destination opts) log = []) ∧
      (opts.dstfile = none → bytes_to (destination opts) log = printf_bytes msg_split) := by
  refine ⟨[Event.printf msg_split], ?_, rfl, ?_, ?_, ?_, rfl, ?_, ?_, ?_, ?_⟩
  · simp [write_binary_stl, hsplit]
  · intro file bytes hmem
    simp at hmem
  · intro path opened hmem
    simp at hmem
  · intro hmem
    simp at hmem
  · intro path
    simp [bytes_to]
  · simp [bytes_to]
  · intro path hdst
    simp [destination, hdst, bytes_to]
  · intro hdst
    simp [destination, hdst, bytes_to]

/-- Witness of C9 with a destination path that cannot be opened and no
budget: the file receives nothing, standard output the message. -/
theorem split_rejected_witness :
    opts_split.do_split = true ∧
    write_binary_stl translation_prims host_intel two_level_model (fun _ => false) 0
      opts_split = some (2, [Event.printf msg_split]) ∧
    bytes_to (destination opts_split) [Event.printf msg_split] = [] ∧
    bytes_to Stream.stdout [Event.printf msg_split] = printf_bytes msg_split := by
  obtain ⟨log, hrun, hlog, _, _, _, _, _, hout, hfile, _⟩ :=
    split_rejected translation_prims host_intel two_level_model (fun _ => false) 0 opts_split rfl
  rw [hlog] at hrun hout hfile
  exact ⟨rfl, hrun, hfile "out.stl" rfl, hout⟩

/-- C9 fails as stated: with `do_split` set and no destination path the
destination is standard output, and the rejected call puts the 50 bytes of its
message on it. -/
theorem split_rejected_counterexample :
    opts_split_stdout.do_split = true ∧
    opts_split_stdout.dstfile = none ∧
    destination opts_split_stdout = Stream.stdout ∧
    write_binary_stl translation_prims host_intel two_level_model (fun _ => true) 0
      opts_split_stdout = some (2, [Event.printf msg_split]) ∧
    (bytes_to (destination opts_split_stdout) [Event.printf msg_split]).length = 50 ∧
    bytes_to (destination opts_split_stdout) [Event.printf msg_split] ≠ [] :=
  ⟨rfl, rfl, rfl, rfl, by decide, by decide⟩

/-- C10: on a finite graph without cycles `write_binary_stl` returns, given
enough budget; whenever it returns, the status is 2 exactly when split output
was asked or a destination path was given and could not be opened, and 0
exactly otherwise; on open failure the log holds the failed open and the
message only, for every model and every budget, so nothing is written,
meshed, counted or emitted. -/
theorem status_codes {D M : Type} (P : Prims D M) (h : Host) (g : Model D M)
    (can_open : String → Bool) (opts : stp2webgl_opts) :
    (Acyclic g → ∃ F, ∀ fuel, F ≤ fuel →
      ∃ status log, write_binary_stl P h g can_open fuel opts = some (status, log)) ∧
    (∀ fuel status log, write_binary_stl P h g can_open fuel opts = some (status, log) →
      (status = 2 ↔ (opts.do_split = true ∨
        ∃ path, opts.dstfile = some path ∧ can_open path = false)) ∧
      (status = 0 ↔ ¬ (opts.do_split = true ∨
        ∃ path, opts.dstfile = some path ∧ can_open path = false))) ∧
    (∀ path, opts.do_split = false → opts.dstfile = some path → can_open path = false →
      ∀ (g2 : Model D M) (fuel : Nat),
        write_binary_stl P h g2 can_open fuel opts =
          some (2, [Event.rose_fopen path false, Event.printf msg_open])) := by
  refine ⟨?_, ?_, ?_⟩
  · intro hac
    cases hsplit : opts.do_split with
    | true =>
      exact ⟨0, fun fuel _ => ⟨2, [Event.printf msg_split], by simp [write_binary_stl, hsplit]⟩⟩
    | false =>
      by_cases hopen : ∀ path, opts.dstfile = some path → can_open path = true
      · obtain ⟨F, hF⟩ := write_binary_stl_total P h g hac can_open opts hsplit hopen
        exact ⟨F, fun fuel hfuel => ⟨0, hF fuel hfuel⟩⟩
      · push_neg at hopen
        obtain ⟨path, hdst, hcan⟩ := hopen
        refine ⟨0, fun fuel _ =>
          ⟨2, [Event.rose_fopen path false, Event.printf msg_open], ?_⟩⟩
        simp [write_binary_stl, hsplit, hdst, hcan]
  · intro fuel status log hrun
    unfold write_binary_stl at hrun
    cases hsplit : opts.do_split with
    | true =>
      simp only [hsplit, if_true, Option.some.injEq, Prod.mk.injEq] at hrun
      rw [← hrun.1]
      simp
    | false =>
      simp only [hsplit, Bool.false_eq_true, if_false] at hrun
      cases hdst : opts.dstfile with
      | none =>
        simp only [hdst] at hrun
        obtain ⟨hst, _⟩ := write_to_stream_some P h g fuel opts _ _ _ hrun
        rw [hst]
        simp
      | some path =>
        simp only [hdst] at hrun
        cases hcan : can_open path with
        | false =>
          simp only [hcan, Bool.false_eq_true, if_false, Option.some.injEq,
            Prod.mk.injEq] at hrun
          rw [← hrun.1]
          simp [hcan]
        | true =>
          simp only [hcan, if_true] at hrun
          cases hbody : write_to_stream P h g fuel opts (Stream.file path) with
          | none => simp [hbody] at hrun
          | some res =>
            obtain ⟨st, body⟩ := res
            simp only [hbody, Option.some.injEq, Prod.mk.injEq] at hrun
            obtain ⟨hst, _⟩ := write_to_stream_some P h g fuel opts _ _ _ hbody
            rw [← hrun.1, hst]
            simp [hcan]
  · intro path hsplit hdst hcan g2 fuel
    simp [write_binary_stl, hsplit, hdst, hcan]

/-- Witness of C10 on the two-level assembly with a destination that cannot
be opened. -/
theorem status_codes_witness :
    Acyclic two_level_model ∧
    (∃ F, ∀ fuel, F ≤ fuel → ∃ status log,
      write_binary_stl translation_prims host_intel two_level_model (fun _ => false) fuel
        opts_file = some (status, log)) ∧
    write_binary_stl translation_prims host_intel two_level_model (fun _ => false) 0 opts_file =
      some (2, [Event.rose_fopen "out.stl" false, Event.printf msg_open]) :=
  ⟨two_level_acyclic,
    (status_codes translation_prims host_intel two_level_model (fun _ => false) opts_file).1
      two_level_acyclic,
    (status_codes translation_prims host_intel two_level_model (fun _ => false) opts_file).2.2
      "out.stl" rfl rfl rfl two_level_model 0⟩

/-! ## Counts against the reference totals -/

theorem items_facet_sum_cons {D M : Type} (g : Model D M) (it : Nat) (rest : List Nat) :
    items_facet_sum g (it :: rest) = item_facet_count g it + items_facet_sum g rest := by
  simp [items_facet_sum]

theorem count_items_eq {D M : Type} (g : Model D M) (l : List Nat) :
    ∀ count, count < UINT_MOD →
      count_items g l count = (count + items_facet_sum g l) % UINT_MOD := by
  induction l with
  | nil =>
    intro count hc
    simp only [count_items, items_facet_sum, List.map_nil, List.sum_nil, Nat.add_zero]
    exact (Nat.mod_eq_of_lt hc).symm
  | cons it rest ih =>
    intro count hc
    rw [items_facet_sum_cons]
    unfold count_items item_facet_count
    cases hm : g.stixmesh_cache_find it with
    | none =>
      simp only [Nat.zero_add]
      exact ih count hc
    | some mesh =>
      simp only []
      rw [ih _ (Nat.mod_lt _ (by decide))]
      simp only [UINT_MOD]
      omega

theorem count_children_refines {M : Type} (cself tself : Option Nat → Option Nat)
    (hs : ∀ x, cself x = (tself x).map (fun t => t % UINT_MOD)) (rels : List (Linkage M)) :
    ∀ count, count < UINT_MOD →
      count_children cself rels count =
        (sum_over (fun (l : Linkage M) => tself l.child_rep) rels).map
          (fun s => (count + s) % UINT_MOD) := by
  induction rels with
  | nil =>
    intro count hc
    simp only [count_children, sum_over, Option.map_some', Nat.add_zero]
    rw [Nat.mod_eq_of_lt hc]
  | cons rel rest ih =>
    intro count hc
    unfold count_children sum_over
    rw [hs rel.child_rep]
    cases h1 : tself rel.child_rep with
    | none => rfl
    | some t =>
      simp only [Option.map_some']
      rw [ih _ (Nat.mod_lt _ (by decide))]
      cases h2 : sum_over (fun (l : Linkage M) => tself l.child_rep) rest with
      | none => rfl
      | some s =>
        simp only [Option.map_some', Option.some.injEq, UINT_MOD]
        omega

theorem count_refines_total {D M : Type} (g : Model D M) :
    ∀ (fuel : Nat) (rep : Option Nat),
      count_mesh_for_shape g fuel rep =
        (facet_total_shape g fuel rep).map (fun t => t % UINT_MOD) := by
  intro fuel
  induction fuel with
  | zero => intro rep; rfl
  | succ fuel ih =>
    intro rep
    cases rep with
    | none => rfl
    | some r =>
      have h0 : count_items g (g.items r) 0 = items_facet_sum g (g.items r) % UINT_MOD := by
        rw [count_items_eq g _ 0 (by decide), Nat.zero_add]
      unfold count_mesh_for_shape facet_total_shape
      cases hm : g.rep_mgr r with
      | none => simp only [h0, Option.map_some']
      | some m =>
        simp only []
        rw [count_children_refines _ _ ih m.child_rels _
          (by rw [h0]; exact Nat.mod_lt _ (by decide))]
        cases h1 : sum_over (fun (l : Linkage M) => facet_total_shape g fuel l.child_rep)
            m.child_rels with
        | none => rfl
        | some a =>
          simp only [Option.map_some']
          rw [count_children_refines _ _ ih m.child_mapped_items _
            (Nat.mod_lt _ (by decide))]
          cases h2 : sum_over (fun (l : Linkage M) => facet_total_shape g fuel l.child_rep)
              m.child_mapped_items with
          | none => rfl
          | some b =>
            simp only [Option.map_some', Option.some.injEq, h0, UINT_MOD]
            omega

theorem count_shapes_refines {D M : Type} (g : Model D M) (fuel : Nat)
    (l : List (Option Nat)) :
    ∀ count, count < UINT_MOD →
      count_shapes g fuel l count =
        (sum_over (facet_total_shape g fuel) l).map (fun s => (count + s) % UINT_MOD) := by
  induction l with
  | nil =>
    intro count hc
    simp only [count_shapes, sum_over, Option.map_some', Nat.add_zero]
    rw [Nat.mod_eq_of_lt hc]
  | cons rep rest ih =>
    intro count hc
    unfold count_shapes sum_over
    rw [count_refines_total g fuel rep]
    cases h1 : facet_total_shape g fuel rep with
    | none => rfl
    | some t =>
      simp only [Option.map_some']
      rw [ih _ (Nat.mod_lt _ (by decide))]
      cases h2 : sum_over (facet_total_shape g fuel) rest with
      | none => rfl
      | some s =>
        simp only [Option.map_some', Option.some.injEq, UINT_MOD]
        omega

theorem count_product_refines {D M : Type} (g : Model D M) (fuel pd : Nat) :
    count_mesh_for_product g fuel pd =
      (facet_total_product g fuel pd).map (fun t => t % UINT_MOD) := by
  unfold count_mesh_for_product facet_total_product
  cases g.prod_mgr pd with
  | none => rfl
  | some pm =>
    simp only []
    rw [count_shapes_refines g fuel pm.shapes 0 (by decide)]
    cases sum_over (facet_total_shape g fuel) pm.shapes with
    | none => rfl
    | some s => simp

theorem count_roots_refines_from {D M : Type} (g : Model D M) (fuel : Nat) (l : List Nat) :
    ∀ count, count < UINT_MOD →
      count_roots g fuel l count =
        (sum_over (facet_total_product g fuel) l).map (fun s => (count + s) % UINT_MOD) := by
  induction l with
  | nil =>
    intro count hc
    simp only [count_roots, sum_over, Option.map_some', Nat.add_zero]
    rw [Nat.mod_eq_of_lt hc]
  | cons pd rest ih =>
    intro count hc
    unfold count_roots sum_over
    rw [count_product_refines g fuel pd]
    cases h1 : facet_total_product g fuel pd with
    | none => rfl
    | some t =>
      simp only [Option.map_some']
      rw [ih _ (Nat.mod_lt _ (by decide))]
      cases h2 : sum_over (facet_total_product g fuel) rest with
      | none => rfl
      | some s =>
        simp only [Option.map_some', Option.some.injEq, UINT_MOD]
        omega

theorem count_roots_refines {D M : Type} (g : Model D M) (fuel : Nat) (l : List Nat) :
    count_roots g fuel l 0 = (facet_total_roots g fuel l).map (fun t => t % UINT_MOD) := by
  unfold facet_total_roots
  rw [count_roots_refines_from g fuel l 0 (by decide)]
  cases sum_over (facet_total_product g fuel) l with
  | none => rfl
  | some s => simp

theorem sum_over_some_iff {A : Type} (f : A → Option Nat) (l : List A) :
    ∀ s, sum_over f l = some s ↔
      ∃ ns, List.Forall₂ (fun a n => f a = some n) l ns ∧ s = ns.sum := by
  induction l with
  | nil =>
    intro s
    constructor
    · intro hs
      simp only [sum_over, Option.some.injEq] at hs
      exact ⟨[], List.Forall₂.nil, by simp [← hs]⟩
    · rintro ⟨ns, hall, hs⟩
      cases hall
      simp [sum_over, hs]
  | cons a rest ih =>
    intro s
    constructor
    · intro hs
      unfold sum_over at hs
      cases h1 : f a with
      | none => simp [h1] at hs
      | some x =>
        cases h2 : sum_over f rest with
        | none => simp [h1, h2] at hs
        | some t =>
          simp only [h1, h2, Option.some.injEq] at hs
          obtain ⟨ns, hall, ht⟩ := (ih t).mp h2
          exact ⟨x :: ns, List.Forall₂.cons h1 hall, by rw [List.sum_cons, ← ht, hs]⟩
    · rintro ⟨ns, hall, hs⟩
      cases hall with
      | @cons _ x _ ns2 h1 hrest =>
        have h2 := (ih ns2.sum).mpr ⟨ns2, hrest, rfl⟩
        simp only [sum_over, h1, h2, hs, List.sum_cons]

theorem count_children_some_iff {M : Type} (self : Option Nat → Option Nat)
    (rels : List (Linkage M)) (count : Nat) (hc : count < UINT_MOD) (c : Nat) :
    count_children self rels count = some c ↔
      ∃ ns, List.Forall₂ (fun (l : Linkage M) n => self l.child_rep = some n) rels ns ∧
        c = (count + ns.sum) % UINT_MOD := by
  have key : ∀ (l : List (Linkage M)) (acc : Nat), acc < UINT_MOD →
      count_children self l acc =
        (sum_over (fun (r : Linkage M) => self r.child_rep) l).map
          (fun s => (acc + s) % UINT_MOD) := by
    intro l
    induction l with
    | nil =>
      intro acc hacc
      simp only [count_children, sum_over, Option.map_some', Nat.add_zero]
      rw [Nat.mod_eq_of_lt hacc]
    | cons rel rest ih =>
      intro acc hacc
      unfold count_children sum_over
      cases h1 : self rel.child_rep with
      | none => rfl
      | some t =>
        simp only []
        rw [ih _ (Nat.mod_lt _ (by decide))]
        cases h2 : sum_over (fun (r : Linkage M) => self r.child_rep) rest with
        | none => rfl
        | some s =>
          simp only [Option.map_some', Option.some.injEq, UINT_MOD]
          omega
  rw [key rels count hc]
  constructor
  · intro hsome
    cases h1 : sum_over (fun (r : Linkage M) => self r.child_rep) rels with
    | none => simp [h1] at hsome
    | some s =>
      simp only [h1, Option.map_some', Option.some.injEq] at hsome
      obtain ⟨ns, hall, hsum⟩ := (sum_over_some_iff _ rels s).mp h1
      exact ⟨ns, hall, by rw [← hsome, hsum]⟩
  · rintro ⟨ns, hall, hcs⟩
    have h1 := (sum_over_some_iff (fun (r : Linkage M) => self r.child_rep) rels ns.sum).mpr
      ⟨ns, hall, rfl⟩
    simp only [h1, Option.map_some', hcs]


theorem sum_over_mono {A : Type} (f f2 : A → Option Nat)
    (hf : ∀ a n, f a = some n → f2 a = some n) (l : List A) :
    ∀ s, sum_over f l = some s → sum_over f2 l = some s := by
  intro s hs
  obtain ⟨ns, hall, hsum⟩ := (sum_over_some_iff f l s).mp hs
  refine (sum_over_some_iff f2 l s).mpr ⟨ns, ?_, hsum⟩
  exact List.Forall₂.imp (fun a n han => hf a n han) hall

theorem facet_total_shape_succ {D M : Type} (g : Model D M) :
    ∀ (fuel : Nat) (rep : Option Nat) (t : Nat),
      facet_total_shape g fuel rep = some t → facet_total_shape g (fuel + 1) rep = some t := by
  intro fuel
  induction fuel with
  | zero => intro rep t ht; simp [facet_total_shape] at ht
  | succ fuel ih =>
    intro rep t ht
    cases rep with
    | none => simpa [facet_total_shape] using ht
    | some r =>
      unfold facet_total_shape at ht ⊢
      cases hm : g.rep_mgr r with
      | none => simpa [hm] using ht
      | some m =>
        simp only [hm] at ht ⊢
        cases h1 : sum_over (fun (l : Linkage M) => facet_total_shape g fuel l.child_rep)
            m.child_rels with
        | none => simp [h1] at ht
        | some a =>
          cases h2 : sum_over (fun (l : Linkage M) => facet_total_shape g fuel l.child_rep)
              m.child_mapped_items with
          | none => simp [h1, h2] at ht
          | some b =>
            simp only [h1, h2, Option.some.injEq] at ht
            rw [sum_over_mono _ (fun (l : Linkage M) => facet_total_shape g (fuel + 1) l.child_rep)
                (fun l n hl => ih l.child_rep n hl) _ a h1,
              sum_over_mono _ (fun (l : Linkage M) => facet_total_shape g (fuel + 1) l.child_rep)
                (fun l n hl => ih l.child_rep n hl) _ b h2]
            simp only [Option.some.injEq]
            exact ht

theorem facet_total_shape_mono {D M : Type} (g : Model D M) (fuel fuel2 : Nat)
    (hle : fuel ≤ fuel2) (rep : Option Nat) (t : Nat)
    (ht : facet_total_shape g fuel rep = some t) :
    facet_total_shape g fuel2 rep = some t := by
  induction hle with
  | refl => exact ht
  | step _ ih => exact facet_total_shape_succ g _ rep t ih

theorem count_mesh_for_shape_some_iff {D M : Type} (g : Model D M) (fuel r : Nat)
    (m : StixMgrAsmShapeRep M) (c : Nat) (hm : g.rep_mgr r = some m) :
    count_mesh_for_shape g (fuel + 1) (some r) = some c ↔
      ∃ rels mapped,
        List.Forall₂ (fun (l : Linkage M) n => count_mesh_for_shape g fuel l.child_rep = some n)
          m.child_rels rels ∧
        List.Forall₂ (fun (l : Linkage M) n => count_mesh_for_shape g fuel l.child_rep = some n)
          m.child_mapped_items mapped ∧
        c = (items_facet_sum g (g.items r) + rels.sum + mapped.sum) % UINT_MOD := by
  have h0 : count_items g (g.items r) 0 = items_facet_sum g (g.items r) % UINT_MOD := by
    rw [count_items_eq g _ 0 (by decide), Nat.zero_add]
  have h0lt : count_items g (g.items r) 0 < UINT_MOD := by
    rw [h0]
    exact Nat.mod_lt _ (by decide)
  have hunf : count_mesh_for_shape g (fuel + 1) (some r) =
      (match count_children (count_mesh_for_shape g fuel) m.child_rels
          (count_items g (g.items r) 0) with
        | none => none
        | some count =>
          count_children (count_mesh_for_shape g fuel) m.child_mapped_items count) := by
    simp only [count_mesh_for_shape, hm]
  rw [hunf]
  constructor
  · intro hc
    cases h1 : count_children (count_mesh_for_shape g fuel) m.child_rels
        (count_items g (g.items r) 0) with
    | none => simp [h1] at hc
    | some c1 =>
      rw [h1] at hc
      obtain ⟨rels, hrels, hc1⟩ := (count_children_some_iff _ _ _ h0lt c1).mp h1
      have hc1lt : c1 < UINT_MOD := by
        rw [hc1]
        exact Nat.mod_lt _ (by decide)
      obtain ⟨mapped, hmapped, hc2⟩ := (count_children_some_iff _ _ _ hc1lt c).mp hc
      refine ⟨rels, mapped, hrels, hmapped, ?_⟩
      rw [hc2, hc1, h0]
      simp only [UINT_MOD]
      omega
  · rintro ⟨rels, mapped, hrels, hmapped, hc⟩
    have h1 := (count_children_some_iff (count_mesh_for_shape g fuel) m.child_rels _ h0lt
      _).mpr ⟨rels, hrels, rfl⟩
    rw [h1]
    refine (count_children_some_iff (count_mesh_for_shape g fuel) m.child_mapped_items _
      (Nat.mod_lt _ (by decide)) c).mpr ⟨mapped, hmapped, ?_⟩
    rw [hc, h0]
    simp only [UINT_MOD]
    omega

/-! ## Claims on the reference totals -/

/-- C11, as the code has it: on a finite graph without cycles
`count_mesh_for_shape` returns, given enough budget, the value of its
reference definition reduced modulo `2 ^ 32`, hence that value itself when it
is below `2 ^ 32`: 0 for a null representation; without a linkage manager the
sum over the items of the facet counts of their cached meshes (0 without one);
with a linkage manager that sum plus the counts of all direct-relationship
children and of all mapped-item children, every sum taken modulo `2 ^ 32`. -/
theorem count_refines_reference {D M : Type} (g : Model D M) (hac : Acyclic g)
    (rep : Option Nat) :
    (∀ fuel, count_mesh_for_shape g fuel rep =
      (facet_total_shape g fuel rep).map (fun t => t % UINT_MOD)) ∧
    (∃ F, ∀ fuel, F ≤ fuel → ∃ t, facet_total_shape g fuel rep = some t ∧
      count_mesh_for_shape g fuel rep = some (t % UINT_MOD) ∧
      (t < UINT_MOD → count_mesh_for_shape g fuel rep = some t)) ∧
    (∀ fuel, count_mesh_for_shape g (fuel + 1) none = some 0) ∧
    (∀ fuel r, g.rep_mgr r = none →
      count_mesh_for_shape g (fuel + 1) (some r) =
        some (items_facet_sum g (g.items r) % UINT_MOD)) ∧
    (∀ fuel r m c, g.rep_mgr r = some m →
      (count_mesh_for_shape g (fuel + 1) (some r) = some c ↔
        ∃ rels mapped,
          List.Forall₂ (fun (l : Linkage M) n =>
            count_mesh_for_shape g fuel l.child_rep = some n) m.child_rels rels ∧
          List.Forall₂ (fun (l : Linkage M) n =>
            count_mesh_for_shape g fuel l.child_rep = some n) m.child_mapped_items mapped ∧
          c = (items_facet_sum g (g.items r) + rels.sum + mapped.sum) % UINT_MOD)) := by
  refine ⟨fun fuel => count_refines_total g fuel rep, ?_, fun _ => rfl, ?_, ?_⟩
  · obtain ⟨F, hF⟩ := count_mesh_for_shape_total g hac rep
    refine ⟨F, fun fuel hfuel => ?_⟩
    obtain ⟨c, hc⟩ := hF fuel hfuel
    have href := count_refines_total g fuel rep
    cases ht : facet_total_shape g fuel rep with
    | none => rw [hc, ht] at href; cases href
    | some t =>
      rw [ht] at href
      refine ⟨t, rfl, href, fun hlt => ?_⟩
      rw [href]
      simp only [Option.map_some', Nat.mod_eq_of_lt hlt]
  · intro fuel r hm
    unfold count_mesh_for_shape
    simp only [hm]
    rw [count_items_eq g _ 0 (by decide), Nat.zero_add]
  · intro fuel r m c hm
    exact count_mesh_for_shape_some_iff g fuel r m c hm

/-- Witness of C11 on the root of the two-level assembly. -/
theorem count_refines_reference_witness :
    Acyclic two_level_model ∧
    ∃ F, ∀ fuel, F ≤ fuel → ∃ t, facet_total_shape two_level_model fuel (some 0) = some t ∧
      count_mesh_for_shape two_level_model fuel (some 0) = some (t % UINT_MOD) ∧
      (t < UINT_MOD → count_mesh_for_shape two_level_model fuel (some 0) = some t) :=
  ⟨two_level_acyclic, (count_refines_reference two_level_model two_level_acyclic (some 0)).2.1⟩

/-- C11 fails as stated: a representation without linkage manager whose two
items are meshed with `2 ^ 31` facets each has the item sum `2 ^ 32`, and
`count_mesh_for_shape` returns 0. -/
theorem count_refines_reference_counterexample :
    Acyclic full_range_model ∧
    full_range_model.rep_mgr 0 = none ∧
    items_facet_sum full_range_model (full_range_model.items 0) = 4294967296 ∧
    facet_total_shape full_range_model 1 (some 0) = some 4294967296 ∧
    count_mesh_for_shape full_range_model 1 (some 0) = some 0 ∧
    count_mesh_for_shape full_range_model 1 (some 0) ≠
      some (items_facet_sum full_range_model (full_range_model.items 0)) :=
  ⟨acyclic_of_no_children _ (fun _ => rfl), rfl, by decide, by decide, by decide, by decide⟩

/-- C19: every count is the exact total of its reference definition reduced
modulo `2 ^ 32` (per representation, per product, over the root products), so
on a successful run the count field of the header decodes to the exact total
of facets over all expanded instances modulo `2 ^ 32`, and to that total
itself when it is below `2 ^ 32`; on a finite graph without cycles the run
succeeds, given enough budget, whenever no split is asked and the destination
opens. -/
theorem header_count_wraps {D M : Type} (P : Prims D M) (h : Host) (g : Model D M)
    (can_open : String → Bool) (opts : stp2webgl_opts) :
    (∀ fuel rep, count_mesh_for_shape g fuel rep =
      (facet_total_shape g fuel rep).map (fun t => t % UINT_MOD)) ∧
    (∀ fuel pd, count_mesh_for_product g fuel pd =
      (facet_total_product g fuel pd).map (fun t => t % UINT_MOD)) ∧
    (∀ fuel roots, count_roots g fuel roots 0 =
      (facet_total_roots g fuel roots).map (fun t => t % UINT_MOD)) ∧
    (∀ fuel log, write_binary_stl P h g can_open fuel opts = some (0, log) →
      ∃ total, facet_total_roots g fuel opts.root_prods = some total ∧
        ((bytes_written log).drop 80).take 4 = le_bytes32 (total % UINT_MOD) ∧
        le_decode (((bytes_written log).drop 80).take 4) = total % UINT_MOD ∧
        (total < UINT_MOD → le_decode (((bytes_written log).drop 80).take 4) = total)) ∧
    (Acyclic g → opts.do_split = false →
      (∀ path, opts.dstfile = some path → can_open path = true) →
      ∃ F, ∀ fuel, F ≤ fuel →
        ∃ log, write_binary_stl P h g can_open fuel opts = some (0, log)) := by
  refine ⟨count_refines_total g, count_product_refines g, count_roots_refines g, ?_, ?_⟩
  · intro fuel log hrun
    obtain ⟨count, out, hc, _, hbytes⟩ := success_bytes P h g can_open fuel opts log hrun
    have href := count_roots_refines g fuel opts.root_prods
    rw [hc] at href
    cases ht : facet_total_roots g fuel opts.root_prods with
    | none => rw [ht] at href; cases href
    | some total =>
      rw [ht] at href
      simp only [Option.map_some', Option.some.injEq] at href
      have hfield : ((bytes_written log).drop 80).take 4 = le_bytes32 (total % UINT_MOD) := by
        rw [hbytes, List.append_assoc, List.drop_left' header_buf_length,
          List.take_left' (le_bytes32_length count), href]
      refine ⟨total, rfl, hfield, ?_, ?_⟩
      · rw [hfield, le_decode_le_bytes32, Nat.mod_mod]
      · intro hlt
        rw [hfield, le_decode_le_bytes32, Nat.mod_mod, Nat.mod_eq_of_lt hlt]
  · intro hac hsplit hopen
    exact write_binary_stl_total P h g hac can_open opts hsplit hopen


/-! ## Products and root products, list by list -/

theorem print_shapes_some_iff {D M : Type} (P : Prims D M) (h : Host) (g : Model D M)
    (fuel : Nat) (X : M) (l : List (Option Nat)) :
    ∀ out, print_shapes P h g fuel X l = some out ↔
      ∃ outs, List.Forall₂ (fun rep o => print_mesh_for_shape P h g fuel rep X = some o) l outs ∧
        out = outs.flatten := by
  induction l with
  | nil =>
    intro out
    constructor
    · intro hout
      simp only [print_shapes, Option.some.injEq] at hout
      exact ⟨[], List.Forall₂.nil, hout.symm⟩
    · rintro ⟨outs, hall, hout⟩
      cases hall
      rw [hout]
      rfl
  | cons rep rest ih =>
    intro out
    constructor
    · intro hout
      unfold print_shapes at hout
      cases h1 : print_mesh_for_shape P h g fuel rep X with
      | none => simp [h1] at hout
      | some o =>
        cases h2 : print_shapes P h g fuel X rest with
        | none => simp [h1, h2] at hout
        | some more =>
          simp only [h1, h2, Option.some.injEq] at hout
          obtain ⟨outs, hall, hmore⟩ := (ih more).mp h2
          refine ⟨o :: outs, List.Forall₂.cons h1 hall, ?_⟩
          rw [← hout, hmore]
          rfl
    · rintro ⟨outs, hall, hout⟩
      cases hall with
      | @cons _ o _ outs2 h1 hrest =>
        have h2 := (ih outs2.flatten).mpr ⟨outs2, hrest, rfl⟩
        simp only [print_shapes, h1, h2, hout, List.flatten_cons]

theorem count_shapes_some_iff {D M : Type} (g : Model D M) (fuel : Nat)
    (l : List (Option Nat)) (c : Nat) :
    count_shapes g fuel l 0 = some c ↔
      ∃ ns, List.Forall₂ (fun rep n => count_mesh_for_shape g fuel rep = some n) l ns ∧
        c = ns.sum % UINT_MOD := by
  have key : ∀ (l : List (Option Nat)) (acc : Nat), acc < UINT_MOD →
      count_shapes g fuel l acc =
        (sum_over (count_mesh_for_shape g fuel) l).map (fun s => (acc + s) % UINT_MOD) := by
    intro l
    induction l with
    | nil =>
      intro acc hacc
      simp only [count_shapes, sum_over, Option.map_some', Nat.add_zero]
      rw [Nat.mod_eq_of_lt hacc]
    | cons rep rest ih =>
      intro acc hacc
      unfold count_shapes sum_over
      cases h1 : count_mesh_for_shape g fuel rep with
      | none => rfl
      | some t =>
        simp only []
        rw [ih _ (Nat.mod_lt _ (by decide))]
        cases h2 : sum_over (count_mesh_for_shape g fuel) rest with
        | none => rfl
        | some s =>
          simp only [Option.map_some', Option.some.injEq, UINT_MOD]
          omega
  rw [key l 0 (by decide)]
  constructor
  · intro hsome
    cases h1 : sum_over (count_mesh_for_shape g fuel) l with
    | none => simp [h1] at hsome
    | some s =>
      simp only [h1, Option.map_some', Option.some.injEq, Nat.zero_add] at hsome
      obtain ⟨ns, hall, hsum⟩ := (sum_over_some_iff _ l s).mp h1
      exact ⟨ns, hall, by rw [← hsome, hsum]⟩
  · rintro ⟨ns, hall, hcs⟩
    have h1 := (sum_over_some_iff (count_mesh_for_shape g fuel) l ns.sum).mpr ⟨ns, hall, rfl⟩
    simp only [h1, Option.map_some', hcs, Nat.zero_add]

theorem print_roots_append {D M : Type} (P : Prims D M) (h : Host) (g : Model D M)
    (fuel : Nat) (before rest : List Nat) :
    ∀ out, print_roots P h g fuel (before ++ rest) = some out ↔
      ∃ a b, print_roots P h g fuel before = some a ∧ print_roots P h g fuel rest = some b ∧
        out = a ++ b := by
  induction before with
  | nil =>
    intro out
    constructor
    · intro hout
      exact ⟨[], out, rfl, hout, rfl⟩
    · rintro ⟨a, b, ha, hb, hout⟩
      simp only [print_roots, Option.some.injEq] at ha
      rw [hout, ← ha]
      exact hb
  | cons pd more ih =>
    intro out
    constructor
    · intro hout
      rw [List.cons_append] at hout
      unfold print_roots at hout
      cases h1 : print_mesh_for_product P h g fuel pd P.identity with
      | none => simp [h1] at hout
      | some o =>
        cases h2 : print_roots P h g fuel (more ++ rest) with
        | none => simp [h1, h2] at hout
        | some tail =>
          simp only [h1, h2, Option.some.injEq] at hout
          obtain ⟨a, b, ha, hb, htail⟩ := (ih tail).mp h2
          refine ⟨o ++ a, b, ?_, hb, ?_⟩
          · simp only [print_roots, h1, ha]
          · rw [← hout, htail, List.append_assoc]
    · rintro ⟨a, b, ha, hb, hout⟩
      unfold print_roots at ha
      cases h1 : print_mesh_for_product P h g fuel pd P.identity with
      | none => simp [h1] at ha
      | some o =>
        cases h2 : print_roots P h g fuel more with
        | none => simp [h1, h2] at ha
        | some a2 =>
          simp only [h1, h2, Option.some.injEq] at ha
          have h3 := (ih (a2 ++ b)).mpr ⟨a2, b, h2, hb, rfl⟩
          rw [List.cons_append]
          simp only [print_roots, h1, h3, hout, ← ha, List.append_assoc]

theorem print_roots_some_iff {D M : Type} (P : Prims D M) (h : Host) (g : Model D M)
    (fuel : Nat) (l : List Nat) :
    ∀ out, print_roots P h g fuel l = some out ↔
      ∃ outs, List.Forall₂ (fun pd o =>
          print_mesh_for_product P h g fuel pd P.identity = some o) l outs ∧
        out = outs.flatten := by
  induction l with
  | nil =>
    intro out
    constructor
    · intro hout
      simp only [print_roots, Option.some.injEq] at hout
      exact ⟨[], List.Forall₂.nil, hout.symm⟩
    · rintro ⟨outs, hall, hout⟩
      cases hall
      rw [hout]
      rfl
  | cons pd rest ih =>
    intro out
    constructor
    · intro hout
      unfold print_roots at hout
      cases h1 : print_mesh_for_product P h g fuel pd P.identity with
      | none => simp [h1] at hout
      | some o =>
        cases h2 : print_roots P h g fuel rest with
        | none => simp [h1, h2] at hout
        | some more =>
          simp only [h1, h2, Option.some.injEq] at hout
          obtain ⟨outs, hall, hmore⟩ := (ih more).mp h2
          refine ⟨o :: outs, List.Forall₂.cons h1 hall, ?_⟩
          rw [← hout, hmore]
          rfl
    · rintro ⟨outs, hall, hout⟩
      cases hall with
      | @cons _ o _ outs2 h1 hrest =>
        have h2 := (ih outs2.flatten).mpr ⟨outs2, hrest, rfl⟩
        simp only [print_roots, h1, h2, hout, List.flatten_cons]

/-! ## Claims on the drivers -/

/-- C12, as the code has it: for a product with registered shapes,
`print_mesh_for_product` writes the outputs of `print_mesh_for_shape` on the
shapes in list order, every one started at the same `starting_placement`, and
`count_mesh_for_product` returns the sum of `count_mesh_for_shape` over the
same list reduced modulo `2 ^ 32`; a product without registered shapes writes
nothing and counts 0; on a finite graph without cycles both return, given
enough budget. -/
theorem product_driver {D M : Type} (P : Prims D M) (h : Host) (g : Model D M)
    (pd : Nat) (X : M) :
    (∀ fuel pm, g.prod_mgr pd = some pm →
      (∀ out, print_mesh_for_product P h g fuel pd X = some out ↔
        ∃ outs, List.Forall₂ (fun rep o => print_mesh_for_shape P h g fuel rep X = some o)
            pm.shapes outs ∧
          out = outs.flatten) ∧
      (∀ c, count_mesh_for_product g fuel pd = some c ↔
        ∃ ns, List.Forall₂ (fun rep n => count_mesh_for_shape g fuel rep = some n)
            pm.shapes ns ∧
          c = ns.sum % UINT_MOD ∧ (ns.sum < UINT_MOD → c = ns.sum))) ∧
    (∀ fuel, g.prod_mgr pd = none →
      print_mesh_for_product P h g fuel pd X = some [] ∧
      count_mesh_for_product g fuel pd = some 0) ∧
    (∀ fuel pm, g.prod_mgr pd = some pm → pm.shapes = [] →
      print_mesh_for_product P h g fuel pd X = some [] ∧
      count_mesh_for_product g fuel pd = some 0) ∧
    (Acyclic g → ∃ F, ∀ fuel, F ≤ fuel →
      ∃ c out, count_mesh_for_product g fuel pd = some c ∧
        print_mesh_for_product P h g fuel pd X = some out) := by
  refine ⟨?_, ?_, ?_, ?_⟩
  · intro fuel pm hpm
    constructor
    · intro out
      unfold print_mesh_for_product
      simp only [hpm]
      exact print_shapes_some_iff P h g fuel X pm.shapes out
    · intro c
      unfold count_mesh_for_product
      simp only [hpm]
      rw [count_shapes_some_iff]
      constructor
      · rintro ⟨ns, hall, hc⟩
        exact ⟨ns, hall, hc, fun hlt => by rw [hc, Nat.mod_eq_of_lt hlt]⟩
      · rintro ⟨ns, hall, hc, _⟩
        exact ⟨ns, hall, hc⟩
  · intro fuel hpm
    simp [print_mesh_for_product, count_mesh_for_product, hpm]
  · intro fuel pm hpm hshapes
    simp [print_mesh_for_product, count_mesh_for_product, hpm, hshapes, print_shapes,
      count_shapes]
  · intro hac
    obtain ⟨F, hF⟩ := count_mesh_for_product_total g hac pd
    refine ⟨F, fun fuel hfuel => ?_⟩
    obtain ⟨c, hc⟩ := hF fuel hfuel
    have hsome := print_mesh_for_product_isSome P h g fuel pd X
    rw [hc] at hsome
    cases hp : print_mesh_for_product P h g fuel pd X with
    | none => rw [hp] at hsome; cases hsome
    | some out => exact ⟨c, out, hc, rfl⟩

/-- Witness of C12 on product 0 of the two-level assembly. -/
theorem product_driver_witness :
    two_level_model.prod_mgr 0 = some ⟨[some 0]⟩ ∧
    ∀ out, print_mesh_for_product translation_prims host_intel two_level_model 2 0 ⟨1, 2, 3⟩ =
        some out ↔
      ∃ outs, List.Forall₂ (fun rep o =>
          print_mesh_for_shape translation_prims host_intel two_level_model 2 rep ⟨1, 2, 3⟩ =
            some o) [some 0] outs ∧
        out = outs.flatten :=
  ⟨rfl, ((product_driver translation_prims host_intel two_level_model 0 ⟨1, 2, 3⟩).1 2
    ⟨[some 0]⟩ rfl).1⟩

/-- C12 fails as stated: a product with two shape representations of `2 ^ 31`
facets each has the counts `2 ^ 31` and `2 ^ 31`, of sum `2 ^ 32`, and
`count_mesh_for_product` returns 0. -/
theorem product_driver_counterexample :
    Acyclic (twin_shape_model half_range_facets) ∧
    (twin_shape_model half_range_facets).prod_mgr 0 = some ⟨[some 0, some 1]⟩ ∧
    count_mesh_for_shape (twin_shape_model half_range_facets) 1 (some 0) = some 2147483648 ∧
    count_mesh_for_shape (twin_shape_model half_range_facets) 1 (some 1) = some 2147483648 ∧
    count_mesh_for_product (twin_shape_model half_range_facets) 1 0 = some 0 ∧
    count_mesh_for_product (twin_shape_model half_range_facets) 1 0 ≠
      some (2147483648 + 2147483648) :=
  ⟨acyclic_of_no_children _ (fun _ => rfl), rfl, by decide, by decide, by decide, by decide⟩

/-- C15: the second loop writes the outputs of
`print_mesh_for_product (root, identity)` in the order of the root products,
every one started at a fresh identity placement; on a successful run these are
the bytes after the 84-byte preamble; the bytes of one root product are the
same whatever root products come before or after it. -/
theorem roots_start_at_identity {D M : Type} (P : Prims D M) (h : Host) (g : Model D M)
    (can_open : String → Bool) (opts : stp2webgl_opts) :
    (∀ fuel roots out, print_roots P h g fuel roots = some out ↔
      ∃ outs, List.Forall₂ (fun pd o =>
          print_mesh_for_product P h g fuel pd P.identity = some o) roots outs ∧
        out = outs.flatten) ∧
    (∀ fuel log, write_binary_stl P h g can_open fuel opts = some (0, log) →
      ∃ outs, List.Forall₂ (fun pd o =>
          print_mesh_for_product P h g fuel pd P.identity = some o) opts.root_prods outs ∧
        (bytes_written log).drop 84 = outs.flatten) ∧
    (∀ fuel before pd after out,
      print_roots P h g fuel (before ++ pd :: after) = some out →
      ∃ a o b, print_roots P h g fuel before = some a ∧
        print_mesh_for_product P h g fuel pd P.identity = some o ∧
        print_roots P h g fuel after = some b ∧
        out = a ++ o ++ b) ∧
    (Acyclic g → opts.do_split = false →
      (∀ path, opts.dstfile = some path → can_open path = true) →
      ∃ F, ∀ fuel, F ≤ fuel →
        ∃ log, write_binary_stl P h g can_open fuel opts = some (0, log)) := by
  refine ⟨fun fuel roots out => print_roots_some_iff P h g fuel roots out, ?_, ?_, ?_⟩
  · intro fuel log hrun
    obtain ⟨count, out, _, hp, hbytes⟩ := success_bytes P h g can_open fuel opts log hrun
    obtain ⟨outs, hall, hout⟩ := (print_roots_some_iff P h g fuel _ out).mp hp
    refine ⟨outs, hall, ?_⟩
    have hlen : (header_buf ++ le_bytes32 count).length = 84 := by
      rw [List.length_append, header_buf_length, le_bytes32_length]
    rw [hbytes, List.drop_left' hlen, hout]
  · intro fuel before pd after out hout
    obtain ⟨a, rest, ha, hrest, hsplit⟩ :=
      (print_roots_append P h g fuel before (pd :: after) out).mp hout
    unfold print_roots at hrest
    cases h1 : print_mesh_for_product P h g fuel pd P.identity with
    | none => simp [h1] at hrest
    | some o =>
      cases h2 : print_roots P h g fuel after with
      | none => simp [h1, h2] at hrest
      | some b =>
        simp only [h1, h2, Option.some.injEq] at hrest
        exact ⟨a, o, b, ha, rfl, rfl, by rw [hsplit, ← hrest, List.append_assoc]⟩
  · intro hac hsplit hopen
    exact write_binary_stl_total P h g hac can_open opts hsplit hopen

/-- Witness of C15 on the two-level assembly written to standard output. -/
theorem roots_start_at_identity_witness :
    ∃ log outs,
      write_binary_stl translation_prims host_intel two_level_model (fun _ => true) 2
        opts_stdout = some (0, log) ∧
      List.Forall₂ (fun pd o =>
        print_mesh_for_product translation_prims host_intel two_level_model 2 pd
          translation_prims.identity = some o) opts_stdout.root_prods outs ∧
      (bytes_written log).drop 84 = outs.flatten := by
  obtain ⟨outs, hall, hdrop⟩ :=
    (roots_start_at_identity translation_prims host_intel two_level_model (fun _ => true)
      opts_stdout).2.1 2 _ rfl
  exact ⟨_, outs, rfl, hall, hdrop⟩


/-! ## Claims on termination and on unresolved facets -/

/-- C17: on a finite assembly graph without cycles the child relation is
well-founded, and for every representation there is a recursion depth from
which on `count_mesh_for_shape` returns one and the same count and
`print_mesh_for_shape` returns, for every placement, one and the same output:
both walks terminate without any bound given in advance. -/
theorem walks_terminate {D M : Type} (P : Prims D M) (h : Host) (g : Model D M)
    (hac : Acyclic g) (rep : Option Nat) :
    WellFounded (IsChild g) ∧
    ∃ F c, (∀ fuel, F ≤ fuel → count_mesh_for_shape g fuel rep = some c) ∧
      ∀ X, ∃ out, ∀ fuel, F ≤ fuel → print_mesh_for_shape P h g fuel rep X = some out := by
  refine ⟨acyclic_wf g hac, ?_⟩
  obtain ⟨F, hF⟩ := count_mesh_for_shape_total g hac rep
  obtain ⟨c, hc⟩ := hF F (le_refl F)
  refine ⟨F, c, fun fuel hfuel => count_mesh_for_shape_mono g F fuel hfuel rep c hc, ?_⟩
  intro X
  have hsome := print_mesh_for_shape_isSome P h g F rep X
  rw [hc] at hsome
  cases hp : print_mesh_for_shape P h g F rep X with
  | none => rw [hp] at hsome; cases hsome
  | some out =>
    exact ⟨out, fun fuel hfuel => print_mesh_for_shape_mono P h g F fuel hfuel rep X out hp⟩

/-- Witness of C17 on the root of the two-level assembly. -/
theorem walks_terminate_witness :
    Acyclic two_level_model ∧
    ∃ F c, (∀ fuel, F ≤ fuel → count_mesh_for_shape two_level_model fuel (some 0) = some c) ∧
      ∀ X, ∃ out, ∀ fuel, F ≤ fuel →
        print_mesh_for_shape translation_prims host_intel two_level_model fuel (some 0) X =
          some out :=
  ⟨two_level_acyclic,
    (walks_terminate translation_prims host_intel two_level_model two_level_acyclic
      (some 0)).2⟩

theorem print_facets_records {D M : Type} (P : Prims D M) (h : Host)
    (fs : StixMeshFacetSet D) (X : M) :
    ∀ (n j : Nat), ∃ k, (print_facets P h fs X j n).length = 50 * k ∧ k ≤ n ∧
      ((∃ i, j ≤ i ∧ i < j + n ∧ fs.getFacet i = none) → k < n) := by
  intro n
  induction n with
  | zero =>
    intro j
    refine ⟨0, rfl, le_refl _, ?_⟩
    rintro ⟨i, h1, h2, _⟩
    omega
  | succ n ih =>
    intro j
    obtain ⟨k, hk, hkn, hlt⟩ := ih (j + 1)
    unfold print_facets
    rw [List.length_append, print_triangle_length, hk]
    cases hj : fs.getFacet j with
    | none =>
      refine ⟨k, by simp, by omega, fun _ => by omega⟩
    | some f =>
      refine ⟨k + 1, by simp; omega, by omega, ?_⟩
      rintro ⟨i, h1, h2, h3⟩
      have hne : i ≠ j := by
        intro hij
        rw [hij, hj] at h3
        cases h3
      have := hlt ⟨i, by omega, by omega, h3⟩
      omega

/-- C18: a call of `print_triangle` writes 0 or 50 bytes, and 0 exactly when
`getFacet` yields no facet; so for an item whose cached facet set reports
`getFacetCount () = n` (an `unsigned`, so below `2 ^ 32`) and yields no facet
at an index below `n`, the emit pass writes `k` whole records with `k < n` for
that item while the count pass adds `n`; for a representation with this item
alone and no linkage manager `print_mesh_for_shape` writes `k < n` records and
`count_mesh_for_shape` returns `n`. -/
theorem print_triangle_all_or_nothing {D M : Type} (P : Prims D M) (h : Host) (g : Model D M)
    (it : Nat) (mesh : StixMeshStp D) (i : Nat)
    (hmesh : g.stixmesh_cache_find it = some mesh)
    (hi : i < mesh.getFacetSet.getFacetCount)
    (hnone : mesh.getFacetSet.getFacet i = none)
    (hcount : mesh.getFacetSet.getFacetCount < UINT_MOD) :
    (∀ (fs : StixMeshFacetSet D) (X : M) (j : Nat),
      ((print_triangle P h fs X j).length = 0 ∨ (print_triangle P h fs X j).length = 50) ∧
      ((print_triangle P h fs X j).length = 0 ↔ fs.getFacet j = none)) ∧
    (∀ (X : M) (rest : List Nat) (count : Nat),
      ∃ k, k < mesh.getFacetSet.getFacetCount ∧
        (print_facets P h mesh.getFacetSet X 0 mesh.getFacetSet.getFacetCount).length = 50 * k ∧
        print_items P h g X (it :: rest) =
          print_facets P h mesh.getFacetSet X 0 mesh.getFacetSet.getFacetCount ++
            print_items P h g X rest ∧
        count_items g (it :: rest) count =
          count_items g rest ((count + mesh.getFacetSet.getFacetCount) % UINT_MOD)) ∧
    (∀ (fuel r : Nat) (X : M), g.items r = [it] → g.rep_mgr r = none →
      ∃ out k, print_mesh_for_shape P h g (fuel + 1) (some r) X = some out ∧
        out.length = 50 * k ∧ k < mesh.getFacetSet.getFacetCount ∧
        count_mesh_for_shape g (fuel + 1) (some r) = some mesh.getFacetSet.getFacetCount) := by
  have hrec : ∀ X, ∃ k, k < mesh.getFacetSet.getFacetCount ∧
      (print_facets P h mesh.getFacetSet X 0 mesh.getFacetSet.getFacetCount).length = 50 * k := by
    intro X
    obtain ⟨k, hk, _, hlt⟩ := print_facets_records P h mesh.getFacetSet X
      mesh.getFacetSet.getFacetCount 0
    exact ⟨k, hlt ⟨i, Nat.zero_le _, by omega, hnone⟩, hk⟩
  refine ⟨?_, ?_, ?_⟩
  · intro fs X j
    rw [print_triangle_length]
    cases fs.getFacet j <;> simp
  · intro X rest count
    obtain ⟨k, hk, hlen⟩ := hrec X
    exact ⟨k, hk, hlen, by simp [print_items, hmesh], by simp [count_items, hmesh]⟩
  · intro fuel r X hitems hmgr
    obtain ⟨k, hk, hlen⟩ := hrec X
    refine ⟨print_facets P h mesh.getFacetSet X 0 mesh.getFacetSet.getFacetCount, k,
      by simp [print_mesh_for_shape, hitems, hmgr, print_items, hmesh], hlen, hk, ?_⟩
    · simp [count_mesh_for_shape, hitems, hmgr, count_items, hmesh, Nat.mod_eq_of_lt hcount]

/-- Witness of C18 on the facet set that reports one facet and returns none. -/
theorem print_triangle_all_or_nothing_witness :
    hollow_model.stixmesh_cache_find 0 = some ⟨hollow_facets⟩ ∧
    hollow_facets.getFacetCount = 1 ∧
    hollow_facets.getFacet 0 = none ∧
    ∃ out k, print_mesh_for_shape translation_prims host_intel hollow_model 1 (some 0)
        ⟨0, 0, 0⟩ = some out ∧
      out.length = 50 * k ∧ k < 1 ∧
      count_mesh_for_shape hollow_model 1 (some 0) = some 1 :=
  ⟨rfl, rfl, rfl,
    (print_triangle_all_or_nothing translation_prims host_intel hollow_model 0 ⟨hollow_facets⟩ 0
      rfl (by decide) rfl (by decide)).2.2 0 0 ⟨0, 0, 0⟩ rfl rfl⟩


/-! ## Missing data -/

theorem count_items_filter {D M : Type} (g : Model D M) (l : List Nat) :
    ∀ count, count_items g l count =
      count_items g (l.filter (fun it => (g.stixmesh_cache_find it).isSome)) count := by
  induction l with
  | nil => intro count; rfl
  | cons it rest ih =>
    intro count
    cases hm : g.stixmesh_cache_find it with
    | none =>
      simp only [List.filter_cons, hm, Option.isSome_none, Bool.false_eq_true, if_false,
        count_items]
      exact ih count
    | some mesh =>
      simp only [List.filter_cons, hm, Option.isSome_some, if_true, count_items]
      exact ih _

theorem print_items_filter {D M : Type} (P : Prims D M) (h : Host) (g : Model D M) (X : M)
    (l : List Nat) :
    print_items P h g X l =
      print_items P h g X (l.filter (fun it => (g.stixmesh_cache_find it).isSome)) := by
  induction l with
  | nil => rfl
  | cons it rest ih =>
    cases hm : g.stixmesh_cache_find it with
    | none =>
      simp only [List.filter_cons, hm, Option.isSome_none, Bool.false_eq_true, if_false,
        print_items]
      exact ih
    | some mesh =>
      simp only [List.filter_cons, hm, Option.isSome_some, if_true, print_items]
      rw [ih]

theorem items_facet_sum_filter {D M : Type} (g : Model D M) (l : List Nat) :
    items_facet_sum g l =
      items_facet_sum g (l.filter (fun it => (g.stixmesh_cache_find it).isSome)) := by
  induction l with
  | nil => rfl
  | cons it rest ih =>
    cases hm : g.stixmesh_cache_find it with
    | none =>
      simp only [List.filter_cons, hm, Option.isSome_none, Bool.false_eq_true, if_false]
      rw [items_facet_sum_cons, ih]
      simp [item_facet_count, hm]
    | some mesh =>
      simp only [List.filter_cons, hm, Option.isSome_some, if_true]
      rw [items_facet_sum_cons, items_facet_sum_cons, ih]

theorem count_children_filter {M : Type} (self : Option Nat → Option Nat)
    (h0 : self none = some 0) (rels : List (Linkage M)) :
    ∀ count, count < UINT_MOD →
      count_children self rels count =
        count_children self (rels.filter (fun l => l.child_rep.isSome)) count := by
  induction rels with
  | nil => intro count _; rfl
  | cons rel rest ih =>
    intro count hc
    cases hr : rel.child_rep with
    | none =>
      simp only [List.filter_cons, hr, Option.isSome_none, Bool.false_eq_true, if_false]
      rw [← ih count hc]
      simp only [count_children, hr, h0, Nat.add_zero, Nat.mod_eq_of_lt hc]
    | some x =>
      simp only [List.filter_cons, hr, Option.isSome_some, if_true]
      simp only [count_children, hr]
      cases self (some x) with
      | none => rfl
      | some c => exact ih _ (Nat.mod_lt _ (by decide))

theorem print_children_filter {D M : Type} (P : Prims D M)
    (self : Option Nat → M → Option (List Nat)) (h0 : ∀ Y, self none Y = some []) (X : M)
    (rels : List (Linkage M)) :
    print_children P self X rels =
      print_children P self X (rels.filter (fun l => l.child_rep.isSome)) := by
  induction rels with
  | nil => rfl
  | cons rel rest ih =>
    cases hr : rel.child_rep with
    | none =>
      simp only [List.filter_cons, hr, Option.isSome_none, Bool.false_eq_true, if_false]
      rw [← ih]
      simp only [print_children, hr, h0, List.nil_append]
      cases print_children P self X rest <;> rfl
    | some x =>
      simp only [List.filter_cons, hr, Option.isSome_some, if_true]
      simp only [print_children, hr, ih]

theorem count_mesh_for_shape_loops {D M : Type} (g : Model D M) (fuel r : Nat)
    (m : StixMgrAsmShapeRep M) (c : Nat) (hm : g.rep_mgr r = some m) :
    count_mesh_for_shape g (fuel + 1) (some r) = some c ↔
      ∃ c1, count_children (count_mesh_for_shape g fuel) m.child_rels
          (count_items g (g.items r) 0) = some c1 ∧
        count_children (count_mesh_for_shape g fuel) m.child_mapped_items c1 = some c := by
  have hunf : count_mesh_for_shape g (fuel + 1) (some r) =
      (match count_children (count_mesh_for_shape g fuel) m.child_rels
          (count_items g (g.items r) 0) with
        | none => none
        | some count =>
          count_children (count_mesh_for_shape g fuel) m.child_mapped_items count) := by
    simp only [count_mesh_for_shape, hm]
  rw [hunf]
  cases count_children (count_mesh_for_shape g fuel) m.child_rels
      (count_items g (g.items r) 0) with
  | none => simp
  | some c1 => simp

theorem print_mesh_for_shape_loops {D M : Type} (P : Prims D M) (h : Host) (g : Model D M)
    (fuel r : Nat) (m : StixMgrAsmShapeRep M) (X : M) (out : List Nat)
    (hm : g.rep_mgr r = some m) :
    print_mesh_for_shape P h g (fuel + 1) (some r) X = some out ↔
      ∃ o1 o2, print_children P (print_mesh_for_shape P h g fuel) X m.child_rels = some o1 ∧
        print_children P (print_mesh_for_shape P h g fuel) X m.child_mapped_items = some o2 ∧
        out = print_items P h g X (g.items r) ++ o1 ++ o2 := by
  have hunf : print_mesh_for_shape P h g (fuel + 1) (some r) X =
      (match print_children P (print_mesh_for_shape P h g fuel) X m.child_rels with
        | none => none
        | some rels =>
          match print_children P (print_mesh_for_shape P h g fuel) X m.child_mapped_items with
          | none => none
          | some mapped => some (print_items P h g X (g.items r) ++ rels ++ mapped)) := by
    simp only [print_mesh_for_shape, hm]
  rw [hunf]
  cases print_children P (print_mesh_for_shape P h g fuel) X m.child_rels with
  | none => simp
  | some o1 =>
    cases print_children P (print_mesh_for_shape P h g fuel) X m.child_mapped_items with
    | none => simp
    | some o2 =>
      simp only [Option.some.injEq, exists_and_left, exists_eq_left']
      constructor
      · intro hout
        exact hout.symm
      · intro hout
        exact hout.symm


/-- C13: a null representation counts 0 and writes nothing; an item without
cached mesh and a child linkage with a null child representation are skipped
by both loops of both passes, which handle the remaining items and linkages
as before: the count and the output of a representation are those of its
meshed items and of its linkages with a child representation, in order. -/
theorem missing_data_skipped {D M : Type} (P : Prims D M) (h : Host) (g : Model D M)
    (fuel : Nat) :
    (count_mesh_for_shape g (fuel + 1) none = some 0 ∧
      ∀ X, print_mesh_for_shape P h g (fuel + 1) none X = some []) ∧
    (∀ l count, count_items g l count =
      count_items g (l.filter (fun it => (g.stixmesh_cache_find it).isSome)) count) ∧
    (∀ l X, print_items P h g X l =
      print_items P h g X (l.filter (fun it => (g.stixmesh_cache_find it).isSome))) ∧
    (∀ (rels : List (Linkage M)) count, count < UINT_MOD →
      count_children (count_mesh_for_shape g (fuel + 1)) rels count =
        count_children (count_mesh_for_shape g (fuel + 1))
          (rels.filter (fun l => l.child_rep.isSome)) count) ∧
    (∀ (rels : List (Linkage M)) X,
      print_children P (print_mesh_for_shape P h g (fuel + 1)) X rels =
        print_children P (print_mesh_for_shape P h g (fuel + 1)) X
          (rels.filter (fun l => l.child_rep.isSome))) ∧
    (∀ r, g.rep_mgr r = none →
      count_mesh_for_shape g (fuel + 1) (some r) =
        some (items_facet_sum g
          ((g.items r).filter (fun it => (g.stixmesh_cache_find it).isSome)) % UINT_MOD) ∧
      ∀ X, print_mesh_for_shape P h g (fuel + 1) (some r) X =
        some (print_items P h g X
          ((g.items r).filter (fun it => (g.stixmesh_cache_find it).isSome)))) ∧
    (∀ r m, g.rep_mgr r = some m →
      (∀ c, count_mesh_for_shape g (fuel + 2) (some r) = some c ↔
        ∃ rels mapped,
          List.Forall₂ (fun (l : Linkage M) n =>
            count_mesh_for_shape g (fuel + 1) l.child_rep = some n)
            (m.child_rels.filter (fun l => l.child_rep.isSome)) rels ∧
          List.Forall₂ (fun (l : Linkage M) n =>
            count_mesh_for_shape g (fuel + 1) l.child_rep = some n)
            (m.child_mapped_items.filter (fun l => l.child_rep.isSome)) mapped ∧
          c = (items_facet_sum g
              ((g.items r).filter (fun it => (g.stixmesh_cache_find it).isSome)) +
            rels.sum + mapped.sum) % UINT_MOD) ∧
      (∀ X out, print_mesh_for_shape P h g (fuel + 2) (some r) X = some out ↔
        ∃ rels mapped,
          List.Forall₂ (fun (l : Linkage M) o =>
            print_mesh_for_shape P h g (fuel + 1) l.child_rep (P.mul l.xform X) = some o)
            (m.child_rels.filter (fun l => l.child_rep.isSome)) rels ∧
          List.Forall₂ (fun (l : Linkage M) o =>
            print_mesh_for_shape P h g (fuel + 1) l.child_rep (P.mul l.xform X) = some o)
            (m.child_mapped_items.filter (fun l => l.child_rep.isSome)) mapped ∧
          out = print_items P h g X
              ((g.items r).filter (fun it => (g.stixmesh_cache_find it).isSome)) ++
            rels.flatten ++ mapped.flatten)) := by
  refine ⟨⟨rfl, fun _ => rfl⟩, count_items_filter g,
    fun l X => print_items_filter P h g X l, ?_, ?_, ?_, ?_⟩
  · intro rels count hc
    exact count_children_filter _ rfl rels count hc
  · intro rels X
    exact print_children_filter P _ (fun _ => rfl) X rels
  · intro r hm
    constructor
    · have hunf : count_mesh_for_shape g (fuel + 1) (some r) =
          some (count_items g (g.items r) 0) := by
        simp only [count_mesh_for_shape, hm]
      rw [hunf, count_items_eq g _ 0 (by decide), Nat.zero_add, items_facet_sum_filter]
    · intro X
      have hunf : print_mesh_for_shape P h g (fuel + 1) (some r) X =
          some (print_items P h g X (g.items r)) := by
        simp only [print_mesh_for_shape, hm]
      rw [hunf, print_items_filter]
  · intro r m hm
    have h0 : count_items g (g.items r) 0 =
        items_facet_sum g
          ((g.items r).filter (fun it => (g.stixmesh_cache_find it).isSome)) % UINT_MOD := by
      rw [count_items_eq g _ 0 (by decide), Nat.zero_add, items_facet_sum_filter]
    have h0lt : count_items g (g.items r) 0 < UINT_MOD := by
      rw [h0]
      exact Nat.mod_lt _ (by decide)
    constructor
    · intro c
      rw [count_mesh_for_shape_loops g (fuel + 1) r m c hm]
      constructor
      · rintro ⟨c1, h1, h2⟩
        have hc1lt : c1 < UINT_MOD := count_children_lt _ _ _ _ h0lt h1
        rw [count_children_filter _ rfl _ _ h0lt] at h1
        rw [count_children_filter _ rfl _ _ hc1lt] at h2
        obtain ⟨rels, hrels, hc1⟩ := (count_children_some_iff _ _ _ h0lt c1).mp h1
        obtain ⟨mapped, hmapped, hc2⟩ := (count_children_some_iff _ _ _ hc1lt c).mp h2
        refine ⟨rels, mapped, hrels, hmapped, ?_⟩
        rw [hc2, hc1, h0]
        simp only [UINT_MOD]
        omega
      · rintro ⟨rels, mapped, hrels, hmapped, hc⟩
        refine ⟨(count_items g (g.items r) 0 + rels.sum) % UINT_MOD, ?_, ?_⟩
        · rw [count_children_filter _ rfl _ _ h0lt]
          exact (count_children_some_iff _ _ _ h0lt _).mpr ⟨rels, hrels, rfl⟩
        · rw [count_children_filter _ rfl _ _ (Nat.mod_lt _ (by decide))]
          refine (count_children_some_iff _ _ _ (Nat.mod_lt _ (by decide)) c).mpr
            ⟨mapped, hmapped, ?_⟩
          rw [hc, h0]
          simp only [UINT_MOD]
          omega
    · intro X out
      rw [print_mesh_for_shape_loops P h g (fuel + 1) r m X out hm,
        print_children_filter P _ (fun _ => rfl) X m.child_rels,
        print_children_filter P _ (fun _ => rfl) X m.child_mapped_items,
        print_items_filter]
      constructor
      · rintro ⟨o1, o2, h1, h2, hout⟩
        obtain ⟨rels, hrels, hr⟩ := (print_children_some_iff P _ X _ o1).mp h1
        obtain ⟨mapped, hmapped, hmp⟩ := (print_children_some_iff P _ X _ o2).mp h2
        exact ⟨rels, mapped, hrels, hmapped, by rw [hout, hr, hmp]⟩
      · rintro ⟨rels, mapped, hrels, hmapped, hout⟩
        exact ⟨rels.flatten, mapped.flatten,
          (print_children_some_iff P _ X _ _).mpr ⟨rels, hrels, rfl⟩,
          (print_children_some_iff P _ X _ _).mpr ⟨mapped, hmapped, rfl⟩, hout⟩


/-- Witness of C13 on a representation with an unmeshed item and two null
child linkages: its count 2 is that of the meshed item and of the one child. -/
theorem missing_data_skipped_witness :
    count_mesh_for_shape sparse_model 2 (some 0) = some 2 ∧
    ∃ rels mapped,
      List.Forall₂ (fun (l : Linkage (Dbl3 Int)) n =>
        count_mesh_for_shape sparse_model 1 l.child_rep = some n)
        [⟨some 1, ⟨5, 0, 0⟩⟩] rels ∧
      List.Forall₂ (fun (l : Linkage (Dbl3 Int)) n =>
        count_mesh_for_shape sparse_model 1 l.child_rep = some n) [] mapped ∧
      2 = (items_facet_sum sparse_model [10] + rels.sum + mapped.sum) % UINT_MOD :=
  ⟨by decide,
    (((missing_data_skipped translation_prims host_intel sparse_model 0).2.2.2.2.2.2 0
      ⟨[⟨none, ⟨1, 0, 0⟩⟩, ⟨some 1, ⟨5, 0, 0⟩⟩], [⟨none, ⟨0, 7, 0⟩⟩]⟩ rfl).1 2).mp
      (by decide)⟩

/-! ## Traversal order -/

theorem print_facets_eq_flatten {D M : Type} (P : Prims D M) (h : Host)
    (fs : StixMeshFacetSet D) (X : M) :
    ∀ (n j : Nat), print_facets P h fs X j n =
      ((List.range' j n).map (print_triangle P h fs X)).flatten := by
  intro n
  induction n with
  | zero => intro j; rfl
  | succ n ih =>
    intro j
    unfold print_facets
    rw [ih (j + 1), List.range'_succ, List.map_cons, List.flatten_cons]

theorem print_items_eq_flatten {D M : Type} (P : Prims D M) (h : Host) (g : Model D M)
    (X : M) (l : List Nat) :
    print_items P h g X l =
      (l.map (fun it =>
        match g.stixmesh_cache_find it with
        | none => []
        | some mesh =>
          print_facets P h mesh.getFacetSet X 0 mesh.getFacetSet.getFacetCount)).flatten := by
  induction l with
  | nil => rfl
  | cons it rest ih =>
    unfold print_items
    rw [List.map_cons, List.flatten_cons, ← ih]
    cases g.stixmesh_cache_find it <;> rfl

theorem count_children_logged_fst {M : Type}
    (lself : Option Nat → Option (Nat × List (Option Nat))) (cself : Option Nat → Option Nat)
    (hs : ∀ x, (lself x).map Prod.fst = cself x) (rels : List (Linkage M)) :
    ∀ count, (count_children_logged lself rels count).map Prod.fst =
      count_children cself rels count := by
  induction rels with
  | nil => intro count; rfl
  | cons rel rest ih =>
    intro count
    have h1 := hs rel.child_rep
    cases hl : lself rel.child_rep with
    | none =>
      rw [hl] at h1
      simp only [count_children_logged, count_children, hl, ← h1, Option.map_none']
    | some res =>
      obtain ⟨c, calls⟩ := res
      rw [hl] at h1
      simp only [Option.map_some'] at h1
      have h2 := ih ((count + c) % UINT_MOD)
      simp only [count_children_logged, count_children, hl, ← h1]
      rw [← h2]
      cases count_children_logged lself rest ((count + c) % UINT_MOD) with
      | none => rfl
      | some res2 => rfl

theorem count_children_logged_snd {M : Type}
    (lself : Option Nat → Option (Nat × List (Option Nat)))
    (vself : Option Nat → Option (List (Option Nat)))
    (hs : ∀ x, (lself x).map Prod.snd = vself x) (rels : List (Linkage M)) :
    ∀ count, (count_children_logged lself rels count).map Prod.snd =
      visit_children vself rels := by
  induction rels with
  | nil => intro count; rfl
  | cons rel rest ih =>
    intro count
    have h1 := hs rel.child_rep
    cases hl : lself rel.child_rep with
    | none =>
      rw [hl] at h1
      simp only [count_children_logged, visit_children, hl, ← h1, Option.map_none']
    | some res =>
      obtain ⟨c, calls⟩ := res
      rw [hl] at h1
      simp only [Option.map_some'] at h1
      have h2 := ih ((count + c) % UINT_MOD)
      simp only [count_children_logged, visit_children, hl, ← h1]
      rw [← h2]
      cases count_children_logged lself rest ((count + c) % UINT_MOD) with
      | none => rfl
      | some res2 => rfl

theorem print_children_logged_fst {D M : Type} (P : Prims D M)
    (lself : Option Nat → M → Option (List Nat × List (Option Nat)))
    (pself : Option Nat → M → Option (List Nat))
    (hs : ∀ x Y, (lself x Y).map Prod.fst = pself x Y) (X : M) (rels : List (Linkage M)) :
    (print_children_logged P lself X rels).map Prod.fst = print_children P pself X rels := by
  induction rels with
  | nil => rfl
  | cons rel rest ih =>
    have h1 := hs rel.child_rep (P.mul rel.xform X)
    cases hl : lself rel.child_rep (P.mul rel.xform X) with
    | none =>
      rw [hl] at h1
      simp only [print_children_logged, print_children, hl, ← h1, Option.map_none']
    | some res =>
      obtain ⟨o, calls⟩ := res
      rw [hl] at h1
      simp only [Option.map_some'] at h1
      simp only [print_children_logged, print_children, hl, ← h1]
      rw [← ih]
      cases print_children_logged P lself X rest with
      | none => rfl
      | some res2 => rfl

theorem print_children_logged_snd {D M : Type} (P : Prims D M)
    (lself : Option Nat → M → Option (List Nat × List (Option Nat)))
    (vself : Option Nat → Option (List (Option Nat)))
    (hs : ∀ x Y, (lself x Y).map Prod.snd = vself x) (X : M) (rels : List (Linkage M)) :
    (print_children_logged P lself X rels).map Prod.snd = visit_children vself rels := by
  induction rels with
  | nil => rfl
  | cons rel rest ih =>
    have h1 := hs rel.child_rep (P.mul rel.xform X)
    cases hl : lself rel.child_rep (P.mul rel.xform X) with
    | none =>
      rw [hl] at h1
      simp only [print_children_logged, visit_children, hl, ← h1, Option.map_none']
    | some res =>
      obtain ⟨o, calls⟩ := res
      rw [hl] at h1
      simp only [Option.map_some'] at h1
      simp only [print_children_logged, visit_children, hl, ← h1]
      rw [← ih]
      cases print_children_logged P lself X rest with
      | none => rfl
      | some res2 => rfl


theorem count_logged_fst {D M : Type} (g : Model D M) :
    ∀ (fuel : Nat) (rep : Option Nat),
      (count_mesh_for_shape_logged g fuel rep).map Prod.fst = count_mesh_for_shape g fuel rep := by
  intro fuel
  induction fuel with
  | zero => intro rep; rfl
  | succ fuel ih =>
    intro rep
    cases rep with
    | none => rfl
    | some r =>
      cases hm : g.rep_mgr r with
      | none => simp only [count_mesh_for_shape_logged, count_mesh_for_shape, hm, Option.map_some']
      | some m =>
        have h1 := count_children_logged_fst _ _ ih m.child_rels (count_items g (g.items r) 0)
        cases hl1 : count_children_logged (count_mesh_for_shape_logged g fuel) m.child_rels
            (count_items g (g.items r) 0) with
        | none =>
          rw [hl1] at h1
          simp only [count_mesh_for_shape_logged, count_mesh_for_shape, hm, hl1, ← h1,
            Option.map_none']
        | some res =>
          obtain ⟨c1, calls1⟩ := res
          rw [hl1] at h1
          simp only [Option.map_some'] at h1
          have h2 := count_children_logged_fst _ _ ih m.child_mapped_items c1
          simp only [count_mesh_for_shape_logged, count_mesh_for_shape, hm, hl1, ← h1]
          rw [← h2]
          cases count_children_logged (count_mesh_for_shape_logged g fuel) m.child_mapped_items
              c1 with
          | none => rfl
          | some res2 => rfl

theorem count_logged_snd {D M : Type} (g : Model D M) :
    ∀ (fuel : Nat) (rep : Option Nat),
      (count_mesh_for_shape_logged g fuel rep).map Prod.snd = preorder_calls g fuel rep := by
  intro fuel
  induction fuel with
  | zero => intro rep; rfl
  | succ fuel ih =>
    intro rep
    cases rep with
    | none => rfl
    | some r =>
      cases hm : g.rep_mgr r with
      | none => simp only [count_mesh_for_shape_logged, preorder_calls, hm, Option.map_some']
      | some m =>
        have h1 := count_children_logged_snd _ _ ih m.child_rels (count_items g (g.items r) 0)
        cases hl1 : count_children_logged (count_mesh_for_shape_logged g fuel) m.child_rels
            (count_items g (g.items r) 0) with
        | none =>
          rw [hl1] at h1
          simp only [count_mesh_for_shape_logged, preorder_calls, hm, hl1, ← h1,
            Option.map_none']
        | some res =>
          obtain ⟨c1, calls1⟩ := res
          rw [hl1] at h1
          simp only [Option.map_some'] at h1
          have h2 := count_children_logged_snd _ _ ih m.child_mapped_items c1
          simp only [count_mesh_for_shape_logged, preorder_calls, hm, hl1, ← h1]
          rw [← h2]
          cases count_children_logged (count_mesh_for_shape_logged g fuel) m.child_mapped_items
              c1 with
          | none => rfl
          | some res2 => rfl

theorem print_logged_fst {D M : Type} (P : Prims D M) (h : Host) (g : Model D M) :
    ∀ (fuel : Nat) (rep : Option Nat) (X : M),
      (print_mesh_for_shape_logged P h g fuel rep X).map Prod.fst =
        print_mesh_for_shape P h g fuel rep X := by
  intro fuel
  induction fuel with
  | zero => intro rep X; rfl
  | succ fuel ih =>
    intro rep X
    cases rep with
    | none => rfl
    | some r =>
      cases hm : g.rep_mgr r with
      | none => simp only [print_mesh_for_shape_logged, print_mesh_for_shape, hm, Option.map_some']
      | some m =>
        have h1 := print_children_logged_fst P _ _ ih X m.child_rels
        cases hl1 : print_children_logged P (print_mesh_for_shape_logged P h g fuel) X
            m.child_rels with
        | none =>
          rw [hl1] at h1
          simp only [print_mesh_for_shape_logged, print_mesh_for_shape, hm, hl1, ← h1,
            Option.map_none']
        | some res =>
          obtain ⟨o1, calls1⟩ := res
          rw [hl1] at h1
          simp only [Option.map_some'] at h1
          have h2 := print_children_logged_fst P _ _ ih X m.child_mapped_items
          simp only [print_mesh_for_shape_logged, print_mesh_for_shape, hm, hl1, ← h1]
          rw [← h2]
          cases print_children_logged P (print_mesh_for_shape_logged P h g fuel) X
              m.child_mapped_items with
          | none => rfl
          | some res2 => rfl

theorem print_logged_snd {D M : Type} (P : Prims D M) (h : Host) (g : Model D M) :
    ∀ (fuel : Nat) (rep : Option Nat) (X : M),
      (print_mesh_for_shape_logged P h g fuel rep X).map Prod.snd =
        preorder_calls g fuel rep := by
  intro fuel
  induction fuel with
  | zero => intro rep X; rfl
  | succ fuel ih =>
    intro rep X
    cases rep with
    | none => rfl
    | some r =>
      cases hm : g.rep_mgr r with
      | none => simp only [print_mesh_for_shape_logged, preorder_calls, hm, Option.map_some']
      | some m =>
        have h1 := print_children_logged_snd P _ _ ih X m.child_rels
        cases hl1 : print_children_logged P (print_mesh_for_shape_logged P h g fuel) X
            m.child_rels with
        | none =>
          rw [hl1] at h1
          simp only [print_mesh_for_shape_logged, preorder_calls, hm, hl1, ← h1,
            Option.map_none']
        | some res =>
          obtain ⟨o1, calls1⟩ := res
          rw [hl1] at h1
          simp only [Option.map_some'] at h1
          have h2 := print_children_logged_snd P _ _ ih X m.child_mapped_items
          simp only [print_mesh_for_shape_logged, preorder_calls, hm, hl1, ← h1]
          rw [← h2]
          cases print_children_logged P (print_mesh_for_shape_logged P h g fuel) X
              m.child_mapped_items with
          | none => rfl
          | some res2 => rfl

/-- C14: the output of `print_mesh_for_shape` on a representation is the
records of its own items (items in list order, for a meshed item the facets in
index order from 0, all under the representation's placement), then the
complete outputs of the direct-relationship children in list order, then those
of the mapped-item children in list order; the calls of
`print_mesh_for_shape` and those of `count_mesh_for_shape` are the same
representations in the same order, the depth-first pre-order; on a finite
graph without cycles both walks return, given enough budget. -/
theorem preorder_output {D M : Type} (P : Prims D M) (h : Host) (g : Model D M) :
    (∀ (fs : StixMeshFacetSet D) (X : M) (n : Nat), print_facets P h fs X 0 n =
      ((List.range n).map (print_triangle P h fs X)).flatten) ∧
    (∀ (X : M) (l : List Nat), print_items P h g X l =
      (l.map (fun it =>
        match g.stixmesh_cache_find it with
        | none => []
        | some mesh =>
          print_facets P h mesh.getFacetSet X 0 mesh.getFacetSet.getFacetCount)).flatten) ∧
    (∀ fuel r X, g.rep_mgr r = none →
      print_mesh_for_shape P h g (fuel + 1) (some r) X =
        some (print_items P h g X (g.items r))) ∧
    (∀ fuel r m X out, g.rep_mgr r = some m →
      (print_mesh_for_shape P h g (fuel + 1) (some r) X = some out ↔
        ∃ rels mapped,
          List.Forall₂ (fun (l : Linkage M) o =>
            print_mesh_for_shape P h g fuel l.child_rep (P.mul l.xform X) = some o)
            m.child_rels rels ∧
          List.Forall₂ (fun (l : Linkage M) o =>
            print_mesh_for_shape P h g fuel l.child_rep (P.mul l.xform X) = some o)
            m.child_mapped_items mapped ∧
          out = print_items P h g X (g.items r) ++ rels.flatten ++ mapped.flatten)) ∧
    (∀ fuel rep,
      (count_mesh_for_shape_logged g fuel rep).map Prod.fst = count_mesh_for_shape g fuel rep ∧
      (count_mesh_for_shape_logged g fuel rep).map Prod.snd = preorder_calls g fuel rep) ∧
    (∀ fuel rep X,
      (print_mesh_for_shape_logged P h g fuel rep X).map Prod.fst =
        print_mesh_for_shape P h g fuel rep X ∧
      (print_mesh_for_shape_logged P h g fuel rep X).map Prod.snd =
        (count_mesh_for_shape_logged g fuel rep).map Prod.snd) ∧
    (Acyclic g → ∀ rep, ∃ F, ∀ fuel, F ≤ fuel → ∀ X, ∃ c out calls,
      count_mesh_for_shape_logged g fuel rep = some (c, calls) ∧
      print_mesh_for_shape_logged P h g fuel rep X = some (out, calls)) := by
  refine ⟨?_, print_items_eq_flatten P h g, ?_, ?_, ?_, ?_, ?_⟩
  · intro fs X n
    rw [print_facets_eq_flatten, List.range_eq_range']
  · intro fuel r X hm
    simp only [print_mesh_for_shape, hm]
  · intro fuel r m X out hm
    exact print_mesh_for_shape_some_iff P h g fuel r m X out hm
  · intro fuel rep
    exact ⟨count_logged_fst g fuel rep, count_logged_snd g fuel rep⟩
  · intro fuel rep X
    exact ⟨print_logged_fst P h g fuel rep X,
      by rw [print_logged_snd, count_logged_snd]⟩
  · intro hac rep
    obtain ⟨F, hF⟩ := count_mesh_for_shape_total g hac rep
    refine ⟨F, fun fuel hfuel X => ?_⟩
    obtain ⟨c, hc⟩ := hF fuel hfuel
    have hcf := count_logged_fst g fuel rep
    have hpf := print_logged_fst P h g fuel rep X
    have hps := print_logged_snd P h g fuel rep X
    have hcs := count_logged_snd g fuel rep
    have hsome := print_mesh_for_shape_isSome P h g fuel rep X
    rw [hc] at hcf hsome
    cases hcl : count_mesh_for_shape_logged g fuel rep with
    | none => rw [hcl] at hcf; cases hcf
    | some cres =>
      obtain ⟨c2, calls⟩ := cres
      cases hpl : print_mesh_for_shape_logged P h g fuel rep X with
      | none =>
        rw [hpl] at hpf
        rw [← hpf] at hsome
        cases hsome
      | some pres =>
        obtain ⟨out, calls2⟩ := pres
        rw [hcl] at hcs
        rw [hpl, ← hcs] at hps
        simp only [Option.map_some', Option.some.injEq] at hps
        rw [hps]
        exact ⟨c2, out, calls, rfl, rfl⟩

/-- Witness of C14 on the assembly with a shared child: both walks call
representation 0, then its direct child 1, then its mapped child 1. -/
theorem preorder_output_witness :
    (count_mesh_for_shape_logged (twin_instance_model one_facet) 2 (some 0)).map Prod.snd =
      some [some 0, some 1, some 1] ∧
    (print_mesh_for_shape_logged translation_prims host_intel (twin_instance_model one_facet) 2
      (some 0) ⟨0, 0, 0⟩).map Prod.snd = some [some 0, some 1, some 1] := by
  have hw := (preorder_output translation_prims host_intel
    (twin_instance_model one_facet)).2.2.2.2.2.1 2 (some 0) ⟨0, 0, 0⟩
  have hc : (count_mesh_for_shape_logged (twin_instance_model one_facet) 2 (some 0)).map
      Prod.snd = some [some 0, some 1, some 1] := by decide
  exact ⟨hc, by rw [hw.2, hc]⟩


/-! ## Shared children -/

theorem forall2_split_sum {A : Type} (f : A → Option Nat) (p : A → Bool) (v : Nat)
    (hp : ∀ a, p a = true → f a = some v) (l : List A) (ns : List Nat)
    (hall : List.Forall₂ (fun a n => f a = some n) l ns) :
    ∃ rest, sum_over f (l.filter (fun a => !p a)) = some rest ∧
      ns.sum = (l.filter p).length * v + rest := by
  induction hall with
  | nil => exact ⟨0, rfl, by simp⟩
  | @cons a n l2 ns2 h1 _ ih =>
    obtain ⟨rest, hrest, hsum⟩ := ih
    cases hpa : p a with
    | true =>
      have hv := hp a hpa
      rw [h1] at hv
      simp only [Option.some.injEq] at hv
      refine ⟨rest, ?_, ?_⟩
      · simp only [List.filter_cons, hpa, Bool.not_true, Bool.false_eq_true, if_false]
        exact hrest
      · simp only [List.filter_cons, hpa, if_true, List.length_cons, List.sum_cons, hsum, hv]
        rw [Nat.add_mul]
        omega
    | false =>
      refine ⟨n + rest, ?_, ?_⟩
      · simp only [List.filter_cons, hpa, Bool.not_false, if_true, sum_over, h1, hrest]
      · simp only [List.filter_cons, hpa, Bool.false_eq_true, if_false, List.sum_cons, hsum]
        omega

theorem forall2_filter {A B : Type} (R : A → B → Prop) (p : A → Bool) (l : List A)
    (outs : List B) (hall : List.Forall₂ R l outs) :
    ∃ copies, List.Forall₂ (fun a b => p a = true ∧ R a b) (l.filter p) copies ∧
      copies.Sublist outs := by
  induction hall with
  | nil => exact ⟨[], List.Forall₂.nil, List.Sublist.slnil⟩
  | @cons a b l2 outs2 h1 _ ih =>
    obtain ⟨copies, hcopies, hsub⟩ := ih
    cases hpa : p a with
    | true =>
      refine ⟨b :: copies, ?_, List.Sublist.cons₂ b hsub⟩
      simp only [List.filter_cons, hpa, if_true]
      exact List.Forall₂.cons ⟨hpa, h1⟩ hcopies
    | false =>
      refine ⟨copies, ?_, List.Sublist.cons b hsub⟩
      simp only [List.filter_cons, hpa, Bool.false_eq_true, if_false]
      exact hcopies

theorem twin_instance_acyclic (fs : StixMeshFacetSet Int) : Acyclic (twin_instance_model fs) := by
  refine ⟨⟨1, fun r hr => ?_⟩, ?_⟩
  · have hne : r ≠ 0 := by omega
    simp [twin_instance_model, hne]
  · refine no_cycle_of_rank _ (fun r => if r = 0 then 1 else 0) ?_
    rintro c r ⟨m, hm, l, hl, hc⟩
    by_cases hr : r = 0
    · subst hr
      simp only [twin_instance_model, if_true, Option.some.injEq] at hm
      subst hm
      simp only [List.cons_append, List.nil_append, List.mem_cons, List.mem_singleton,
        List.not_mem_nil, or_false] at hl
      have hc1 : c = 1 := by
        rcases hl with hl | hl
        · subst hl
          simp only [Option.some.injEq] at hc
          exact hc.symm
        · subst hl
          simp only [Option.some.injEq] at hc
          exact hc.symm
      subst hc1
      decide
    · simp [twin_instance_model, hr] at hm

/-- C16, as the code has it: when `k` child linkages of a representation, of
either kind, lead to the same child representation, whose count is `n`, the
count of the representation is its item sum plus `k * n` plus the counts of
the other linkages, reduced modulo `2 ^ 32` (equal to that sum when it is below
`2 ^ 32`), and its output holds, in linkage order, one complete output of the
child for each of the `k` linkages, written under that linkage's own placement
`xform * accumulated`. -/
theorem shared_child_expanded {D M : Type} (P : Prims D M) (h : Host) (g : Model D M)
    (fuel r c : Nat) (m : StixMgrAsmShapeRep M) (X : M) (n : Nat)
    (hm : g.rep_mgr r = some m)
    (hn : count_mesh_for_shape g fuel (some c) = some n) :
    (∀ total, count_mesh_for_shape g (fuel + 1) (some r) = some total →
      ∃ rest,
        sum_over (fun (l : Linkage M) => count_mesh_for_shape g fuel l.child_rep)
          ((m.child_rels ++ m.child_mapped_items).filter
            (fun l => !decide (l.child_rep = some c))) = some rest ∧
        total = (items_facet_sum g (g.items r) +
          ((m.child_rels ++ m.child_mapped_items).filter
            (fun l => decide (l.child_rep = some c))).length * n + rest) % UINT_MOD ∧
        (items_facet_sum g (g.items r) +
          ((m.child_rels ++ m.child_mapped_items).filter
            (fun l => decide (l.child_rep = some c))).length * n + rest < UINT_MOD →
          total = items_facet_sum g (g.items r) +
            ((m.child_rels ++ m.child_mapped_items).filter
              (fun l => decide (l.child_rep = some c))).length * n + rest)) ∧
    (∀ out, print_mesh_for_shape P h g (fuel + 1) (some r) X = some out →
      ∃ outs copies,
        List.Forall₂ (fun (l : Linkage M) o =>
          print_mesh_for_shape P h g fuel l.child_rep (P.mul l.xform X) = some o)
          (m.child_rels ++ m.child_mapped_items) outs ∧
        out = print_items P h g X (g.items r) ++ outs.flatten ∧
        List.Forall₂ (fun (l : Linkage M) o =>
          print_mesh_for_shape P h g fuel (some c) (P.mul l.xform X) = some o)
          ((m.child_rels ++ m.child_mapped_items).filter
            (fun l => decide (l.child_rep = some c))) copies ∧
        copies.Sublist outs ∧
        copies.length = ((m.child_rels ++ m.child_mapped_items).filter
          (fun l => decide (l.child_rep = some c))).length) := by
  constructor
  · intro total htotal
    obtain ⟨rels, mapped, hrels, hmapped, hsum⟩ :=
      (count_mesh_for_shape_some_iff g fuel r m total hm).mp htotal
    have hall : List.Forall₂ (fun (l : Linkage M) n =>
        count_mesh_for_shape g fuel l.child_rep = some n)
        (m.child_rels ++ m.child_mapped_items) (rels ++ mapped) :=
      List.rel_append hrels hmapped
    obtain ⟨rest, hrest, hsplit⟩ := forall2_split_sum
      (fun (l : Linkage M) => count_mesh_for_shape g fuel l.child_rep)
      (fun l => decide (l.child_rep = some c)) n
      (fun l hl => by
        have hlc : l.child_rep = some c := of_decide_eq_true hl
        simp only [hlc]
        exact hn)
      _ _ hall
    rw [List.sum_append] at hsplit
    have htot : total = (items_facet_sum g (g.items r) +
        ((m.child_rels ++ m.child_mapped_items).filter
          (fun l => decide (l.child_rep = some c))).length * n + rest) % UINT_MOD := by
      rw [hsum]
      simp only [UINT_MOD]
      omega
    exact ⟨rest, hrest, htot, fun hlt => by rw [htot, Nat.mod_eq_of_lt hlt]⟩
  · intro out hout
    obtain ⟨rels, mapped, hrels, hmapped, hcat⟩ :=
      (print_mesh_for_shape_some_iff P h g fuel r m X out hm).mp hout
    have hall : List.Forall₂ (fun (l : Linkage M) o =>
        print_mesh_for_shape P h g fuel l.child_rep (P.mul l.xform X) = some o)
        (m.child_rels ++ m.child_mapped_items) (rels ++ mapped) :=
      List.rel_append hrels hmapped
    obtain ⟨copies, hcopies, hsub⟩ := forall2_filter _
      (fun (l : Linkage M) => decide (l.child_rep = some c)) _ _ hall
    refine ⟨rels ++ mapped, copies, hall, ?_, ?_, hsub, ?_⟩
    · rw [hcat, List.flatten_append, List.append_assoc]
    · refine List.Forall₂.imp ?_ hcopies
      rintro l o ⟨hl, hlo⟩
      have hlc : l.child_rep = some c := of_decide_eq_true hl
      rw [← hlc]
      exact hlo
    · exact (List.Forall₂.length_eq hcopies).symm

/-- Witness of C16 on the assembly whose root reaches representation 1 by a
direct relationship and by a mapped item. -/
theorem shared_child_expanded_witness :
    (twin_instance_model one_facet).rep_mgr 0 =
      some ⟨[⟨some 1, ⟨5, 0, 0⟩⟩], [⟨some 1, ⟨0, 7, 0⟩⟩]⟩ ∧
    count_mesh_for_shape (twin_instance_model one_facet) 1 (some 1) = some 1 ∧
    ∃ rest,
      sum_over (fun (l : Linkage (Dbl3 Int)) =>
        count_mesh_for_shape (twin_instance_model one_facet) 1 l.child_rep)
        (([⟨some 1, ⟨5, 0, 0⟩⟩] ++ [⟨some 1, ⟨0, 7, 0⟩⟩] : List (Linkage (Dbl3 Int))).filter
          (fun l => !decide (l.child_rep = some 1))) = some rest ∧
      2 = (items_facet_sum (twin_instance_model one_facet)
          ((twin_instance_model one_facet).items 0) +
        (([⟨some 1, ⟨5, 0, 0⟩⟩] ++ [⟨some 1, ⟨0, 7, 0⟩⟩] : List (Linkage (Dbl3 Int))).filter
          (fun l => decide (l.child_rep = some 1))).length * 1 +
        rest) % UINT_MOD := by
  obtain ⟨rest, hrest, htot, _⟩ :=
    (shared_child_expanded translation_prims host_intel (twin_instance_model one_facet) 1 0 1
      ⟨[⟨some 1, ⟨5, 0, 0⟩⟩], [⟨some 1, ⟨0, 7, 0⟩⟩]⟩ ⟨0, 0, 0⟩ 1 rfl (by decide)).1 2
      (by decide)
  exact ⟨rfl, by decide, rest, hrest, htot⟩

/-- C16 fails as stated: a child of count `2 ^ 31` reached by two linkages
adds `2 * 2 ^ 31 = 2 ^ 32` to a representation without items, and
`count_mesh_for_shape` returns 0 for that representation. -/
theorem shared_child_expanded_counterexample :
    Acyclic (twin_instance_model half_range_facets) ∧
    (twin_instance_model half_range_facets).items 0 = [] ∧
    (twin_instance_model half_range_facets).rep_mgr 0 =
      some ⟨[⟨some 1, ⟨5, 0, 0⟩⟩], [⟨some 1, ⟨0, 7, 0⟩⟩]⟩ ∧
    count_mesh_for_shape (twin_instance_model half_range_facets) 1 (some 1) =
      some 2147483648 ∧
    count_mesh_for_shape (twin_instance_model half_range_facets) 2 (some 0) = some 0 ∧
    count_mesh_for_shape (twin_instance_model half_range_facets) 2 (some 0) ≠
      some (2 * 2147483648) :=
  ⟨twin_instance_acyclic _, rfl, rfl, by decide, by decide, by decide⟩


/-- Witness of C19 on the two-level assembly written to standard output: the
count field decodes to the exact total. -/
theorem header_count_wraps_witness :
    ∃ log total,
      write_binary_stl translation_prims host_intel two_level_model (fun _ => true) 2
        opts_stdout = some (0, log) ∧
      facet_total_roots two_level_model 2 opts_stdout.root_prods = some total ∧
      le_decode (((bytes_written log).drop 80).take 4) = total % UINT_MOD := by
  obtain ⟨total, htotal, _, hdec, _⟩ :=
    (header_count_wraps translation_prims host_intel two_level_model (fun _ => true)
      opts_stdout).2.2.2.1 2 _ rfl
  exact ⟨_, total, rfl, htotal, hdec⟩


/-! ## Streams of a successful run -/

theorem success_log {D M : Type} (P : Prims D M) (h : Host) (g : Model D M)
    (can_open : String → Bool) (fuel : Nat) (opts : stp2webgl_opts) (log : List Event)
    (hrun : write_binary_stl P h g can_open fuel opts = some (0, log)) :
    ∃ count out,
      log = (match opts.dstfile with
          | none => []
          | some path => [Event.rose_fopen path true]) ++
        [Event.facet_all_products, Event.write (destination opts) header_buf,
          Event.write (destination opts) (write_unsigned count),
          Event.write (destination opts) out, Event.fclose (destination opts)] := by
  unfold write_binary_stl at hrun
  cases hsplit : opts.do_split with
  | true => simp [hsplit] at hrun
  | false =>
    simp only [hsplit, Bool.false_eq_true, if_false] at hrun
    cases hdst : opts.dstfile with
    | none =>
      simp only [hdst] at hrun
      obtain ⟨_, count, out, _, _, hlog⟩ := write_to_stream_some P h g fuel opts _ _ _ hrun
      exact ⟨count, out, by simp [destination, hdst, hlog]⟩
    | some path =>
      simp only [hdst] at hrun
      cases hopen : can_open path with
      | false => simp [hopen] at hrun
      | true =>
        simp only [hopen, if_true] at hrun
        cases hbody : write_to_stream P h g fuel opts (Stream.file path) with
        | none => simp [hbody] at hrun
        | some res =>
          obtain ⟨status, body⟩ := res
          simp only [hbody, Option.some.injEq, Prod.mk.injEq] at hrun
          obtain ⟨_, count, out, _, _, hlog⟩ :=
            write_to_stream_some P h g fuel opts _ _ _ hbody
          exact ⟨count, out, by simp [destination, hdst, ← hrun.2, hlog]⟩

theorem success_bytes_to_destination {D M : Type} (P : Prims D M) (h : Host) (g : Model D M)
    (can_open : String → Bool) (fuel : Nat) (opts : stp2webgl_opts) (log : List Event)
    (hrun : write_binary_stl P h g can_open fuel opts = some (0, log)) :
    bytes_to (destination opts) log = bytes_written log ∧
    (∀ msg, Event.printf msg ∉ log) ∧
    (∀ s, s ≠ destination opts → bytes_to s log = []) := by
  obtain ⟨count, out, hlog⟩ := success_log P h g can_open fuel opts log hrun
  subst hlog
  cases hdst : opts.dstfile with
  | none =>
    refine ⟨by simp [bytes_to, bytes_written], by simp, ?_⟩
    intro s hs
    have hne : ¬ destination opts = s := fun heq => hs heq.symm
    simp [bytes_to, hne]
  | some path =>
    refine ⟨by simp [bytes_to, bytes_written], by simp, ?_⟩
    intro s hs
    have hne : ¬ destination opts = s := fun heq => hs heq.symm
    simp [bytes_to, hne]


end StlBin
